import Mathlib

/-!
# go-perun: channel controller, settlement and the demo payment transfer

A shallow embedding of

* `client/channel.go`: `Channel.Settle` and `Channel.initExchangeSigsAndEnable`,
* `perun/cmd/demo/payment.go`: `transferBal`,

together with the parts of the channel state machine (`channel.StateMachine`)
that these functions call.  The state machine itself is not among the source
files.  The controller functions are therefore written over an arbitrary
implementation of the operations they call (`MachineOps`); one implementation,
`specOps`, is modelled from section 4.D of the specification and is marked as
such.

Conventions.

* A Go `error` result is an `Option Error` (`none` is `nil`); a Go result pair
  `(v, err)` is an `Except Error _`.
* A method with a pointer receiver that returns an error maps the receiver to
  the error together with the receiver afterwards.
* Calls to collaborators are recorded, in program order and with their results,
  in an effect trace.  A call is recorded whether or not it succeeds.
* Instants of `time.Time` are natural numbers on one logical time line.
-/

namespace Perun

/-! ## Errors (`github.com/pkg/errors`) -/

/-- Error values: a root error, or a layer put around a cause by
`errors.WithMessage` or `errors.Wrap`. -/
inductive Error where
  | New (msg : String)
  | WithMessage (cause : Error) (msg : String)
  | Wrap (cause : Error) (msg : String)
  deriving DecidableEq, Repr

/-- The root of an error, as `errors.Cause` finds it by walking the layers. -/
def Error.Cause : Error → Error
  | .New msg => .New msg
  | .WithMessage cause _ => cause.Cause
  | .Wrap cause _ => cause.Cause

/-- The call `errors.WithMessage(err, msg)`: `nil` stays `nil`. -/
def WithMessage (err : Option Error) (msg : String) : Option Error :=
  match err with
  | none => none
  | some e => some (Error.WithMessage e msg)

/-! ## Channel data -/

/-- Phases of the channel state machine, in the order of the phase graph. -/
inductive Phase where
  | InitActing
  | InitSigning
  | Funding
  | Acting
  | Signing
  | Final
  | Registering
  | Registered
  | Withdrawing
  | Withdrawn
  deriving DecidableEq, Repr

abbrev ID := Nat
abbrev Index := Nat
abbrev Address := Nat
abbrev Sig := Nat

/-- Channel parameters. -/
structure Params where
  id : ID
  ChallengeDuration : Nat
  Parts : List Address
  deriving DecidableEq, Repr

/-- Channel state: `OfParts[i][a]` is the balance of participant `i` in asset `a`. -/
structure State where
  ID : ID
  Version : Nat
  OfParts : List (List Int)
  IsFinal : Bool
  deriving DecidableEq, Repr

/-- A state together with the signatures collected on it, by participant index. -/
structure Transaction where
  State : State
  Sigs : List (Option Sig)
  deriving DecidableEq, Repr

/-- The state machine of one channel: phase, own account and index, parameters,
the staged transaction and the current one. -/
structure StateMachine where
  phase : Phase
  acc : Address
  idx : Index
  params : Params
  stagingTX : Transaction
  currentTX : Transaction
  deriving DecidableEq, Repr

/-- The request handed to the adjudicator. -/
structure AdjudicatorReq where
  Params : Params
  Acc : Address
  Idx : Index
  Tx : Transaction
  deriving DecidableEq, Repr

/-- What the adjudicator reports on a successful registration. -/
structure Registration where
  Version : Nat
  Timeout : Nat
  deriving DecidableEq, Repr

/-- The wallet backend: signing a state with an account and verifying a
signature on a state against an address. -/
structure Wallet where
  Sign : Address → State → Except Error Sig
  Verify : Address → State → Sig → Bool

/-! ## State machine operations -/

namespace StateMachine

/-- Modelled from the spec: the accessor `Phase()` of the state machine
(`channel/machine.go` is not among the sources). -/
def Phase (m : StateMachine) : Perun.Phase := m.phase

/-- Modelled from the spec: the accessor `State()` of the state machine, the
current state. -/
def State (m : StateMachine) : Perun.State := m.currentTX.State

/-- Modelled from the spec: the accessor `ID()` of the state machine, the
channel id of the parameters. -/
def ID (m : StateMachine) : Perun.ID := m.params.id

/-- Modelled from the spec: the accessor `Idx()` of the state machine. -/
def Idx (m : StateMachine) : Index := m.idx

/-- Modelled from the spec: the error of an operation invoked in the wrong
phase (section 4.D, `PhaseViolation`). -/
def PhaseViolation : Error := Error.New "PhaseViolation"

/-- Modelled from the spec: a settlement transition of the state machine
(section 4.D) is legal only from the immediately prior phase; an illegal one
signals `PhaseViolation` and changes nothing. -/
def transition (src dst : Perun.Phase) (m : StateMachine) : Except Error StateMachine :=
  if m.phase = src then .ok { m with phase := dst } else .error PhaseViolation

/-- Modelled from the spec: `set_registering`, legal only from `Final`. -/
def SetRegistering (m : StateMachine) : Except Error StateMachine :=
  transition .Final .Registering m

/-- Modelled from the spec: `set_registered`, legal only from `Registering`. -/
def SetRegistered (m : StateMachine) : Except Error StateMachine :=
  transition .Registering .Registered m

/-- Modelled from the spec: `set_withdrawing`, legal only from `Registered`. -/
def SetWithdrawing (m : StateMachine) : Except Error StateMachine :=
  transition .Registered .Withdrawing m

/-- Modelled from the spec: `set_withdrawn`, legal only from `Withdrawing`. -/
def SetWithdrawn (m : StateMachine) : Except Error StateMachine :=
  transition .Withdrawing .Withdrawn m

/-- Modelled from the spec: `AdjudicatorReq()` of the state machine; the request
carries the parameters, our account and index, and the current (fully signed)
transaction (section 4.G). -/
def AdjudicatorReq (m : StateMachine) : Perun.AdjudicatorReq :=
  { Params := m.params, Acc := m.acc, Idx := m.idx, Tx := m.currentTX }

/-- Modelled from the spec: `InvalidSignature` of `add_sig` (section 4.D). -/
def InvalidSignature : Error := Error.New "InvalidSignature"

/-- Modelled from the spec: `DuplicateSignature` of `add_sig` (section 4.D). -/
def DuplicateSignature : Error := Error.New "DuplicateSignature"

/-- Modelled from the spec: the staged state is fully signed when every
participant has signed (section 3). -/
def fullySigned (m : StateMachine) : Bool :=
  m.stagingTX.Sigs.length == m.params.Parts.length && m.stagingTX.Sigs.all Option.isSome

/-- Modelled from the spec: `sig()`, our signature of the staged state
(section 4.D).  It is computed once and kept with the staged state, so a second
call in the same phase returns the same signature. -/
def Sig (w : Wallet) (m : StateMachine) : Except Error (Perun.Sig × StateMachine) :=
  match m.stagingTX.Sigs.getD m.idx none with
  | some s => .ok (s, m)
  | none =>
    match w.Sign m.acc m.stagingTX.State with
    | .error e => .error e
    | .ok s =>
      .ok (s, { m with stagingTX := { m.stagingTX with Sigs := m.stagingTX.Sigs.set m.idx (some s) } })

/-- Modelled from the spec: `add_sig(peer_idx, sig)` (section 4.D): rejected with
`DuplicateSignature` if that participant has signed already and with
`InvalidSignature` if the signature does not verify against the staged state and
the address of the participant; a rejected signature changes nothing. -/
def AddSig (w : Wallet) (m : StateMachine) (idx : Index) (sig : Perun.Sig) :
    Except Error StateMachine :=
  if (m.stagingTX.Sigs.getD idx none).isSome then .error DuplicateSignature
  else
    match m.params.Parts[idx]? with
    | none => .error InvalidSignature
    | some addr =>
      if w.Verify addr m.stagingTX.State sig then
        .ok { m with stagingTX := { m.stagingTX with Sigs := m.stagingTX.Sigs.set idx (some sig) } }
      else .error InvalidSignature

/-- Modelled from the spec: `enable_init()` (section 4.D), legal only when
`InitSigning` has all signatures; it commits the staged state and advances to
`Funding`. -/
def EnableInit (m : StateMachine) : Except Error StateMachine :=
  if m.phase = .InitSigning ∧ m.fullySigned = true then
    .ok { m with phase := .Funding, currentTX := m.stagingTX }
  else .error PhaseViolation

end StateMachine

/-- The operations of `channel.StateMachine` that the channel controller calls.
Each one yields its result together with the state machine afterwards. -/
structure MachineOps (M : Type) where
  Phase : M → Perun.Phase
  State : M → Perun.State
  ID : M → Perun.ID
  Sig : M → Except Error Perun.Sig × M
  AddSig : M → Index → Perun.Sig → Option Error × M
  EnableInit : M → Option Error × M
  SetRegistering : M → Option Error × M
  SetRegistered : M → Option Error × M
  SetWithdrawing : M → Option Error × M
  SetWithdrawn : M → Option Error × M
  AdjudicatorReq : M → Perun.AdjudicatorReq

/-- A fallible operation that changes nothing when it fails, as a method on the
state machine. -/
def method {M : Type} (f : M → Except Error M) (m : M) : Option Error × M :=
  match f m with
  | .ok m1 => (none, m1)
  | .error e => (some e, m)

/-- Modelled from the spec: the state machine of section 4.D as an
implementation of the operations the controller calls (`channel/machine.go` is
not among the sources). -/
def specOps (w : Wallet) : MachineOps StateMachine where
  Phase := StateMachine.Phase
  State := StateMachine.State
  ID := StateMachine.ID
  Sig := fun m =>
    match m.Sig w with
    | .ok (s, m1) => (.ok s, m1)
    | .error e => (.error e, m)
  AddSig := fun m idx sig => method (fun m => m.AddSig w idx sig) m
  EnableInit := method StateMachine.EnableInit
  SetRegistering := method StateMachine.SetRegistering
  SetRegistered := method StateMachine.SetRegistered
  SetWithdrawing := method StateMachine.SetWithdrawing
  SetWithdrawn := method StateMachine.SetWithdrawn
  AdjudicatorReq := StateMachine.AdjudicatorReq

/-! ## The collaborators of the controller -/

/-- A `context.Context` as the controller sees it: the instant at which `Done()`
is closed (`none` if it never is) and the value `Err()` has from then on. -/
structure Context where
  doneAt : Option Nat
  err : Error

/-- The `channel.Adjudicator` interface. -/
structure Adjudicator where
  Register : Context → AdjudicatorReq → Except Error Registration
  Withdraw : Context → AdjudicatorReq → Option Error

/-- What the Go runtime contributes to one run of `Settle`: the reading of
`time.Now()`, and which case a `select` takes when both of its channels become
ready at the same instant. -/
structure Runtime where
  now : Nat
  tieCtx : Bool

/-- Wire messages a channel connection can deliver: the two responses to an
update, and a message of any other Go type, given by the name `%T` prints for
its type and the text `%v` prints for it. -/
inductive Msg where
  | ChannelUpdateAcc (ChannelID : ID) (Version : Nat) (Sig : Sig)
  | ChannelUpdateRej (ChannelID : ID) (Version : Nat) (Reason : String)
  | Other (typeName : String) (text : String)
  deriving DecidableEq, Repr

/-- The channel connection as `initExchangeSigsAndEnable` uses it: creating the
receiver for update responses of a version, sending a message, and the next
message of the receiver, which is `none` when the context ended first. -/
structure ChannelConn where
  NewUpdateResRecv : Nat → Option Error
  Send : Context → Msg → Option Error
  Next : Context → Index × Option Msg

/-- The channel controller, reduced to the fields used here. -/
structure Channel (M : Type) where
  conn : ChannelConn
  machine : M
  adjudicator : Adjudicator

/-! ## Settlement -/

/-- The calls `Settle` makes on the state machine and on the adjudicator, each
with its result.  `Withdraw` also carries the earliest instant at which the
call can take place. -/
inductive Effect where
  | SetRegistering (err : Option Error)
  | Register (req : AdjudicatorReq) (res : Except Error Registration)
  | SetRegistered (err : Option Error)
  | SetWithdrawing (err : Option Error)
  | Withdraw (clock : Nat) (req : AdjudicatorReq) (err : Option Error)
  | SetWithdrawn (err : Option Error)

/-- The six steps of a settlement, without arguments and results. -/
inductive Step where
  | SetRegistering
  | Register
  | SetRegistered
  | SetWithdrawing
  | Withdraw
  | SetWithdrawn
  deriving DecidableEq, Repr

/-- The step an effect belongs to. -/
def Effect.step : Effect → Step
  | .SetRegistering _ => .SetRegistering
  | .Register _ _ => .Register
  | .SetRegistered _ => .SetRegistered
  | .SetWithdrawing _ => .SetWithdrawing
  | .Withdraw _ _ _ => .Withdraw
  | .SetWithdrawn _ => .SetWithdrawn

/-- Whether the recorded call returned an error. -/
def Effect.failed : Effect → Bool
  | .SetRegistering err => err.isSome
  | .Register _ (.error _) => true
  | .Register _ (.ok _) => false
  | .SetRegistered err => err.isSome
  | .SetWithdrawing err => err.isSome
  | .Withdraw _ _ err => err.isSome
  | .SetWithdrawn err => err.isSome

/-- The steps of a complete settlement, in order. -/
def settleSteps : List Step :=
  [.SetRegistering, .Register, .SetRegistered, .SetWithdrawing, .Withdraw, .SetWithdrawn]

/-- Outcome of `Settle`: the returned error, the state machine afterwards and
the calls made. -/
structure SettleResult (M : Type) where
  err : Option Error
  machine : M
  trace : List Effect

/-- Outcome of the wait for the withdrawal timeout in `Settle`. -/
inductive Waited where
  | elapsed (clock : Nat)
  | ctxDone (err : Error)
  deriving DecidableEq, Repr

/-- The `select` of `Settle` on a timer that fires at instant `timeout` and on
`ctx.Done()`: the channel that becomes ready first decides. -/
def awaitTimeout (ctx : Context) (rt : Runtime) (timeout : Nat) : Waited :=
  match ctx.doneAt with
  | none => .elapsed timeout
  | some d =>
    if d < timeout then .ctxDone ctx.err
    else if d = timeout ∧ rt.tieCtx = true then .ctxDone ctx.err
    else .elapsed timeout

/-- The error of the version check in `Settle`. -/
def unexpectedVersion (registered expected : Nat) : Error :=
  Error.New ("unexpected version " ++ toString registered ++ " registered, expected "
    ++ toString expected)

/-- The error of the final-state check in `Settle`. -/
def notFinal : Error :=
  Error.New "currently, only channels in a final state can be settled"

/-- The tail of `Settle` from `SetWithdrawing` on (lines 204 to 210), entered
at instant `clock` with the calls `tr` made so far. -/
def settleWithdraw {M : Type} (ops : MachineOps M) (adj : Adjudicator) (ctx : Context)
    (m : M) (req : AdjudicatorReq) (clock : Nat) (tr : List Effect) : SettleResult M :=
  match ops.SetWithdrawing m with
  | (some e, m3) => ⟨some e, m3, tr ++ [.SetWithdrawing (some e)]⟩
  | (none, m3) =>
    match adj.Withdraw ctx req with
    | some e =>
      ⟨some (Error.WithMessage e "calling Withdraw"), m3,
        tr ++ [.SetWithdrawing none, .Withdraw clock req (some e)]⟩
    | none =>
      let r := ops.SetWithdrawn m3
      ⟨r.1, r.2, tr ++ [.SetWithdrawing none, .Withdraw clock req none, .SetWithdrawn r.1]⟩

/-- `Channel.Settle` (client/channel.go, lines 166 to 211). -/
def Settle {M : Type} (ops : MachineOps M) (c : Channel M) (ctx : Context) (rt : Runtime) :
    SettleResult M :=
  let m := c.machine
  if ops.Phase m ≠ Phase.Final ∨ (ops.State m).IsFinal = false then
    ⟨some notFinal, m, []⟩
  else
    match ops.SetRegistering m with
    | (some e, m1) => ⟨some e, m1, [.SetRegistering (some e)]⟩
    | (none, m1) =>
      let req := ops.AdjudicatorReq m1
      match c.adjudicator.Register ctx req with
      | .error e =>
        ⟨some (Error.WithMessage e "calling Register"), m1,
          [.SetRegistering none, .Register req (.error e)]⟩
      | .ok reg =>
        match ops.SetRegistered m1 with
        | (some e, m2) =>
          ⟨some e, m2, [.SetRegistering none, .Register req (.ok reg), .SetRegistered (some e)]⟩
        | (none, m2) =>
          let tr : List Effect :=
            [.SetRegistering none, .Register req (.ok reg), .SetRegistered none]
          if reg.Version ≠ req.Tx.State.Version then
            ⟨some (unexpectedVersion reg.Version req.Tx.State.Version), m2, tr⟩
          else if rt.now < reg.Timeout then
            match awaitTimeout ctx rt reg.Timeout with
            | .ctxDone e => ⟨some (Error.Wrap e "ctx done"), m2, tr⟩
            | .elapsed clock => settleWithdraw ops c.adjudicator ctx m2 req clock tr
          else settleWithdraw ops c.adjudicator ctx m2 req rt.now tr

/-! ## Opening: exchange of the signatures on the initial state -/

/-- The calls `initExchangeSigsAndEnable` makes, each with its result.  `Send`
stands at the place of the `go` statement that starts it: the call runs
concurrently with what follows and its result is read only by the final
receive on `send`. -/
inductive InitEffect where
  | Sig (res : Except Error Perun.Sig)
  | NewUpdateResRecv (ver : Nat) (err : Option Error)
  | Send (msg : Msg) (err : Option Error)
  | Next (pidx : Index) (cm : Option Msg)
  | AddSig (idx : Index) (sig : Perun.Sig) (err : Option Error)
  | EnableInit (err : Option Error)
  | Close

/-- Outcome of `initExchangeSigsAndEnable`. -/
structure InitResult (M : Type) where
  err : Option Error
  machine : M
  trace : List InitEffect

/-- The name `%T` prints for a received message; the `nil` message of an ended
context prints as `<nil>`. -/
def Msg.typeName : Option Msg → String
  | none => "<nil>"
  | some (.ChannelUpdateAcc _ _ _) => "*client.msgChannelUpdateAcc"
  | some (.ChannelUpdateRej _ _ _) => "*client.msgChannelUpdateRej"
  | some (.Other typeName _) => typeName

/-- The text `%v` prints for a received message: `<nil>` for the `nil` message,
and for a pointer to a message its fields in `&` and braces, each field as the
number or the text that stands for it here. -/
def Msg.text : Option Msg → String
  | none => "<nil>"
  | some (.ChannelUpdateAcc id v sig) =>
    "&\x7b" ++ toString id ++ " " ++ toString v ++ " " ++ toString sig ++ "\x7d"
  | some (.ChannelUpdateRej id v reason) =>
    "&\x7b" ++ toString id ++ " " ++ toString v ++ " " ++ reason ++ "\x7d"
  | some (.Other _ text) => text

/-- The error for a response that is not an `UpdateAcc` (lines 149 to 151):
`"received unexpected message of type (%T) from peer[%d]: %v"` with the
message, the index of the peer and the message again. -/
def unexpectedMessage (pidx : Index) (cm : Option Msg) : Error :=
  Error.New ("received unexpected message of type (" ++ Msg.typeName cm ++ ") from peer["
    ++ toString pidx ++ "]: " ++ Msg.text cm)

/-- The part of `initExchangeSigsAndEnable` after the response arrived (lines
147 to 161): `send` is the result of the concurrent `Send`. -/
def initAfterNext {M : Type} (ops : MachineOps M) (m1 : M) (send : Option Error)
    (pidx : Index) (cm : Option Msg) (tr : List InitEffect) : InitResult M :=
  match cm with
  | some (.ChannelUpdateAcc _ _ accSig) =>
    match ops.AddSig m1 pidx accSig with
    | (some e, m2) => ⟨some e, m2, tr ++ [.AddSig pidx accSig (some e), .Close]⟩
    | (none, m2) =>
      match ops.EnableInit m2 with
      | (some e, m3) =>
        ⟨some e, m3, tr ++ [.AddSig pidx accSig none, .EnableInit (some e), .Close]⟩
      | (none, m3) =>
        ⟨WithMessage send "sending initial signature", m3,
          tr ++ [.AddSig pidx accSig none, .EnableInit none, .Close]⟩
  | _ => ⟨some (unexpectedMessage pidx cm), m1, tr ++ [.Close]⟩

/-- Whether a call is the `Send` of a message. -/
def InitEffect.isSend : InitEffect → Bool
  | .Send _ _ => true
  | _ => false

/-- `Channel.initExchangeSigsAndEnable` (client/channel.go, lines 125 to 162).
The started goroutine evaluates `c.ID()`; the channel id is read here from the
state machine as `Sig` left it. -/
def initExchangeSigsAndEnable {M : Type} (ops : MachineOps M) (c : Channel M) (ctx : Context) :
    InitResult M :=
  match ops.Sig c.machine with
  | (.error e, m1) => ⟨some e, m1, [.Sig (.error e)]⟩
  | (.ok sig, m1) =>
    match c.conn.NewUpdateResRecv 0 with
    | some e =>
      ⟨some (Error.WithMessage e "creating update response receiver"), m1,
        [.Sig (.ok sig), .NewUpdateResRecv 0 (some e)]⟩
    | none =>
      let msg := Msg.ChannelUpdateAcc (ops.ID m1) 0 sig
      let send := c.conn.Send ctx msg
      let next := c.conn.Next ctx
      initAfterNext ops m1 send next.1 next.2
        [.Sig (.ok sig), .NewUpdateResRecv 0 none, .Send msg send, .Next next.1 next.2]

/-! ## The demo payment transfer -/

/-- Memory holding the `big.Int` values: a `*big.Int` is an address, and the
heap gives the integer stored there. -/
abbrev Heap := Nat → Int

/-- `transferBal` (perun/cmd/demo/payment.go, lines 73 to 80).  `bals` is the
slice of balance pointers and `amount` the pointer to the amount; the result is
the heap after the call, or `none` when an index is out of range (a panic).
`ourIdx ^ 1` stays below `2 ^ 16` for a 16-bit index. -/
def transferBal (h : Heap) (bals : List Nat) (ourIdx : Index) (amount : Nat) : Option Heap :=
  let a : Int := h amount
  let otherIdx := ourIdx ^^^ 1
  match bals[ourIdx]? with
  | none => none
  | some ourBal =>
    match bals[otherIdx]? with
    | none => none
    | some otherBal =>
      let h1 : Heap := Function.update h otherBal (h otherBal + a)
      let a1 : Int := -a
      some (Function.update h1 ourBal (h1 ourBal + a1))

/-! ## The demo payment channel -/

/-- Modelled from the spec: `State.Clone` (`clone_state`, section 4.C;
channel/state.go is not among the sources), an independent copy of the state:
its balance cells are cells of their own. -/
def State.Clone (s : State) : State := s

/-- A `client.ChannelUpdate`: the proposed state and the index of the actor. -/
structure ChannelUpdate where
  State : State
  ActorIdx : Index
  deriving DecidableEq, Repr

/-- The methods of `client.Channel` that the payment channel calls.  `State`
and `Idx` read the state machine; `Update` (client/update.go) is not among the
sources and is taken as it comes: it yields its error and the channel
afterwards.  The context it receives carries the timeout of the configuration
only. -/
structure ChannelAPI (C : Type) where
  State : C → Perun.State
  Idx : C → Index
  Update : C → ChannelUpdate → Option Error × C

/-- Outcome of `sendUpdate`: the returned error, the channel afterwards and the
arguments of the calls of `Channel.Update`. -/
structure SendResult (C : Type) where
  err : Option Error
  channel : C
  updates : List ChannelUpdate

/-- `paymentChannel.sendUpdate` (perun/cmd/demo/payment.go, lines 56 to 71).
The update function works on the clone and yields `none` when it panics, and
then so does `sendUpdate`.  `state.Version++` is an increment of a `uint64`. -/
def sendUpdate {C : Type} (api : ChannelAPI C) (ch : C) (update : State → Option State) :
    Option (SendResult C) :=
  let state := (api.State ch).Clone
  match update state with
  | none => none
  | some state1 =>
    let state2 : State := { state1 with Version := (state1.Version + 1) % 2 ^ 64 }
    let up : ChannelUpdate := ⟨state2, api.Idx ch⟩
    let r := api.Update ch up
    some ⟨r.1, r.2, [up]⟩

/-- `stateBals` (perun/cmd/demo/payment.go, lines 82 to 84): the balances of
asset 0 of participants 0 and 1, read in that order; `none` when an index is
out of range (a panic). -/
def stateBals (state : State) : Option (Int × Int) :=
  match state.OfParts[0]? with
  | none => none
  | some part0 =>
    match part0[0]? with
    | none => none
    | some b0 =>
      match state.OfParts[1]? with
      | none => none
      | some part1 =>
        match part1[0]? with
        | none => none
        | some b1 => some (b0, b1)

/-- The state with the balances of asset 0 of participants 0 and 1 replaced. -/
def setStateBals (state : State) (b0 b1 : Int) : State :=
  { state with
    OfParts := (state.OfParts.modify (fun part => part.set 0 b0) 0).modify
      (fun part => part.set 0 b1) 1 }

/-- The update function of `sendMoney` (perun/cmd/demo/payment.go, lines 44 to
46): `transferBal` on the balance pointers of the state.  The two balances of
the clone are the cells 0 and 1 of the heap and the amount, a `big.Int` of the
caller, is the cell 2. -/
def sendMoneyUpdate (idx : Index) (amount : Int) (state : State) : Option State :=
  match stateBals state with
  | none => none
  | some (b0, b1) =>
    let h : Heap := fun p => if p = 0 then b0 else if p = 1 then b1 else amount
    match transferBal h [0, 1] idx 2 with
    | none => none
    | some h1 => some (setStateBals state (h1 0) (h1 1))

/-- `paymentChannel.sendMoney` (perun/cmd/demo/payment.go, lines 42 to 47). -/
def sendMoney {C : Type} (api : ChannelAPI C) (ch : C) (amount : Int) : Option (SendResult C) :=
  sendUpdate api ch (sendMoneyUpdate (api.Idx ch) amount)

/-- `paymentChannel.sendFinal` (perun/cmd/demo/payment.go, lines 49 to 54). -/
def sendFinal {C : Type} (api : ChannelAPI C) (ch : C) : Option (SendResult C) :=
  sendUpdate api ch (fun state => some { state with IsFinal := true })

/-! ## Channel proposals

The proposal protocol of the client (client/proposal.go) is not among the
sources; only its tests are.  It is modelled from section 4.F of the
specification and from the calls the tests make. -/

/-- A channel proposal request, with the fields the tests fill in. -/
structure ChannelProposalReq where
  ChallengeDuration : Nat
  Nonce : Nat
  ParticipantAddr : Address
  AppDef : Address
  InitData : List Nat
  InitBals : List (List Int)
  PeerAddrs : List Address
  deriving DecidableEq, Repr

/-- The client, reduced to its own address. -/
structure Client where
  id : Address
  deriving DecidableEq, Repr

/-- Modelled from the spec: an allocation is well-formed when its balances are
non-negative (section 3). -/
def wellFormedAlloc (a : List (List Int)) : Bool :=
  a.all fun part => part.all fun b => decide (0 ≤ b)

/-- Modelled from the spec: `ChannelProposalReq.Valid()`, the local validity of
a proposal: a positive challenge duration and a well-formed allocation
(section 4.F, step 1). -/
def ChannelProposalReq.Valid (p : ChannelProposalReq) : Option Error :=
  if p.ChallengeDuration = 0 then some (Error.New "challenge duration must not be zero")
  else if wellFormedAlloc p.InitBals = false then some (Error.New "invalid initial allocation")
  else none

/-- Modelled from the spec: `Client.validTwoPartyProposal(prop, ourIdx,
peerAddr)`: the proposal is valid, has exactly two participants, and holds our
own address at our index (section 4.F, step 1) and the address of the peer at
the other index (the cases of `TestClient_validTwoPartyProposal`). -/
def validTwoPartyProposal (c : Client) (prop : ChannelProposalReq) (ourIdx : Nat)
    (peerAddr : Address) : Option Error :=
  match prop.Valid with
  | some e => some e
  | none =>
    if prop.PeerAddrs.length ≠ 2 then some (Error.New "expected 2 peers")
    else if prop.PeerAddrs[ourIdx ^^^ 1]? ≠ some peerAddr then
      some (Error.New "remote peer does not have the other peer index")
    else if prop.PeerAddrs[ourIdx]? ≠ some c.id then
      some (Error.New "we do not have our peer index")
    else none

/-- Modelled from the spec: the responder handed to the proposal handler
(section 6); `called` records that `Accept` or `Reject` has been called. -/
structure ProposalResponder where
  req : ChannelProposalReq
  peer : Address
  called : Bool
  deriving DecidableEq, Repr

/-- What `Accept` and `Reject` do on their first call: `accept` sends the
`ProposalAcc`, sets up the controller and runs the opening, yielding the id of
the channel; `reject` sends the `ProposalRej`. -/
structure ResponderEnv where
  accept : ChannelProposalReq → Address → Address → Except Error ID
  reject : ChannelProposalReq → Address → String → Option Error

/-- Modelled from the spec: `ProposalResponder.Accept(ctx, account)` (sections
4.F and 6): exactly one call of `Accept` or `Reject` per responder; a second
call panics (`none`). -/
def ProposalResponder.Accept (env : ResponderEnv) (r : ProposalResponder) (account : Address) :
    Option (Except Error ID × ProposalResponder) :=
  if r.called = true then none
  else some (env.accept r.req r.peer account, { r with called := true })

/-- Modelled from the spec: `ProposalResponder.Reject(ctx, reason)` (sections
4.F and 6): exactly one call of `Accept` or `Reject` per responder; a second
call panics (`none`). -/
def ProposalResponder.Reject (env : ResponderEnv) (r : ProposalResponder) (reason : String) :
    Option (Option Error × ProposalResponder) :=
  if r.called = true then none
  else some (env.reject r.req r.peer reason, { r with called := true })

/-- A call of `ProposalHandler.Handle` with its arguments. -/
structure HandlerCall where
  req : ChannelProposalReq
  responder : ProposalResponder
  deriving DecidableEq, Repr

/-- Modelled from the spec: `Client.handleChannelProposal(peer, req)` (section
4.F, inbound handling): the request is validated with us at index 1 and the
sender at index 0; an invalid request is dropped silently, a valid one is
handed to the proposal handler with a fresh responder.  The result is the list
of the calls of the handler. -/
def handleChannelProposal (c : Client) (peer : Address) (req : ChannelProposalReq) :
    List HandlerCall :=
  match validTwoPartyProposal c req 1 peer with
  | some _ => []
  | none => [⟨req, ⟨req, peer, false⟩⟩]

/-- A response to a proposal, as it arrives at the proposer. -/
inductive ProposalResponse where
  | Acc (SessID : Nat) (ParticipantAddr : Address)
  | Rej (SessID : Nat) (Reason : String)
  | Other (SessID : Nat)
  deriving DecidableEq, Repr

/-- The session id a response carries. -/
def ProposalResponse.SessID : ProposalResponse → Nat
  | .Acc sid _ => sid
  | .Rej sid _ => sid
  | .Other sid => sid

/-- The network and the later steps as `ProposeChannel` sees them: the
session id of a request, the result of dialling a peer, the result of sending
the request, the responses arriving before the context ends, and the result of
opening and funding the channel. -/
structure ProposeEnv where
  SessID : ChannelProposalReq → Nat
  Dial : Address → Option Error
  Send : Address → ChannelProposalReq → Option Error
  Inbox : List ProposalResponse
  Open : ChannelProposalReq → Address → Except Error ID

/-- The network activity of `ProposeChannel`. -/
inductive NetEffect where
  | Dial (addr : Address)
  | Subscribe (sid : Nat)
  | Send (addr : Address) (req : ChannelProposalReq)
  | Await
  | Open
  deriving DecidableEq, Repr

/-- Outcome of `ProposeChannel`: the channel or the error, and the network
activity. -/
structure ProposeResult where
  res : Except Error ID
  trace : List NetEffect

/-- Modelled from the spec: step 1 of `ProposeChannel` (section 4.F): the
request is valid, has exactly two participants, and `PeerAddrs[0]` is our own
address. -/
def validateProposal (c : Client) (req : ChannelProposalReq) : Option Error :=
  match req.Valid with
  | some e => some e
  | none =>
    if req.PeerAddrs.length ≠ 2 then some (Error.New "expected 2 peers")
    else if req.PeerAddrs[0]? ≠ some c.id then some (Error.New "we do not have peer index 0")
    else none

/-- Modelled from the spec: `Client.ProposeChannel(ctx, req)` (section 4.F,
steps 1 to 6): validate locally; compute the session id; dial or reuse the
connection to `PeerAddrs[1]`; subscribe to the responses with that session id,
send the request and await one matching response (a response with another
session id is dropped); on `ProposalAcc` open and fund the channel; on
`ProposalRej`, a timeout or an unexpected message return an error. -/
def ProposeChannel (env : ProposeEnv) (c : Client) (req : ChannelProposalReq) : ProposeResult :=
  match validateProposal c req with
  | some e => ⟨.error e, []⟩
  | none =>
    let sid := env.SessID req
    let peer := req.PeerAddrs.getD 1 0
    match env.Dial peer with
    | some e => ⟨.error e, [.Dial peer]⟩
    | none =>
      match env.Send peer req with
      | some e => ⟨.error e, [.Dial peer, .Subscribe sid, .Send peer req]⟩
      | none =>
        match env.Inbox.find? (fun r => r.SessID == sid) with
        | some (.Acc _ part) =>
          ⟨env.Open req part, [.Dial peer, .Subscribe sid, .Send peer req, .Await, .Open]⟩
        | some (.Rej _ reason) =>
          ⟨.error (Error.New ("ProposalRejected: " ++ reason)),
            [.Dial peer, .Subscribe sid, .Send peer req, .Await]⟩
        | some (.Other _) =>
          ⟨.error (Error.New "ProtocolViolation"),
            [.Dial peer, .Subscribe sid, .Send peer req, .Await]⟩
        | none =>
          ⟨.error (Error.New "ProposalTimedOut"),
            [.Dial peer, .Subscribe sid, .Send peer req, .Await]⟩

/-! ## Funding errors

`channel/funder.go` is not among the sources; only its test is. -/

/-- Modelled from the spec: the payload of a funding error, the index of the
asset and the indices of the peers that timed out (section 4.H). -/
structure AssetFundingError where
  Asset : Int
  TimedOutPeers : List Index
  deriving DecidableEq, Repr

/-- Modelled from the spec: errors of the `channel` package with their layers
(section 7): a root, which is a message or an `AssetFundingError`, and the
layers put around it by `errors.WithStack` and `errors.WithMessage`. -/
inductive ChanError where
  | New (msg : String)
  | AssetFunding (e : AssetFundingError)
  | WithStack (cause : ChanError)
  | WithMessage (cause : ChanError) (msg : String)
  deriving DecidableEq, Repr

/-- Modelled from the spec: the root of an error, found by walking the cause
chain (section 9). -/
def ChanError.Cause : ChanError → ChanError
  | .New msg => .New msg
  | .AssetFunding e => .AssetFunding e
  | .WithStack cause => cause.Cause
  | .WithMessage cause _ => cause.Cause

/-- The layers given by `layers` put around an error, innermost first: `none`
is a `WithStack`, `some msg` a `WithMessage`. -/
def ChanError.wrapped (e : ChanError) : List (Option String) → ChanError
  | [] => e
  | none :: layers => (ChanError.WithStack e).wrapped layers
  | some msg :: layers => (ChanError.WithMessage e msg).wrapped layers

/-- Modelled from the spec: `NewAssetFundingError(asset, timedOutPeers)`, the
funding error with its payload under a stack layer (sections 4.H and 7). -/
def NewAssetFundingError (asset : Int) (timedOutPeers : List Index) : ChanError :=
  .WithStack (.AssetFunding ⟨asset, timedOutPeers⟩)

/-- Modelled from the spec: `IsAssetFundingError(err)`, whether the root of the
error is an `AssetFundingError`, whatever is wrapped around it (sections 7 and
9). -/
def IsAssetFundingError (err : ChanError) : Bool :=
  match err.Cause with
  | .AssetFunding _ => true
  | _ => false

/-! ## The demo command line

Go strings are Lean strings; where the code slices a string by bytes, the
bytes are those of its UTF-8 encoding. -/

/-- The UTF-8 encoding of a character. -/
def utf8Bytes (c : Char) : List Nat :=
  let n := c.toNat
  if n < 0x80 then [n]
  else if n < 0x800 then [0xC0 + n / 64, 0x80 + n % 64]
  else if n < 0x10000 then [0xE0 + n / 4096, 0x80 + n / 64 % 64, 0x80 + n % 64]
  else [0xF0 + n / 262144, 0x80 + n / 4096 % 64, 0x80 + n / 64 % 64, 0x80 + n % 64]

/-- The bytes of a Go string. -/
def goBytes (s : String) : List Nat := (s.data.map utf8Bytes).flatten

/-- The value of a hexadecimal digit given as a byte (`encoding/hex`). -/
def fromHexChar (b : Nat) : Option Nat :=
  if 48 ≤ b ∧ b ≤ 57 then some (b - 48)
  else if 97 ≤ b ∧ b ≤ 102 then some (b - 97 + 10)
  else if 65 ≤ b ∧ b ≤ 70 then some (b - 65 + 10)
  else none

/-- `hex.DecodeString` on the bytes of its argument: the decoded bytes, or
`none` for an error (a byte that is no hexadecimal digit, or an odd length). -/
def hexDecode : List Nat → Option (List Nat)
  | [] => some []
  | [_] => none
  | p :: q :: rest =>
    match fromHexChar p, fromHexChar q with
    | some a, some b =>
      match hexDecode rest with
      | some bytes => some ((a * 16 + b) :: bytes)
      | none => none
    | _, _ => none

/-- `strToAddress` (perun/cmd/demo/validator.go, lines 80 to 87).
`decodeAddress` is `wallet.DecodeAddress` of the wallet backend.  The result is
`none` when the slice `str[2:]` is out of range (a panic). -/
def strToAddress (decodeAddress : List Nat → Except Error Address) (str : String) :
    Option (Except Error Address) :=
  if (goBytes str).length < 2 then none
  else
    match hexDecode ((goBytes str).drop 2) with
    | none => some (.error (Error.New "Could not parse address as hexadecimal"))
    | some h =>
      match decodeAddress h with
      | .ok addr => some (.ok addr)
      | .error e => some (.error (Error.WithMessage e "string to address"))

/-- The part of the configuration `newNode` decides on. -/
structure ChainConfig where
  Adjudicator : String
  Assetholder : String
  deriving DecidableEq, Repr

/-- The collaborators of `newNode`: the connection to the chain, the wallet
backend, the deployment of the two contracts and the TCP listener. -/
structure NodeEnv where
  DialChain : Option Error
  DecodeAddress : List Nat → Except Error Address
  DeployAdjudicator : Except Error Address
  DeployETHAssetholder : Address → Except Error Address
  NewTCPListener : Option Error

/-- The calls of `newNode` that the configuration decides on. -/
inductive NodeEffect where
  | DialChain
  | DeployAdjudicator
  | DeployETHAssetholder (adjAddr : Address)
  | setContracts (adjAddr assAddr : Address)
  | strToAddress (str : String)
  | listen
  deriving DecidableEq, Repr

/-- Outcome of `newNode`: the returned error and the calls made. -/
structure NodeResult where
  err : Option Error
  trace : List NodeEffect
  deriving DecidableEq, Repr

/-- `node.deploy` (perun/cmd/demo/node.go, lines 129 to 146). -/
def deploy (env : NodeEnv) : NodeResult :=
  match env.DeployAdjudicator with
  | .error e => ⟨some (Error.WithMessage e "deploying eth adjudicator"), [.DeployAdjudicator]⟩
  | .ok adjAddr =>
    match env.DeployETHAssetholder adjAddr with
    | .error e =>
      ⟨some (Error.WithMessage e "deploying eth assetholder"),
        [.DeployAdjudicator, .DeployETHAssetholder adjAddr]⟩
    | .ok assAddr =>
      ⟨none, [.DeployAdjudicator, .DeployETHAssetholder adjAddr, .setContracts adjAddr assAddr]⟩

/-- `node.listen` (perun/cmd/demo/node.go, lines 155 to 170), after the calls
`tr`. -/
def listen (env : NodeEnv) (tr : List NodeEffect) : NodeResult :=
  ⟨WithMessage env.NewTCPListener "could not start tcp listener", tr ++ [.listen]⟩

/-- `newNode` (perun/cmd/demo/node.go, lines 58 to 102).  The result is `none`
when `strToAddress` panics. -/
def newNode (env : NodeEnv) (config : ChainConfig) : Option NodeResult :=
  match env.DialChain with
  | some e => some ⟨some (Error.WithMessage e "could not connect to ethereum node"), [.DialChain]⟩
  | none =>
    if config.Adjudicator = "deploy" ∧ config.Assetholder = "deploy" then
      match (deploy env).err with
      | some e =>
        some ⟨some (Error.WithMessage e "deploying contracts"), .DialChain :: (deploy env).trace⟩
      | none => some (listen env (.DialChain :: (deploy env).trace))
    else if config.Adjudicator = "deploy" ∨ config.Assetholder = "deploy" then
      some ⟨some (Error.New "Currently either both or none contract can be deployed"),
        [.DialChain]⟩
    else
      match strToAddress env.DecodeAddress config.Adjudicator with
      | none => none
      | some (.error e) => some ⟨some e, [.DialChain, .strToAddress config.Adjudicator]⟩
      | some (.ok adj) =>
        match strToAddress env.DecodeAddress config.Assetholder with
        | none => none
        | some (.error e) =>
          some ⟨some e, [.DialChain, .strToAddress config.Adjudicator,
            .strToAddress config.Assetholder]⟩
        | some (.ok ass) =>
          some (listen env [.DialChain, .strToAddress config.Adjudicator,
            .strToAddress config.Assetholder, .setContracts adj ass])

/-- What a command function does: it returns an error value, or it ends the
process with an exit code (`os.Exit`). -/
inductive Outcome where
  | returned (err : Option Error)
  | exited (code : Int)
  deriving DecidableEq, Repr

/-- An argument of a command: its name and its validator. -/
structure argument where
  Name : String
  Validator : String → Option Error

/-- A command of the demo. -/
structure command where
  Name : String
  Args : List argument
  Help : String
  Function : List String → Outcome

/-- The functions of the standard library the validators call: whether
`net.ParseIP` yields an address, and `strconv.ParseInt` with base and bit
size. -/
structure Lib where
  ParseIP : String → Bool
  ParseInt : String → Nat → Nat → Except Error Int

/-- The methods of the node that the commands call. -/
structure Backend where
  Connect : List String → Option Error
  Open : List String → Option Error
  Send : List String → Option Error
  Close : List String → Option Error
  Info : List String → Option Error
  Exit : List String → Option Error

/-- `valBal` (perun/cmd/demo/validator.go, lines 22 to 25). -/
def valBal (lib : Lib) (input : String) : Option Error :=
  match lib.ParseInt input 10 32 with
  | .ok _ => none
  | .error err => some (Error.WithMessage err "Invalid Float")

/-- `valString` (perun/cmd/demo/validator.go, lines 27 to 32). -/
def valString (input : String) : Option Error :=
  if (goBytes input).length < 1 then some (Error.New "Invalid perun-id") else none

/-- `valIP` (perun/cmd/demo/validator.go, lines 41 to 46). -/
def valIP (lib : Lib) (input : String) : Option Error :=
  if lib.ParseIP input = false then some (Error.New "Invalid IP") else none

/-- `valPeer` (perun/cmd/demo/validator.go, lines 57 to 66). -/
def valPeer (_arg : String) : Option Error := none

/-- `printHelp` (perun/cmd/demo/commands.go, lines 103 to 113): it prints the
commands and returns `nil`. -/
def printHelp (_args : List String) : Option Error := none

/-- The table of commands set up by `init` (perun/cmd/demo/commands.go, lines
31 to 77).  The function of `exit` calls `backend.Exit`, logs its error and
ends the process with code 0. -/
def commands (lib : Lib) (backend : Backend) : List command :=
  [ ⟨"connect",
      [⟨"IP", valIP lib⟩, ⟨"perun-id", valString⟩, ⟨"Alias", valString⟩],
      "Connect to peer with Perun ID perun-id at host host (ip or hostname) at port port and call the peer alias as a shortcut. Port can be omitted if default port is used.\nExample: connect 192.168.0.22:530300 0x12ef... alice",
      fun args => .returned (backend.Connect args)⟩,
    ⟨"open",
      [⟨"Alias", valPeer⟩, ⟨"Our Balance", valBal lib⟩, ⟨"Their Balance", valBal lib⟩],
      "Open a payment channel with the given peer. It is only possible to open one channel per peer. A configurable default timeout will be used.\nExample: open alice 10 10",
      fun args => .returned (backend.Open args)⟩,
    ⟨"send",
      [⟨"Alias", valPeer⟩, ⟨"Amount", valBal lib⟩],
      "Send a payment with amount to a given peer over the established channel.\nExample: send alice 5",
      fun args => .returned (backend.Send args)⟩,
    ⟨"close",
      [⟨"Alias", valPeer⟩],
      "Close a channel with the given peer and print the final balances. It should send a finalization request, conclude the final state and withdraw.\nExample: close alice",
      fun args => .returned (backend.Close args)⟩,
    ⟨"info", [], "Info", fun args => .returned (backend.Info args)⟩,
    ⟨"help", [], "Prints all possible commands", fun args => .returned (printHelp args)⟩,
    ⟨"exit", [], "Exits the program", fun _ => .exited 0⟩ ]

/-- `unicode.IsSpace`: the characters with the Unicode property White_Space. -/
def isSpace (c : Char) : Bool :=
  let n := c.toNat
  (9 ≤ n && n ≤ 13) || n == 32 || n == 0x85 || n == 0xA0 || n == 0x1680 ||
    (0x2000 ≤ n && n ≤ 0x200A) || n == 0x2028 || n == 0x2029 || n == 0x202F ||
    n == 0x205F || n == 0x3000

/-- `strings.TrimSpace`: the string without its leading and trailing white
space. -/
def TrimSpace (s : String) : String :=
  ⟨((s.data.dropWhile isSpace).reverse.dropWhile isSpace).reverse⟩

/-- The pieces of a list of characters between single spaces. -/
def splitOnSpace : List Char → List (List Char)
  | [] => [[]]
  | c :: cs =>
    match splitOnSpace cs with
    | [] => [[c]]
    | w :: ws => if c = ' ' then [] :: w :: ws else (c :: w) :: ws

/-- `strings.Split(s, " ")`: the pieces of `s` between single spaces; there is
always at least one piece. -/
def Split (s : String) : List String := (splitOnSpace s.data).map String.mk

/-- What `Executor` does with an input line: it returns an error without
invoking a command function, or it invokes the function of a command and
returns what the function returns. -/
inductive ExecResult where
  | rejected (err : Error)
  | invoked (cmd : String) (args : List String) (out : Outcome)
  deriving DecidableEq, Repr

/-- The error of `Executor` for a wrong number of arguments. -/
def invalidNumber (expected got : Nat) : Error :=
  Error.New ("Invalid number of arguments, expected " ++ toString expected ++ " but got "
    ++ toString got)

/-- The error of `Executor` for a word that is no command. -/
def unknownCommand (word : String) : Error := Error.New ("Unknown command: " ++ word)

/-- The loop over the arguments in `Executor` (lines 90 to 94): the validator
of the argument at each position is applied and the first error is returned
with the name of the argument, the command and the value. -/
def validateArgs (cmdName : String) : List argument → List String → Option Error
  | a :: as, arg :: args =>
    match a.Validator arg with
    | some e =>
      some (Error.WithMessage e ("\x27" ++ a.Name ++ "\x27 argument invalid for \x27"
        ++ cmdName ++ "\x27: " ++ arg))
    | none => validateArgs cmdName as args
  | _, _ => none

/-- The loop over the commands in `Executor` (lines 86 to 99). -/
def runCommands (cmds : List command) (cmdName : String) (args : List String) : ExecResult :=
  match cmds with
  | [] => .rejected (unknownCommand cmdName)
  | cmd :: rest =>
    if cmd.Name = cmdName then
      if args.length ≠ cmd.Args.length then
        .rejected (invalidNumber cmd.Args.length args.length)
      else
        match validateArgs cmdName cmd.Args args with
        | some e => .rejected e
        | none => .invoked cmd.Name args (cmd.Function args)
    else runCommands rest cmdName args

/-- The first word of an input line: the first piece of the trimmed line. -/
def firstWord (input : String) : String := (Split (TrimSpace input)).headD ""

/-- `Executor` (perun/cmd/demo/commands.go, lines 81 to 101). -/
def Executor (lib : Lib) (backend : Backend) (input : String) : ExecResult :=
  let args := Split (TrimSpace input)
  runCommands (commands lib backend) (args.headD "") args.tail

/-- `valID` (perun/cmd/demo/validator.go, lines 34 to 39); `none` when
`strToAddress` panics. -/
def valID (decodeAddress : List Nat → Except Error Address) (input : String) :
    Option (Option Error) :=
  match strToAddress decodeAddress input with
  | none => none
  | some (.error _) => some (some (Error.New "Invalid perun-id"))
  | some (.ok _) => some none

/-- The collaborators of `node.Connect`: the wallet backend, whether a peer
with an alias exists already, and the dialer. -/
structure ConnectEnv where
  DecodeAddress : List Nat → Except Error Address
  peerExists : String → Bool
  Dial : Address → Option Error

/-- `node.Connect` (perun/cmd/demo/node.go, lines 104 to 127): the returned
error, or `none` when an index is out of range or `strToAddress` panics.  The
error of `strToAddress` is dropped; the address is then the zero value. -/
def Connect (env : ConnectEnv) (args : List String) : Option (Option Error) :=
  match args[2]? with
  | none => none
  | some peerAlias =>
    match args[1]? with
    | none => none
    | some id =>
      match strToAddress env.DecodeAddress id with
      | none => none
      | some res =>
        let perunID : Address :=
          match res with
          | .ok addr => addr
          | .error _ => 0
        if env.peerExists peerAlias = true then some (some (Error.New "Peer exists already"))
        else
          match env.Dial perunID with
          | some e => some (some (Error.WithMessage e "could not connent to peer"))
          | none => some none

/-- `nonce` (perun/cmd/demo/validator.go, lines 90 to 99).  `max` is
`2 ^ 256 - 1`, and `rand.Int(reader, max)` reads blocks of 32 bytes from the
random source until one of them, as a number, is below `max`, and returns that
number.  The random source is given by the numbers of its blocks; the result
is `none` when the source fails before such a block (`log.Panic`). -/
def nonce (blocks : List Nat) : Option Nat :=
  let max := 2 ^ 256 - 1
  (blocks.map (fun b => b % 2 ^ 256)).find? (fun n => decide (n < max))

/-! ## The lock of the state machine in `Settle` -/

/-- The events of `Settle` with the lock of the state machine: acquiring and
releasing `machMtx`, a call of the state machine or of the adjudicator, and the
wait for the withdrawal timeout. -/
inductive MtxEvent where
  | Lock
  | Unlock
  | Call (e : Effect)
  | Wait (timeout : Nat)

/-- The events of the body of `Settle`, from its calls: the wait of lines 194
to 202 follows a successful `SetRegistered` when the registered version is the
expected one and the timeout lies after the current time. -/
def settleBody (rt : Runtime) : List Effect → List MtxEvent
  | .Register req (.ok reg) :: .SetRegistered none :: rest =>
    .Call (.Register req (.ok reg)) :: .Call (.SetRegistered none) ::
      ((if reg.Version = req.Tx.State.Version ∧ rt.now < reg.Timeout then
        [MtxEvent.Wait reg.Timeout] else []) ++ rest.map MtxEvent.Call)
  | e :: rest => .Call e :: settleBody rt rest
  | [] => []

/-- `Channel.Settle` with its lock (client/channel.go, lines 167 and 168):
`c.machMtx.Lock()` on entry, then the body, then the deferred
`c.machMtx.Unlock()` on return. -/
def SettleMtx {M : Type} (ops : MachineOps M) (c : Channel M) (ctx : Context) (rt : Runtime) :
    List MtxEvent :=
  .Lock :: (settleBody rt (Settle ops c ctx rt).trace ++ [.Unlock])

/-- Whether an event acquires or releases the lock. -/
def MtxEvent.isLocking : MtxEvent → Bool
  | .Lock => true
  | .Unlock => true
  | _ => false

/-! ## The batch of the in-memory database

`db/memorydb/batch.go`.  A Go map is a list of entries with pairwise distinct
keys, in no particular order, or the `nil` map: reading, `delete`, `len` and
`range` treat the `nil` map like an empty one, an assignment to an entry of the
`nil` map panics.  A panic is the result `none`.  A `uint` has 64 bits.  The
database behind the batch is not part of the sources at hand: its operations
are a parameter, and its state is passed along. -/

/-- The bytes of a key, the Go string `string(key)`. -/
abbrev Key := List Nat

/-- The bytes of a value. -/
abbrev Value := List Nat

/-- The number of values of a `uint`. -/
def uintSize : Nat := 18446744073709551616

/-- The subtraction of `uint`, which wraps around. -/
def uintSub (a b : Nat) : Nat := (a + uintSize - b % uintSize) % uintSize

/-- The addition of `uint`, which wraps around. -/
def uintAdd (a b : Nat) : Nat := (a + b) % uintSize

/-- A Go map with keys of type `string`; `none` is the `nil` map. -/
abbrev GoMap (β : Type) := Option (List (Key × β))

/-- The first entry of a list of entries with the key `k`. -/
def entryOf {β : Type} (k : Key) : List (Key × β) → Option β
  | [] => none
  | (k1, v) :: rest => if k1 = k then some v else entryOf k rest

/-- The entries of a map; the `nil` map has none. -/
def GoMap.entries {β : Type} (m : GoMap β) : List (Key × β) := m.getD []

/-- The keys of a map. -/
def GoMap.keys {β : Type} (m : GoMap β) : List Key := m.entries.map Prod.fst

/-- The read `v, exists := m[k]`. -/
def GoMap.index {β : Type} (m : GoMap β) (k : Key) : Option β := entryOf k m.entries

/-- The statement `delete(m, k)`; the `nil` map stays `nil`. -/
def GoMap.delete {β : Type} (m : GoMap β) (k : Key) : GoMap β :=
  m.map (fun l => l.filter (fun e => decide (e.1 ≠ k)))

/-- The statement `m[k] = v`, which panics on the `nil` map. -/
def GoMap.assign {β : Type} (m : GoMap β) (k : Key) (v : β) : Option (GoMap β) :=
  match m with
  | none => none
  | some l => some (some ((k, v) :: l.filter (fun e => decide (e.1 ≠ k))))

/-- The fields `writes`, `deletes` and `bytes` of a `Batch`. -/
structure Batch where
  writes : GoMap Value
  deletes : GoMap Unit
  bytes : Nat
  deriving DecidableEq, Repr

/-- `Batch.Put`: the returned error is always `nil`. -/
def Batch.Put (this : Batch) (key : Key) (value : Value) : Option (Option Error × Batch) :=
  let deletes := this.deletes.delete key
  let bytes :=
    match this.writes.index key with
    | some oldValue => uintSub this.bytes oldValue.length
    | none => this.bytes
  let bytes := uintAdd bytes (value.length % uintSize)
  match this.writes.assign key value with
  | none => none
  | some writes => some (none, ⟨writes, deletes, bytes⟩)

/-- `Batch.Delete`: the returned error is always `nil`. -/
def Batch.Delete (this : Batch) (key : Key) : Option (Option Error × Batch) :=
  let removed : GoMap Value × Nat :=
    match this.writes.index key with
    | some oldValue => (this.writes.delete key, uintSub this.bytes oldValue.length)
    | none => (this.writes, this.bytes)
  match this.deletes.assign key () with
  | none => none
  | some deletes => some (none, ⟨removed.1, deletes, removed.2⟩)

/-- `Batch.Len`. -/
def Batch.Len (this : Batch) : Nat := this.writes.entries.length % uintSize

/-- `Batch.ValueSize`. -/
def Batch.ValueSize (this : Batch) : Nat := this.bytes

/-- `Batch.Reset`. -/
def Batch.Reset (_this : Batch) : Batch := ⟨none, none, 0⟩

/-- The operations of the database a batch writes to; `Get` is the value the
database holds under a key. -/
structure DatabaseOps (D : Type) where
  Put : D → Key → Value → Option Error × D
  Delete : D → Key → Option Error × D
  Get : D → Key → Option Value

/-- A call of the database with the error it returned. -/
inductive DBCall where
  | Put (key : Key) (value : Value) (err : Option Error)
  | Delete (key : Key) (err : Option Error)
  deriving DecidableEq, Repr

/-- The error a call of the database returned. -/
def DBCall.err : DBCall → Option Error
  | .Put _ _ err => err
  | .Delete _ err => err

/-- Whether a call of the database is a `Delete`. -/
def DBCall.isDelete : DBCall → Bool
  | .Put _ _ _ => false
  | .Delete _ _ => true

/-- What `Batch.Write` returns and leaves behind. -/
structure WriteResult (D : Type) where
  err : Option Error
  db : D
  batch : Batch
  trace : List DBCall

/-- The first loop of `Batch.Write` over the keys of `writes` in the order
`keys`: the value put is `this.writes[key]`, the zero value `nil` when the key
is absent. -/
def writePuts {D : Type} (ops : DatabaseOps D) (writes : GoMap Value) :
    List Key → D → Option Error × D × List DBCall
  | [], d => (none, d, [])
  | key :: rest, d =>
    let value := (writes.index key).getD []
    match ops.Put d key value with
    | (some e, d1) => (some (Error.Wrap e "Failed to put entry."), d1, [.Put key value (some e)])
    | (none, d1) =>
      let r := writePuts ops writes rest d1
      (r.1, r.2.1, .Put key value none :: r.2.2)

/-- The second loop of `Batch.Write` over the keys of `deletes` in the order
`keys`. -/
def writeDeletes {D : Type} (ops : DatabaseOps D) :
    List Key → D → Option Error × D × List DBCall
  | [], d => (none, d, [])
  | key :: rest, d =>
    match ops.Delete d key with
    | (some e, d1) => (some (Error.Wrap e "Failed to delete entry."), d1, [.Delete key (some e)])
    | (none, d1) =>
      let r := writeDeletes ops rest d1
      (r.1, r.2.1, .Delete key none :: r.2.2)

/-- `Batch.Write` on the database `d`, where `range` visits the keys of
`writes` in the order `worder` and the keys of `deletes` in the order
`dorder`. -/
def Batch.Write {D : Type} (ops : DatabaseOps D) (this : Batch) (worder dorder : List Key)
    (d : D) : WriteResult D :=
  match writePuts ops this.writes worder d with
  | (some e, d1, tr) => ⟨some e, d1, this, tr⟩
  | (none, d1, tr) =>
    let r := writeDeletes ops dorder d1
    ⟨r.1, r.2.1, this, tr ++ r.2.2⟩

/-- A call of `Put` or `Delete` on a batch. -/
inductive BatchCall where
  | Put (key : Key) (value : Value)
  | Delete (key : Key)
  deriving DecidableEq, Repr

/-- The key a call is about. -/
def BatchCall.key : BatchCall → Key
  | .Put key _ => key
  | .Delete key => key

/-- The batch after one call. -/
def Batch.call (this : Batch) : BatchCall → Option Batch
  | .Put key value => (this.Put key value).map Prod.snd
  | .Delete key => (this.Delete key).map Prod.snd

/-- The batch after a sequence of calls. -/
def Batch.calls (this : Batch) : List BatchCall → Option Batch
  | [] => some this
  | c :: rest => (this.call c).bind (fun b => b.calls rest)

/-- The last call of a sequence that is about the key `k`. -/
def lastCall (k : Key) : List BatchCall → Option BatchCall
  | [] => none
  | c :: rest =>
    match lastCall k rest with
    | some c1 => some c1
    | none => if c.key = k then some c else none

/-- A batch with empty maps `writes` and `deletes` and `bytes = 0`. -/
def emptyBatch : Batch := ⟨some [], some [], 0⟩

/-- The sum of the lengths of the values pending in `writes`. -/
def pendingSize (this : Batch) : Nat := (this.writes.entries.map (fun e => e.2.length)).sum

/-- What a batch holds about a key: the value pending in `writes`, and whether
the key is in `deletes`. -/
def Batch.entry (this : Batch) (k : Key) : Option Value × Bool :=
  (this.writes.index k, (this.deletes.index k).isSome)

/-- The invariant of a batch: both maps exist, no key is in both, and `bytes`
is the sum of the lengths of the pending values as a `uint`. -/
def Batch.Inv (this : Batch) : Prop :=
  this.writes.isSome = true ∧ this.deletes.isSome = true ∧
  this.writes.keys.Nodup ∧ this.deletes.keys.Nodup ∧
  (∀ k, k ∈ this.writes.keys → k ∉ this.deletes.keys) ∧
  this.bytes = pendingSize this % uintSize

/-- What a call leaves about its key: `Put` a pending value and no deletion,
`Delete` a deletion and no pending value. -/
def BatchCall.entry : BatchCall → Option Value × Bool
  | .Put _ value => (some value, false)
  | .Delete _ => (none, true)

/-- A database whose `Put` and `Delete` never fail and do what their names
say: afterwards `Get` finds the value put, nothing under a deleted key, and
under every other key what it found before. -/
def DatabaseOps.Reliable {D : Type} (ops : DatabaseOps D) : Prop :=
  (∀ d k v, (ops.Put d k v).1 = none ∧
    ∀ k1, ops.Get (ops.Put d k v).2 k1 = if k1 = k then some v else ops.Get d k1) ∧
  (∀ d k, (ops.Delete d k).1 = none ∧
    ∀ k1, ops.Get (ops.Delete d k).2 k1 = if k1 = k then none else ops.Get d k1)

/-! ## Sample values -/

/-- Parameters of a two-party channel. -/
def sampleParams : Params := ⟨7, 60, [10, 11]⟩

/-- A final state at version 5. -/
def finalState : State := ⟨7, 5, [[104], [96]], true⟩

/-- A state machine in phase `Final` holding a fully signed final state. -/
def finalMachine : StateMachine :=
  ⟨.Final, 10, 0, sampleParams, ⟨finalState, [some 15, some 16]⟩, ⟨finalState, [some 15, some 16]⟩⟩

/-- A state machine in phase `Acting` at version 4. -/
def actingMachine : StateMachine :=
  ⟨.Acting, 10, 0, sampleParams, ⟨⟨7, 4, [[104], [96]], false⟩, [some 14, some 15]⟩,
    ⟨⟨7, 4, [[104], [96]], false⟩, [some 14, some 15]⟩⟩

/-- A wallet whose signature of a state is the address plus the version. -/
def sampleWallet : Wallet :=
  ⟨fun a s => .ok (a + s.Version), fun a s sig => sig == a + s.Version⟩

/-- A connection on which nothing arrives. -/
def idleConn : ChannelConn := ⟨fun _ => none, fun _ _ => none, fun _ => (0, none)⟩

/-- A context that is never done. -/
def background : Context := ⟨none, Error.New "context canceled"⟩

/-- A context whose deadline is the instant `d`. -/
def deadline (d : Nat) : Context := ⟨some d, Error.New "context deadline exceeded"⟩

/-- An adjudicator that registers the submitted version with the given
withdrawal timeout and lets the withdrawal through. -/
def adjOk (timeout : Nat) : Adjudicator :=
  ⟨fun _ req => .ok ⟨req.Tx.State.Version, timeout⟩, fun _ _ => none⟩

/-- An adjudicator whose `Register` fails. -/
def adjRegisterFails : Adjudicator :=
  ⟨fun _ _ => .error (Error.New "register reverted"), fun _ _ => none⟩

/-- An adjudicator that reports the version before the submitted one. -/
def adjOtherVersion : Adjudicator :=
  ⟨fun _ req => .ok ⟨req.Tx.State.Version - 1, 0⟩, fun _ _ => none⟩

/-- An adjudicator whose `Withdraw` fails. -/
def adjWithdrawFails : Adjudicator :=
  ⟨fun _ req => .ok ⟨req.Tx.State.Version, 0⟩, fun _ _ => some (Error.New "withdraw reverted")⟩

/-- The machine `finalMachine` moved to another phase. -/
def finalMachineIn (p : Phase) : StateMachine := { finalMachine with phase := p }

/-- The initial state, at version 0. -/
def initState : State := ⟨7, 0, [[100], [100]], false⟩

/-- A state machine in phase `InitSigning` with the initial state staged and
no signature yet; we are participant 0. -/
def initMachine : StateMachine :=
  ⟨.InitSigning, 10, 0, sampleParams, ⟨initState, [none, none]⟩, ⟨initState, [none, none]⟩⟩

/-- A connection on which the peer with index 1 answers with the given message. -/
def connAnswering (cm : Msg) : ChannelConn :=
  ⟨fun _ => none, fun _ _ => none, fun _ => (1, some cm)⟩

/-- A wallet that cannot sign. -/
def lockedWallet : Wallet :=
  ⟨fun _ _ => .error (Error.New "account locked"), fun a s sig => sig == a + s.Version⟩

/-- A channel handle over the state machine whose `Update` accepts every
update without a change. -/
def sampleAPI : ChannelAPI StateMachine :=
  ⟨fun m => m.currentTX.State, fun m => m.idx, fun m _ => (none, m)⟩

/-- A state machine in phase `Acting` at version 4 with balances 3 and 10. -/
def poorMachine : StateMachine :=
  ⟨.Acting, 10, 0, sampleParams, ⟨⟨7, 4, [[3], [10]], false⟩, [some 14, some 15]⟩,
    ⟨⟨7, 4, [[3], [10]], false⟩, [some 14, some 15]⟩⟩

/-- The client with the address 11. -/
def sampleClient : Client := ⟨11⟩

/-- A valid two-party proposal of the peer 10 to the client 11. -/
def sampleProposal : ChannelProposalReq :=
  ⟨60, 12345, 20, 30, [], [[100], [100]], [10, 11]⟩

/-- A valid two-party proposal of the client 11 to the peer 10. -/
def ownProposal : ChannelProposalReq :=
  ⟨60, 12345, 21, 30, [], [[100], [100]], [11, 10]⟩

/-- A network on which the peer accepts every proposal. -/
def acceptingNet : ProposeEnv :=
  ⟨fun req => req.Nonce, fun _ => none, fun _ _ => none, [.Acc 12345 20], fun _ _ => .ok 7⟩

/-- A responder environment in which accepting and rejecting succeed. -/
def sampleResponderEnv : ResponderEnv := ⟨fun _ _ _ => .ok 7, fun _ _ _ => none⟩

/-- A standard library that takes every string for an IP address and parses
no integer but "5". -/
def sampleLib : Lib :=
  ⟨fun _ => true, fun s _ _ => if s = "5" then .ok 5 else .error (Error.New "invalid syntax")⟩

/-- A node whose methods all succeed. -/
def sampleBackend : Backend :=
  ⟨fun _ => none, fun _ => none, fun _ => none, fun _ => none, fun _ => none, fun _ => none⟩

/-- Collaborators of `newNode` that all succeed; an address is decoded to its
first byte. -/
def sampleNodeEnv : NodeEnv :=
  ⟨none, fun h => .ok (h.headD 0), .ok 40, fun _ => .ok 41, none⟩

/-- A connection on which the peer with index 1 answers with its signature
while every send of ours fails. -/
def failingSendConn : ChannelConn :=
  ⟨fun _ => none, fun _ _ => some (Error.New "connection closed"),
    fun _ => (1, some (.ChannelUpdateAcc 7 0 11))⟩

/-- The calls of the sample sequence: two keys are put, the first is overwritten
and the second deleted. -/
def sampleCalls : List BatchCall :=
  [.Put [1] [1, 2, 3], .Put [2] [4], .Put [1] [5, 6], .Delete [2]]

/-- A database in memory whose operations never fail: a function from keys to
values. -/
def memoryOps : DatabaseOps (Key → Option Value) :=
  ⟨fun d k v => (none, fun k1 => if k1 = k then some v else d k1),
    fun d k => (none, fun k1 => if k1 = k then none else d k1),
    fun d k => d k⟩

/-- A database whose `Put` fails on the key `[2]` and whose `Delete` always
fails, and which holds nothing. -/
def failingOps : DatabaseOps Unit :=
  ⟨fun d k _ => (if k = [2] then some (Error.New "read-only") else none, d),
    fun d _ => (some (Error.New "read-only"), d),
    fun _ _ => none⟩

/-- The batch after the sample sequence of calls. -/
def sampleBatch : Batch := ⟨some [([1], [5, 6])], some [([2], ())], 2⟩

/-- A heap with the balance 5 in the cell 0 and 9 in every other cell. -/
def aliasHeap : Heap := fun p => if p = 0 then 5 else 9

/-- The calls that put one and the same value under `n` keys: the keys of 0, 1,
..., `n - 1` zero bytes. -/
def sharedPuts (n : Nat) (value : Value) : List BatchCall :=
  (List.range n).map (fun i => .Put (List.replicate i 0) value)

/-! ## Settlement: theorems -/

/-- On the state machine of the specification a transition from its source
phase succeeds and changes the phase only. -/
theorem method_transition_of_phase (src dst : Phase) (m : StateMachine) (h : m.phase = src) :
    method (StateMachine.transition src dst) m = (none, { m with phase := dst }) := by
  simp [method, StateMachine.transition, h]

/-- On the state machine of the specification, the tail of `Settle` entered in
phase `Registered` is decided by `Withdraw` alone. -/
theorem settleWithdraw_spec (w : Wallet) (adj : Adjudicator) (ctx : Context) (m : StateMachine)
    (req : AdjudicatorReq) (clock : Nat) (tr : List Effect) (h : m.phase = .Registered) :
    settleWithdraw (specOps w) adj ctx m req clock tr =
      match adj.Withdraw ctx req with
      | some e =>
        ⟨some (Error.WithMessage e "calling Withdraw"), { m with phase := .Withdrawing },
          tr ++ [.SetWithdrawing none, .Withdraw clock req (some e)]⟩
      | none =>
        ⟨none, { m with phase := .Withdrawn },
          tr ++ [.SetWithdrawing none, .Withdraw clock req none, .SetWithdrawn none]⟩ := by
  have h3 : (specOps w).SetWithdrawing m = (none, { m with phase := .Withdrawing }) :=
    method_transition_of_phase _ _ m h
  have h4 : (specOps w).SetWithdrawn { m with phase := .Withdrawing }
      = (none, { m with phase := .Withdrawn }) :=
    method_transition_of_phase .Withdrawing .Withdrawn { m with phase := .Withdrawing } rfl
  unfold settleWithdraw
  rw [h3]
  cases hw : adj.Withdraw ctx req with
  | some e => rfl
  | none => simp only [h4]

/-- On the state machine of the specification, `Settle` on a final channel is
decided by the adjudicator, the clock and the context alone. -/
theorem Settle_spec_final (w : Wallet) (c : Channel StateMachine) (ctx : Context) (rt : Runtime)
    (hp : c.machine.phase = .Final) (hf : c.machine.currentTX.State.IsFinal = true) :
    Settle (specOps w) c ctx rt =
      match c.adjudicator.Register ctx c.machine.AdjudicatorReq with
      | .error e =>
        ⟨some (Error.WithMessage e "calling Register"), { c.machine with phase := .Registering },
          [.SetRegistering none, .Register c.machine.AdjudicatorReq (.error e)]⟩
      | .ok reg =>
        if reg.Version ≠ c.machine.currentTX.State.Version then
          ⟨some (unexpectedVersion reg.Version c.machine.currentTX.State.Version),
            { c.machine with phase := .Registered },
            [.SetRegistering none, .Register c.machine.AdjudicatorReq (.ok reg),
              .SetRegistered none]⟩
        else if rt.now < reg.Timeout then
          match awaitTimeout ctx rt reg.Timeout with
          | .ctxDone e =>
            ⟨some (Error.Wrap e "ctx done"), { c.machine with phase := .Registered },
              [.SetRegistering none, .Register c.machine.AdjudicatorReq (.ok reg),
                .SetRegistered none]⟩
          | .elapsed clock =>
            settleWithdraw (specOps w) c.adjudicator ctx { c.machine with phase := .Registered }
              c.machine.AdjudicatorReq clock
              [.SetRegistering none, .Register c.machine.AdjudicatorReq (.ok reg),
                .SetRegistered none]
        else
          settleWithdraw (specOps w) c.adjudicator ctx { c.machine with phase := .Registered }
            c.machine.AdjudicatorReq rt.now
            [.SetRegistering none, .Register c.machine.AdjudicatorReq (.ok reg),
              .SetRegistered none] := by
  have hg : ¬ ((specOps w).Phase c.machine ≠ Phase.Final ∨
      ((specOps w).State c.machine).IsFinal = false) := by
    simp [specOps, StateMachine.Phase, StateMachine.State, hp, hf]
  have h1 : (specOps w).SetRegistering c.machine = (none, { c.machine with phase := .Registering }) :=
    method_transition_of_phase _ _ _ hp
  have h2 : (specOps w).SetRegistered { c.machine with phase := .Registering }
      = (none, { c.machine with phase := .Registered }) :=
    method_transition_of_phase .Registering .Registered { c.machine with phase := .Registering } rfl
  have hr : (specOps w).AdjudicatorReq { c.machine with phase := .Registering }
      = c.machine.AdjudicatorReq := rfl
  unfold Settle
  simp only [if_neg hg, h1, hr]
  cases hreg : c.adjudicator.Register ctx c.machine.AdjudicatorReq with
  | error e => rfl
  | ok reg =>
    simp only [h2]
    rfl

/-- When the final-state check fails `Settle` returns at once. -/
theorem Settle_of_check_failed {M : Type} (ops : MachineOps M) (c : Channel M) (ctx : Context)
    (rt : Runtime)
    (h : ops.Phase c.machine ≠ Phase.Final ∨ (ops.State c.machine).IsFinal = false) :
    Settle ops c ctx rt = ⟨some notFinal, c.machine, []⟩ := by
  unfold Settle
  simp only [if_pos h]

/-- C1: if the phase is not `Final` or the current state is not final, `Settle`
returns the error of the final-state check, makes no call at all (neither a
transition of the state machine nor `Register` nor `Withdraw`), and leaves the
state machine as it was, so phase and state are unchanged.  This holds for
every implementation of the state machine. -/
theorem Settle_not_final {M : Type} (ops : MachineOps M) (c : Channel M) (ctx : Context)
    (rt : Runtime)
    (h : ops.Phase c.machine ≠ Phase.Final ∨ (ops.State c.machine).IsFinal = false) :
    (Settle ops c ctx rt).err = some notFinal ∧
    (Settle ops c ctx rt).trace = [] ∧
    (Settle ops c ctx rt).machine = c.machine := by
  rw [Settle_of_check_failed ops c ctx rt h]
  exact ⟨rfl, rfl, rfl⟩

/-- Witness of C1 on a channel in phase `Acting`. -/
theorem Settle_not_final_witness :
    (Settle (specOps sampleWallet) ⟨idleConn, actingMachine, adjOk 0⟩ background ⟨100, false⟩).err
        = some notFinal ∧
    (Settle (specOps sampleWallet) ⟨idleConn, actingMachine, adjOk 0⟩ background ⟨100, false⟩).trace
        = [] ∧
    (Settle (specOps sampleWallet) ⟨idleConn, actingMachine, adjOk 0⟩ background ⟨100, false⟩).machine
        = actingMachine :=
  Settle_not_final (specOps sampleWallet) ⟨idleConn, actingMachine, adjOk 0⟩ background
    ⟨100, false⟩ (Or.inl (by decide))

/-- The wait for the withdrawal timeout, when it ends by the context, yields
the error of the context. -/
theorem awaitTimeout_ctxDone (ctx : Context) (rt : Runtime) (timeout : Nat) (e : Error)
    (h : awaitTimeout ctx rt timeout = .ctxDone e) : e = ctx.err := by
  unfold awaitTimeout at h
  split at h
  · cases h
  · split_ifs at h
    · cases h; rfl
    · cases h; rfl

/-- The wait for the withdrawal timeout, when it ends by the timer, ends at the
timeout. -/
theorem awaitTimeout_elapsed (ctx : Context) (rt : Runtime) (timeout clock : Nat)
    (h : awaitTimeout ctx rt timeout = .elapsed clock) : clock = timeout := by
  unfold awaitTimeout at h
  split at h
  · cases h; rfl
  · split_ifs at h
    cases h; rfl

/-- C2, counterexample: on a final channel whose adjudicator fails in
`Register`, `Settle` returns an error and the phase afterwards is `Registering`,
which is neither `Acting` nor `Final`. -/
theorem Settle_error_phase_counterexample :
    (Settle (specOps sampleWallet) ⟨idleConn, finalMachine, adjRegisterFails⟩ background
        ⟨100, false⟩).err.isSome = true ∧
    (specOps sampleWallet).Phase
        (Settle (specOps sampleWallet) ⟨idleConn, finalMachine, adjRegisterFails⟩ background
          ⟨100, false⟩).machine = Phase.Registering ∧
    ¬ ((specOps sampleWallet).Phase
        (Settle (specOps sampleWallet) ⟨idleConn, finalMachine, adjRegisterFails⟩ background
          ⟨100, false⟩).machine = Phase.Acting ∨
      (specOps sampleWallet).Phase
        (Settle (specOps sampleWallet) ⟨idleConn, finalMachine, adjRegisterFails⟩ background
          ⟨100, false⟩).machine = Phase.Final) := by
  refine ⟨rfl, rfl, ?_⟩
  decide

/-- C2, amended: when `Settle` returns an error nothing is rolled back.  Either
the final-state check failed and the state machine is unchanged; or `Register`
failed and the machine differs from the initial one by the phase `Registering`;
or the registered version is unexpected or the context ended the wait for the
withdrawal timeout, and the phase is `Registered`; or `Withdraw` failed and the
phase is `Withdrawing`. -/
theorem Settle_error_phase (w : Wallet) (c : Channel StateMachine) (ctx : Context) (rt : Runtime)
    (herr : (Settle (specOps w) c ctx rt).err.isSome = true) :
    ((c.machine.phase ≠ .Final ∨ c.machine.currentTX.State.IsFinal = false) ∧
      (Settle (specOps w) c ctx rt).machine = c.machine) ∨
    ((∃ e, c.adjudicator.Register ctx c.machine.AdjudicatorReq = .error e) ∧
      (Settle (specOps w) c ctx rt).machine = { c.machine with phase := .Registering }) ∨
    ((∃ reg, c.adjudicator.Register ctx c.machine.AdjudicatorReq = .ok reg ∧
        (reg.Version ≠ c.machine.currentTX.State.Version ∨
          (rt.now < reg.Timeout ∧ awaitTimeout ctx rt reg.Timeout = .ctxDone ctx.err))) ∧
      (Settle (specOps w) c ctx rt).machine = { c.machine with phase := .Registered }) ∨
    ((∃ e, c.adjudicator.Withdraw ctx c.machine.AdjudicatorReq = some e) ∧
      (Settle (specOps w) c ctx rt).machine = { c.machine with phase := .Withdrawing }) := by
  by_cases hg : c.machine.phase ≠ .Final ∨ c.machine.currentTX.State.IsFinal = false
  · exact Or.inl ⟨hg, by rw [Settle_of_check_failed (specOps w) c ctx rt hg]⟩
  · right
    have hp : c.machine.phase = .Final := by
      by_contra hn; exact hg (Or.inl hn)
    have hf : c.machine.currentTX.State.IsFinal = true := by
      cases hb : c.machine.currentTX.State.IsFinal
      · exact absurd (Or.inr hb) hg
      · rfl
    have key := Settle_spec_final w c ctx rt hp hf
    have wd := fun clock tr => settleWithdraw_spec w c.adjudicator ctx
      { c.machine with phase := .Registered } c.machine.AdjudicatorReq clock tr rfl
    cases hreg : c.adjudicator.Register ctx c.machine.AdjudicatorReq with
    | error e =>
      rw [hreg] at key
      exact Or.inl ⟨⟨e, rfl⟩, by rw [key]⟩
    | ok reg =>
      rw [hreg] at key
      dsimp only at key
      right
      by_cases hv : reg.Version ≠ c.machine.currentTX.State.Version
      · rw [if_pos hv] at key
        exact Or.inl ⟨⟨reg, rfl, Or.inl hv⟩, by rw [key]⟩
      · rw [if_neg hv] at key
        by_cases ht : rt.now < reg.Timeout
        · rw [if_pos ht] at key
          cases ha : awaitTimeout ctx rt reg.Timeout with
          | ctxDone e =>
            rw [ha] at key
            dsimp only at key
            have he := awaitTimeout_ctxDone ctx rt reg.Timeout e ha
            subst he
            exact Or.inl ⟨⟨reg, rfl, Or.inr ⟨ht, ha⟩⟩, by rw [key]⟩
          | elapsed clock =>
            rw [ha] at key
            dsimp only at key
            rw [wd] at key
            cases hw : c.adjudicator.Withdraw ctx c.machine.AdjudicatorReq with
            | none => rw [hw] at key; rw [key] at herr; cases herr
            | some e => rw [hw] at key; exact Or.inr ⟨⟨e, rfl⟩, by rw [key]⟩
        · rw [if_neg ht] at key
          rw [wd] at key
          cases hw : c.adjudicator.Withdraw ctx c.machine.AdjudicatorReq with
          | none => rw [hw] at key; rw [key] at herr; cases herr
          | some e => rw [hw] at key; exact Or.inr ⟨⟨e, rfl⟩, by rw [key]⟩

/-- Witness of the amended C2 on a final channel whose adjudicator fails in
`Withdraw`. -/
theorem Settle_error_phase_witness :
    (Settle (specOps sampleWallet) ⟨idleConn, finalMachine, adjWithdrawFails⟩ background
        ⟨100, false⟩).err.isSome = true ∧
    (((finalMachine.phase ≠ .Final ∨ finalMachine.currentTX.State.IsFinal = false) ∧
      (Settle (specOps sampleWallet) ⟨idleConn, finalMachine, adjWithdrawFails⟩ background
        ⟨100, false⟩).machine = finalMachine) ∨
    ((∃ e, adjWithdrawFails.Register background finalMachine.AdjudicatorReq = .error e) ∧
      (Settle (specOps sampleWallet) ⟨idleConn, finalMachine, adjWithdrawFails⟩ background
        ⟨100, false⟩).machine = { finalMachine with phase := .Registering }) ∨
    ((∃ reg, adjWithdrawFails.Register background finalMachine.AdjudicatorReq = .ok reg ∧
        (reg.Version ≠ finalMachine.currentTX.State.Version ∨
          ((100 : Nat) < reg.Timeout ∧
            awaitTimeout background ⟨100, false⟩ reg.Timeout = .ctxDone background.err))) ∧
      (Settle (specOps sampleWallet) ⟨idleConn, finalMachine, adjWithdrawFails⟩ background
        ⟨100, false⟩).machine = { finalMachine with phase := .Registered }) ∨
    ((∃ e, adjWithdrawFails.Withdraw background finalMachine.AdjudicatorReq = some e) ∧
      (Settle (specOps sampleWallet) ⟨idleConn, finalMachine, adjWithdrawFails⟩ background
        ⟨100, false⟩).machine = { finalMachine with phase := .Withdrawing })) :=
  ⟨rfl, Settle_error_phase sampleWallet ⟨idleConn, finalMachine, adjWithdrawFails⟩ background
    ⟨100, false⟩ rfl⟩

/-- The calls made by the tail of `Settle` extend the calls made so far by a
nonempty prefix of `SetWithdrawing`, `Withdraw`, `SetWithdrawn` in which only
the last call can have failed; a failed call makes the tail return an error,
and `Withdraw` is called at the instant the tail was entered. -/
theorem settleWithdraw_trace {M : Type} (ops : MachineOps M) (adj : Adjudicator) (ctx : Context)
    (m : M) (req : AdjudicatorReq) (clock : Nat) (tr : List Effect) :
    ∃ ext : List Effect,
      (settleWithdraw ops adj ctx m req clock tr).trace = tr ++ ext ∧
      ext ≠ [] ∧
      ext.map Effect.step <+: [Step.SetWithdrawing, Step.Withdraw, Step.SetWithdrawn] ∧
      (∀ e ∈ ext.dropLast, e.failed = false) ∧
      (∀ e ∈ ext, e.failed = true → (settleWithdraw ops adj ctx m req clock tr).err.isSome = true) ∧
      (∀ t r e, Effect.Withdraw t r e ∈ ext → t = clock) := by
  unfold settleWithdraw
  rcases h3 : ops.SetWithdrawing m with ⟨_ | e3, m3⟩
  · cases hw : adj.Withdraw ctx req with
    | some e =>
      refine ⟨[.SetWithdrawing none, .Withdraw clock req (some e)], rfl, by simp, ?_, ?_, ?_, ?_⟩
      · simp [Effect.step]
      · simp [Effect.failed]
      · simp [Effect.failed]
      · intro t r x hx
        simp at hx
        exact hx.1
    | none =>
      refine ⟨[.SetWithdrawing none, .Withdraw clock req none,
        .SetWithdrawn (ops.SetWithdrawn m3).1], rfl, by simp, ?_, ?_, ?_, ?_⟩
      · simp [Effect.step]
      · simp [Effect.failed]
      · simp [Effect.failed]
      · intro t r x hx
        simp at hx
        exact hx.1
  · refine ⟨[.SetWithdrawing (some e3)], rfl, by simp, ?_, ?_, ?_, ?_⟩
    · simp [Effect.step]
    · simp
    · simp [Effect.failed]
    · intro t r x hx
      simp at hx

/-- C7: in every execution of `Settle`, for every implementation of the state
machine and every adjudicator, the calls made are, in order, a prefix of
`SetRegistering`, `Register`, `SetRegistered`, `SetWithdrawing`, `Withdraw`,
`SetWithdrawn`; every call but the last one made has succeeded, so each step is
made only after the preceding one succeeded and a failing call ends the trace;
and a failing call makes `Settle` return an error. -/
theorem Settle_trace_gated {M : Type} (ops : MachineOps M) (c : Channel M) (ctx : Context)
    (rt : Runtime) :
    (Settle ops c ctx rt).trace.map Effect.step <+: settleSteps ∧
    (∀ e ∈ (Settle ops c ctx rt).trace.dropLast, e.failed = false) ∧
    (∀ e ∈ (Settle ops c ctx rt).trace, e.failed = true →
      (Settle ops c ctx rt).err.isSome = true) := by
  have tail : ∀ (m2 : M) (req : AdjudicatorReq) (reg : Registration) (clock : Nat),
      ((settleWithdraw ops c.adjudicator ctx m2 req clock
          [.SetRegistering none, .Register req (.ok reg), .SetRegistered none]).trace.map
            Effect.step <+: settleSteps) ∧
      (∀ e ∈ (settleWithdraw ops c.adjudicator ctx m2 req clock
          [.SetRegistering none, .Register req (.ok reg), .SetRegistered none]).trace.dropLast,
            e.failed = false) ∧
      (∀ e ∈ (settleWithdraw ops c.adjudicator ctx m2 req clock
          [.SetRegistering none, .Register req (.ok reg), .SetRegistered none]).trace,
            e.failed = true →
          (settleWithdraw ops c.adjudicator ctx m2 req clock
            [.SetRegistering none, .Register req (.ok reg), .SetRegistered none]).err.isSome
              = true) := by
    intro m2 req reg clock
    obtain ⟨ext, htr, hne, hpre, hdrop, hfail, -⟩ := settleWithdraw_trace ops c.adjudicator ctx
      m2 req clock [.SetRegistering none, .Register req (.ok reg), .SetRegistered none]
    rw [htr]
    refine ⟨?_, ?_, ?_⟩
    · simpa [settleSteps, Effect.step] using hpre
    · intro e he
      rw [List.dropLast_append_of_ne_nil _ hne] at he
      rcases List.mem_append.mp he with h | h
      · simp at h
        rcases h with rfl | rfl | rfl <;> rfl
      · exact hdrop e h
    · intro e he hf
      rcases List.mem_append.mp he with h | h
      · simp at h
        rcases h with rfl | rfl | rfl <;> simp [Effect.failed] at hf
      · exact hfail e h hf
  unfold Settle
  dsimp only
  split_ifs with hg
  · simp
  · rcases h1 : ops.SetRegistering c.machine with ⟨_ | e1, m1⟩
    · dsimp only
      cases hreg : c.adjudicator.Register ctx (ops.AdjudicatorReq m1) with
      | error e => simp [settleSteps, Effect.step, Effect.failed]
      | ok reg =>
        dsimp only
        rcases h2 : ops.SetRegistered m1 with ⟨_ | e2, m2⟩
        · dsimp only
          split_ifs with hv ht
          · simp [settleSteps, Effect.step, Effect.failed]
          · cases ha : awaitTimeout ctx rt reg.Timeout with
            | ctxDone e => simp [settleSteps, Effect.step, Effect.failed]
            | elapsed clock => exact tail m2 _ reg clock
          · exact tail m2 _ reg rt.now
        · simp [settleSteps, Effect.step, Effect.failed]
    · simp [settleSteps, Effect.step, Effect.failed]

/-- The final-state check of `Settle` on the state machine of the
specification passes exactly on a final state in phase `Final`. -/
theorem spec_check_passed (c : Channel StateMachine)
    (hg : ¬ (c.machine.phase ≠ .Final ∨ c.machine.currentTX.State.IsFinal = false)) :
    c.machine.phase = .Final ∧ c.machine.currentTX.State.IsFinal = true := by
  constructor
  · by_contra hn
    exact hg (Or.inl hn)
  · cases hb : c.machine.currentTX.State.IsFinal
    · exact absurd (Or.inr hb) hg
    · rfl

/-- C3: on a channel in phase `Final` with a final state, if `Register`
succeeds on the request of the state machine, reporting the version of the
submitted state and a withdrawal timeout that is not in the future, and
`Withdraw` succeeds on that request, then `Settle` returns `nil`, the phase
afterwards is `Withdrawn`, and the calls made are the six steps in order, each
successful, with `Register` and `Withdraw` called once each on the request
`AdjudicatorReq()` returned after `SetRegistering`. -/
theorem Settle_success (w : Wallet) (c : Channel StateMachine) (ctx : Context) (rt : Runtime)
    (reg : Registration)
    (hp : (specOps w).Phase c.machine = .Final)
    (hf : ((specOps w).State c.machine).IsFinal = true)
    (hreg : c.adjudicator.Register ctx c.machine.AdjudicatorReq = .ok reg)
    (hv : reg.Version = c.machine.AdjudicatorReq.Tx.State.Version)
    (ht : reg.Timeout ≤ rt.now)
    (hw : c.adjudicator.Withdraw ctx c.machine.AdjudicatorReq = none) :
    (Settle (specOps w) c ctx rt).err = none ∧
    (specOps w).Phase (Settle (specOps w) c ctx rt).machine = .Withdrawn ∧
    (Settle (specOps w) c ctx rt).trace =
      [.SetRegistering none, .Register c.machine.AdjudicatorReq (.ok reg), .SetRegistered none,
        .SetWithdrawing none, .Withdraw rt.now c.machine.AdjudicatorReq none,
        .SetWithdrawn none] ∧
    (specOps w).AdjudicatorReq ((specOps w).SetRegistering c.machine).2
      = c.machine.AdjudicatorReq := by
  have key := Settle_spec_final w c ctx rt hp hf
  have hv2 : ¬ reg.Version ≠ c.machine.currentTX.State.Version := fun hn => hn hv
  rw [hreg] at key
  dsimp only at key
  rw [if_neg hv2, if_neg (Nat.not_lt.mpr ht), settleWithdraw_spec w _ _ _ _ _ _ rfl, hw] at key
  rw [key]
  refine ⟨rfl, rfl, rfl, ?_⟩
  have h1 : (specOps w).SetRegistering c.machine = (none, { c.machine with phase := .Registering }) :=
    method_transition_of_phase _ _ _ hp
  rw [h1]
  rfl

/-- Witness of C3: the sample final channel with a cooperative adjudicator. -/
theorem Settle_success_witness :
    (Settle (specOps sampleWallet) ⟨idleConn, finalMachine, adjOk 90⟩ background ⟨100, false⟩).err
        = none ∧
    (specOps sampleWallet).Phase
        (Settle (specOps sampleWallet) ⟨idleConn, finalMachine, adjOk 90⟩ background
          ⟨100, false⟩).machine = .Withdrawn ∧
    (Settle (specOps sampleWallet) ⟨idleConn, finalMachine, adjOk 90⟩ background
        ⟨100, false⟩).trace =
      [.SetRegistering none, .Register finalMachine.AdjudicatorReq (.ok ⟨5, 90⟩),
        .SetRegistered none, .SetWithdrawing none, .Withdraw 100 finalMachine.AdjudicatorReq none,
        .SetWithdrawn none] ∧
    (specOps sampleWallet).AdjudicatorReq ((specOps sampleWallet).SetRegistering finalMachine).2
      = finalMachine.AdjudicatorReq :=
  Settle_success sampleWallet ⟨idleConn, finalMachine, adjOk 90⟩ background ⟨100, false⟩ ⟨5, 90⟩
    rfl rfl rfl rfl (by decide) rfl

/-- C4: on the state machine of the specification, if `Register` returns an
error `e` during `Settle`, then `Settle` returns `e` with the message "calling
Register" around it, whose root cause is that of `e`; `Withdraw` is not called
and the phase afterwards is `Registering`.  If `Withdraw` returns an error `e`,
then `Settle` returns `e` with the message "calling Withdraw" around it and the
phase afterwards is `Withdrawing`. -/
theorem Settle_adjudicator_error (w : Wallet) (c : Channel StateMachine) (ctx : Context)
    (rt : Runtime) :
    (∀ req e, Effect.Register req (.error e) ∈ (Settle (specOps w) c ctx rt).trace →
      (Settle (specOps w) c ctx rt).err = some (Error.WithMessage e "calling Register") ∧
      (Error.WithMessage e "calling Register").Cause = e.Cause ∧
      (∀ x ∈ (Settle (specOps w) c ctx rt).trace, x.step ≠ .Withdraw) ∧
      (specOps w).Phase (Settle (specOps w) c ctx rt).machine = .Registering) ∧
    (∀ clock req e, Effect.Withdraw clock req (some e) ∈ (Settle (specOps w) c ctx rt).trace →
      (Settle (specOps w) c ctx rt).err = some (Error.WithMessage e "calling Withdraw") ∧
      (Error.WithMessage e "calling Withdraw").Cause = e.Cause ∧
      (specOps w).Phase (Settle (specOps w) c ctx rt).machine = .Withdrawing) := by
  by_cases hg : c.machine.phase ≠ .Final ∨ c.machine.currentTX.State.IsFinal = false
  · rw [Settle_of_check_failed (specOps w) c ctx rt hg]
    simp
  · obtain ⟨hp, hf⟩ := spec_check_passed c hg
    have key := Settle_spec_final w c ctx rt hp hf
    have wd := fun clock tr => settleWithdraw_spec w c.adjudicator ctx
      { c.machine with phase := .Registered } c.machine.AdjudicatorReq clock tr rfl
    have tail : ∀ (reg : Registration) (clock : Nat),
        Settle (specOps w) c ctx rt =
          settleWithdraw (specOps w) c.adjudicator ctx { c.machine with phase := .Registered }
            c.machine.AdjudicatorReq clock
            [.SetRegistering none, .Register c.machine.AdjudicatorReq (.ok reg),
              .SetRegistered none] →
        (∀ req e, Effect.Register req (.error e) ∈ (Settle (specOps w) c ctx rt).trace →
          (Settle (specOps w) c ctx rt).err = some (Error.WithMessage e "calling Register") ∧
          (Error.WithMessage e "calling Register").Cause = e.Cause ∧
          (∀ x ∈ (Settle (specOps w) c ctx rt).trace, x.step ≠ .Withdraw) ∧
          (specOps w).Phase (Settle (specOps w) c ctx rt).machine = .Registering) ∧
        (∀ clock req e,
          Effect.Withdraw clock req (some e) ∈ (Settle (specOps w) c ctx rt).trace →
          (Settle (specOps w) c ctx rt).err = some (Error.WithMessage e "calling Withdraw") ∧
          (Error.WithMessage e "calling Withdraw").Cause = e.Cause ∧
          (specOps w).Phase (Settle (specOps w) c ctx rt).machine = .Withdrawing) := by
      intro reg clock hk
      rw [hk, wd]
      cases hw : c.adjudicator.Withdraw ctx c.machine.AdjudicatorReq with
      | none => simp
      | some e =>
        refine ⟨by simp, ?_⟩
        intro t r x hx
        simp at hx
        obtain ⟨-, -, rfl⟩ := hx
        exact ⟨rfl, rfl, rfl⟩
    cases hreg : c.adjudicator.Register ctx c.machine.AdjudicatorReq with
    | error e =>
      rw [hreg] at key
      dsimp only at key
      rw [key]
      refine ⟨?_, by simp⟩
      intro r x hx
      simp at hx
      obtain ⟨-, rfl⟩ := hx
      exact ⟨rfl, rfl, by simp [Effect.step], rfl⟩
    | ok reg =>
      rw [hreg] at key
      dsimp only at key
      by_cases hv : reg.Version ≠ c.machine.currentTX.State.Version
      · rw [if_pos hv] at key
        rw [key]
        simp
      · rw [if_neg hv] at key
        by_cases ht : rt.now < reg.Timeout
        · rw [if_pos ht] at key
          cases ha : awaitTimeout ctx rt reg.Timeout with
          | ctxDone e =>
            rw [ha] at key
            dsimp only at key
            rw [key]
            simp
          | elapsed clock =>
            rw [ha] at key
            exact tail reg clock key
        · rw [if_neg ht] at key
          exact tail reg rt.now key

/-- Witness of C4: the sample final channel with an adjudicator failing in
`Register`, and with one failing in `Withdraw`. -/
theorem Settle_adjudicator_error_witness :
    ((Settle (specOps sampleWallet) ⟨idleConn, finalMachine, adjRegisterFails⟩ background
        ⟨100, false⟩).err
        = some (Error.WithMessage (Error.New "register reverted") "calling Register") ∧
      (Error.WithMessage (Error.New "register reverted") "calling Register").Cause
        = (Error.New "register reverted").Cause ∧
      (∀ x ∈ (Settle (specOps sampleWallet) ⟨idleConn, finalMachine, adjRegisterFails⟩ background
        ⟨100, false⟩).trace, x.step ≠ .Withdraw) ∧
      (specOps sampleWallet).Phase
        (Settle (specOps sampleWallet) ⟨idleConn, finalMachine, adjRegisterFails⟩ background
          ⟨100, false⟩).machine = .Registering) ∧
    ((Settle (specOps sampleWallet) ⟨idleConn, finalMachine, adjWithdrawFails⟩ background
        ⟨100, false⟩).err
        = some (Error.WithMessage (Error.New "withdraw reverted") "calling Withdraw") ∧
      (Error.WithMessage (Error.New "withdraw reverted") "calling Withdraw").Cause
        = (Error.New "withdraw reverted").Cause ∧
      (specOps sampleWallet).Phase
        (Settle (specOps sampleWallet) ⟨idleConn, finalMachine, adjWithdrawFails⟩ background
          ⟨100, false⟩).machine = .Withdrawing) :=
  ⟨(Settle_adjudicator_error sampleWallet ⟨idleConn, finalMachine, adjRegisterFails⟩ background
      ⟨100, false⟩).1 finalMachine.AdjudicatorReq (Error.New "register reverted")
      (List.mem_cons_of_mem _ (List.mem_cons_self _ _)),
    (Settle_adjudicator_error sampleWallet ⟨idleConn, finalMachine, adjWithdrawFails⟩ background
      ⟨100, false⟩).2 100 finalMachine.AdjudicatorReq (Error.New "withdraw reverted")
      (List.mem_cons_of_mem _ (List.mem_cons_of_mem _ (List.mem_cons_of_mem _
        (List.mem_cons_of_mem _ (List.mem_cons_self _ _)))))⟩

/-- The tail of `Settle` makes no call of `Register`. -/
theorem settleWithdraw_ext_not_register {ext : List Effect}
    (hpre : ext.map Effect.step <+: [Step.SetWithdrawing, Step.Withdraw, Step.SetWithdrawn])
    (req : AdjudicatorReq) (res : Except Error Registration) : Effect.Register req res ∉ ext := by
  intro hmem
  have h := hpre.subset (List.mem_map_of_mem Effect.step hmem)
  simp [Effect.step] at h

/-- C5: in every execution of `Settle`, for every implementation of the state
machine, if the call of `Register` succeeds and reports a version other than
the version of the state in the submitted request, then `Settle` returns an
error and calls neither `SetWithdrawing` nor `Withdraw`. -/
theorem Settle_unexpected_version {M : Type} (ops : MachineOps M) (c : Channel M) (ctx : Context)
    (rt : Runtime) (req : AdjudicatorReq) (reg : Registration)
    (hcall : Effect.Register req (.ok reg) ∈ (Settle ops c ctx rt).trace)
    (hv : reg.Version ≠ req.Tx.State.Version) :
    (Settle ops c ctx rt).err.isSome = true ∧
    ∀ e ∈ (Settle ops c ctx rt).trace, e.step ≠ .SetWithdrawing ∧ e.step ≠ .Withdraw := by
  have tail : ∀ (m2 : M) (rq : AdjudicatorReq) (rg : Registration) (clock : Nat),
      ¬ rg.Version ≠ rq.Tx.State.Version →
      Effect.Register req (.ok reg) ∉
        (settleWithdraw ops c.adjudicator ctx m2 rq clock
          [.SetRegistering none, .Register rq (.ok rg), .SetRegistered none]).trace := by
    intro m2 rq rg clock hv2 hmem
    obtain ⟨ext, htr, -, hpre, -, -, -⟩ := settleWithdraw_trace ops c.adjudicator ctx m2 rq clock
      [.SetRegistering none, .Register rq (.ok rg), .SetRegistered none]
    rw [htr] at hmem
    rcases List.mem_append.mp hmem with h | h
    · simp at h
      obtain ⟨rfl, rfl⟩ := h
      exact hv2 hv
    · exact settleWithdraw_ext_not_register hpre _ _ h
  unfold Settle at hcall ⊢
  dsimp only at hcall ⊢
  split_ifs at hcall ⊢ with hg
  · simp at hcall
  · rcases h1 : ops.SetRegistering c.machine with ⟨_ | e1, m1⟩
    · rw [h1] at hcall
      dsimp only at hcall ⊢
      cases hreg : c.adjudicator.Register ctx (ops.AdjudicatorReq m1) with
      | error e =>
        rw [hreg] at hcall
        simp at hcall
      | ok rg =>
        rw [hreg] at hcall
        dsimp only at hcall ⊢
        rcases h2 : ops.SetRegistered m1 with ⟨_ | e2, m2⟩
        · rw [h2] at hcall
          dsimp only at hcall ⊢
          split_ifs at hcall ⊢ with hv2 ht
          · simp [Effect.step]
          · cases ha : awaitTimeout ctx rt rg.Timeout with
            | ctxDone e => simp [Effect.step]
            | elapsed clock =>
              rw [ha] at hcall
              exact absurd hcall (tail m2 _ rg clock hv2)
          · exact absurd hcall (tail m2 _ rg rt.now hv2)
        · simp [Effect.step]
    · rw [h1] at hcall
      simp at hcall

/-- Witness of C5: the sample final channel with an adjudicator that reports
version 4 for the submitted version 5. -/
theorem Settle_unexpected_version_witness :
    (Settle (specOps sampleWallet) ⟨idleConn, finalMachine, adjOtherVersion⟩ background
      ⟨100, false⟩).err.isSome = true ∧
    ∀ e ∈ (Settle (specOps sampleWallet) ⟨idleConn, finalMachine, adjOtherVersion⟩ background
      ⟨100, false⟩).trace, e.step ≠ .SetWithdrawing ∧ e.step ≠ .Withdraw :=
  Settle_unexpected_version (specOps sampleWallet) ⟨idleConn, finalMachine, adjOtherVersion⟩
    background ⟨100, false⟩ finalMachine.AdjudicatorReq ⟨4, 0⟩
    (List.mem_cons_of_mem _ (List.mem_cons_self _ _)) (by decide)

/-- Once the final-state check, `SetRegistering`, `Register`, `SetRegistered`
and the version check have passed, `Settle` is at the test of the withdrawal
timeout (line 194). -/
theorem Settle_at_timeout {M : Type} (ops : MachineOps M) (c : Channel M) (ctx : Context)
    (rt : Runtime) (m1 m2 : M) (reg : Registration)
    (hp : ops.Phase c.machine = .Final) (hf : (ops.State c.machine).IsFinal = true)
    (h1 : ops.SetRegistering c.machine = (none, m1))
    (hreg : c.adjudicator.Register ctx (ops.AdjudicatorReq m1) = .ok reg)
    (h2 : ops.SetRegistered m1 = (none, m2))
    (hv : reg.Version = (ops.AdjudicatorReq m1).Tx.State.Version) :
    Settle ops c ctx rt =
      if rt.now < reg.Timeout then
        match awaitTimeout ctx rt reg.Timeout with
        | .ctxDone e =>
          ⟨some (Error.Wrap e "ctx done"), m2,
            [.SetRegistering none, .Register (ops.AdjudicatorReq m1) (.ok reg),
              .SetRegistered none]⟩
        | .elapsed clock =>
          settleWithdraw ops c.adjudicator ctx m2 (ops.AdjudicatorReq m1) clock
            [.SetRegistering none, .Register (ops.AdjudicatorReq m1) (.ok reg),
              .SetRegistered none]
      else
        settleWithdraw ops c.adjudicator ctx m2 (ops.AdjudicatorReq m1) rt.now
          [.SetRegistering none, .Register (ops.AdjudicatorReq m1) (.ok reg),
            .SetRegistered none] := by
  have hg : ¬ (ops.Phase c.machine ≠ Phase.Final ∨ (ops.State c.machine).IsFinal = false) := by
    simp [hp, hf]
  have hv2 : ¬ reg.Version ≠ (ops.AdjudicatorReq m1).Tx.State.Version := fun hn => hn hv
  unfold Settle
  simp only [if_neg hg, h1, hreg, h2, if_neg hv2]

/-- C6: let `Settle` have reached the test of the withdrawal timeout: the
final-state check, `SetRegistering`, `Register`, `SetRegistered` and the
version check have passed and `Register` reported `reg`.  If `reg.Timeout` lies
after the current time, every call of `Withdraw` takes place at an instant not
before `reg.Timeout`; and if moreover the context is done at an instant before
`reg.Timeout`, `Settle` returns `ctx.Err()` wrapped with "ctx done" and the
calls end with `SetRegistered`, so neither `SetWithdrawing` nor `Withdraw` is
called.  If `reg.Timeout` is not after the current time, the next call is
`SetWithdrawing` and, when it succeeds, `Withdraw` is called at the current
time, without a wait. -/
theorem Settle_withdrawal_timeout {M : Type} (ops : MachineOps M) (c : Channel M)
    (ctx : Context) (rt : Runtime) (m1 m2 : M) (reg : Registration)
    (hp : ops.Phase c.machine = .Final) (hf : (ops.State c.machine).IsFinal = true)
    (h1 : ops.SetRegistering c.machine = (none, m1))
    (hreg : c.adjudicator.Register ctx (ops.AdjudicatorReq m1) = .ok reg)
    (h2 : ops.SetRegistered m1 = (none, m2))
    (hv : reg.Version = (ops.AdjudicatorReq m1).Tx.State.Version) :
    (rt.now < reg.Timeout →
      ∀ t r e, Effect.Withdraw t r e ∈ (Settle ops c ctx rt).trace → reg.Timeout ≤ t) ∧
    (rt.now < reg.Timeout → ∀ d, ctx.doneAt = some d → d < reg.Timeout →
      (Settle ops c ctx rt).err = some (Error.Wrap ctx.err "ctx done") ∧
      (Settle ops c ctx rt).trace =
        [.SetRegistering none, .Register (ops.AdjudicatorReq m1) (.ok reg),
          .SetRegistered none]) ∧
    (reg.Timeout ≤ rt.now →
      (Settle ops c ctx rt).trace.take 4 =
        [.SetRegistering none, .Register (ops.AdjudicatorReq m1) (.ok reg),
          .SetRegistered none, .SetWithdrawing (ops.SetWithdrawing m2).1] ∧
      ((ops.SetWithdrawing m2).1 = none →
        Effect.Withdraw rt.now (ops.AdjudicatorReq m1)
            (c.adjudicator.Withdraw ctx (ops.AdjudicatorReq m1)) ∈
          (Settle ops c ctx rt).trace)) := by
  have key := Settle_at_timeout ops c ctx rt m1 m2 reg hp hf h1 hreg h2 hv
  refine ⟨?_, ?_, ?_⟩
  · intro ht t r e hmem
    rw [key, if_pos ht] at hmem
    cases ha : awaitTimeout ctx rt reg.Timeout with
    | ctxDone x =>
      rw [ha] at hmem
      simp at hmem
    | elapsed clock =>
      rw [ha] at hmem
      dsimp only at hmem
      obtain ⟨ext, htr, -, -, -, -, hclock⟩ := settleWithdraw_trace ops c.adjudicator ctx m2
        (ops.AdjudicatorReq m1) clock
        [.SetRegistering none, .Register (ops.AdjudicatorReq m1) (.ok reg), .SetRegistered none]
      rw [htr] at hmem
      rcases List.mem_append.mp hmem with h | h
      · simp at h
      · rw [hclock t r e h, awaitTimeout_elapsed ctx rt reg.Timeout clock ha]
  · intro ht d hd hlt
    have ha : awaitTimeout ctx rt reg.Timeout = .ctxDone ctx.err := by
      simp [awaitTimeout, hd, hlt]
    rw [key, if_pos ht, ha]
    exact ⟨rfl, rfl⟩
  · intro ht
    rw [key, if_neg (Nat.not_lt.mpr ht)]
    unfold settleWithdraw
    rcases h3 : ops.SetWithdrawing m2 with ⟨_ | e3, m3⟩
    · dsimp only
      cases hw : c.adjudicator.Withdraw ctx (ops.AdjudicatorReq m1) with
      | some e => simp
      | none => simp
    · simp

/-- Witness of C6 on the sample final channel at time 100: with the withdrawal
timeout 150 and a context that is never done, with the withdrawal timeout 150
and a context with deadline 120, and with the withdrawal timeout 90. -/
theorem Settle_withdrawal_timeout_witness :
    (∀ t r e, Effect.Withdraw t r e ∈
        (Settle (specOps sampleWallet) ⟨idleConn, finalMachine, adjOk 150⟩ background
          ⟨100, false⟩).trace → 150 ≤ t) ∧
    ((Settle (specOps sampleWallet) ⟨idleConn, finalMachine, adjOk 150⟩ (deadline 120)
          ⟨100, false⟩).err = some (Error.Wrap (deadline 120).err "ctx done") ∧
      (Settle (specOps sampleWallet) ⟨idleConn, finalMachine, adjOk 150⟩ (deadline 120)
          ⟨100, false⟩).trace =
        [.SetRegistering none, .Register finalMachine.AdjudicatorReq (.ok ⟨5, 150⟩),
          .SetRegistered none]) ∧
    ((Settle (specOps sampleWallet) ⟨idleConn, finalMachine, adjOk 90⟩ background
          ⟨100, false⟩).trace.take 4 =
        [.SetRegistering none, .Register finalMachine.AdjudicatorReq (.ok ⟨5, 90⟩),
          .SetRegistered none, .SetWithdrawing none] ∧
      Effect.Withdraw 100 finalMachine.AdjudicatorReq none ∈
        (Settle (specOps sampleWallet) ⟨idleConn, finalMachine, adjOk 90⟩ background
          ⟨100, false⟩).trace) :=
  ⟨(Settle_withdrawal_timeout (specOps sampleWallet) ⟨idleConn, finalMachine, adjOk 150⟩
      background ⟨100, false⟩ (finalMachineIn .Registering) (finalMachineIn .Registered)
      ⟨5, 150⟩ rfl rfl rfl rfl rfl rfl).1 (by decide),
    (Settle_withdrawal_timeout (specOps sampleWallet) ⟨idleConn, finalMachine, adjOk 150⟩
      (deadline 120) ⟨100, false⟩ (finalMachineIn .Registering) (finalMachineIn .Registered)
      ⟨5, 150⟩ rfl rfl rfl rfl rfl rfl).2.1 (by decide) 120 rfl (by decide),
    ((Settle_withdrawal_timeout (specOps sampleWallet) ⟨idleConn, finalMachine, adjOk 90⟩
      background ⟨100, false⟩ (finalMachineIn .Registering) (finalMachineIn .Registered)
      ⟨5, 90⟩ rfl rfl rfl rfl rfl rfl).2.2 (by decide)).1,
    ((Settle_withdrawal_timeout (specOps sampleWallet) ⟨idleConn, finalMachine, adjOk 90⟩
      background ⟨100, false⟩ (finalMachineIn .Registering) (finalMachineIn .Registered)
      ⟨5, 90⟩ rfl rfl rfl rfl rfl rfl).2.2 (by decide)).2 rfl⟩

/-! ## Opening: theorems -/

/-- Every call recorded by the part of `initExchangeSigsAndEnable` after the
response is one made so far or one of `AddSig`, `EnableInit`, `Close`. -/
theorem initAfterNext_trace {M : Type} (ops : MachineOps M) (m1 : M) (send : Option Error)
    (pidx : Index) (cm : Option Msg) (tr : List InitEffect) :
    ∃ ext : List InitEffect,
      (initAfterNext ops m1 send pidx cm tr).trace = tr ++ ext ∧
      (∀ x ∈ ext, x.isSend = false) ∧
      (∀ e, InitEffect.EnableInit e ∈ ext →
        ∃ id v sig, cm = some (.ChannelUpdateAcc id v sig) ∧
          ext = [.AddSig pidx sig none, .EnableInit e, .Close]) ∧
      (∀ i s e, InitEffect.AddSig i s (some e) ∈ ext →
        (initAfterNext ops m1 send pidx cm tr).err = some e ∧
          ∀ x, InitEffect.EnableInit x ∉ ext) ∧
      ((∀ id v sig, cm ≠ some (.ChannelUpdateAcc id v sig)) →
        (initAfterNext ops m1 send pidx cm tr).err = some (unexpectedMessage pidx cm) ∧
        (initAfterNext ops m1 send pidx cm tr).machine = m1 ∧ ext = [.Close]) ∧
      (∀ i m, InitEffect.Next i m ∉ ext) := by
  unfold initAfterNext
  split
  · rename_i id v accSig
    rcases ha : ops.AddSig m1 pidx accSig with ⟨_ | ea, m2⟩
    · dsimp only
      rcases he : ops.EnableInit m2 with ⟨_ | ee, m3⟩
      · refine ⟨[.AddSig pidx accSig none, .EnableInit none, .Close], rfl, ?_, ?_, ?_, ?_, by simp⟩
        · simp [InitEffect.isSend]
        · intro e hmem
          simp at hmem
          subst hmem
          exact ⟨id, v, accSig, rfl, rfl⟩
        · simp
        · intro h
          exact absurd rfl (h id v accSig)
      · refine ⟨[.AddSig pidx accSig none, .EnableInit (some ee), .Close], rfl, ?_, ?_, ?_, ?_, by simp⟩
        · simp [InitEffect.isSend]
        · intro e hmem
          simp at hmem
          subst hmem
          exact ⟨id, v, accSig, rfl, rfl⟩
        · simp
        · intro h
          exact absurd rfl (h id v accSig)
    · refine ⟨[.AddSig pidx accSig (some ea), .Close], rfl, ?_, ?_, ?_, ?_, by simp⟩
      · simp [InitEffect.isSend]
      · simp
      · intro i s e hmem
        simp at hmem
        obtain ⟨-, -, rfl⟩ := hmem
        exact ⟨rfl, by simp⟩
      · intro h
        exact absurd rfl (h id v accSig)
  · rename_i hne
    refine ⟨[.Close], rfl, ?_, ?_, ?_, ?_, by simp⟩
    · simp [InitEffect.isSend]
    · simp
    · simp
    · intro _
      exact ⟨rfl, rfl, rfl⟩

/-- On the state machine of the specification `Sig` leaves the parameters and
the phase as they are. -/
theorem spec_Sig_params_phase (w : Wallet) (m : StateMachine) :
    ((specOps w).Sig m).2.params = m.params ∧ ((specOps w).Sig m).2.phase = m.phase := by
  simp only [specOps, StateMachine.Sig]
  split
  · rename_i s m1 hs
    split at hs
    · cases hs
      exact ⟨rfl, rfl⟩
    · split at hs
      · cases hs
      · cases hs
        exact ⟨rfl, rfl⟩
  · exact ⟨rfl, rfl⟩

/-- A method that fails leaves the state machine as it was. -/
theorem method_failed {M : Type} (f : M → Except Error M) (m : M) (e : Error)
    (h : (method f m).1 = some e) : (method f m).2 = m := by
  unfold method at h ⊢
  cases hf : f m with
  | ok m1 => rw [hf] at h; cases h
  | error x => rfl

/-- C8: in every execution of `initExchangeSigsAndEnable`, for every
implementation of the state machine, every message sent is the `UpdateAcc`
with the channel's own id, version 0 and the signature that `machine.Sig()`
returned, and at most one message is sent; if `machine.Sig()` fails, its error
is returned and `Sig` is the only call made, so nothing is sent and no receiver
is opened.  On the state machine of the specification the channel id read after
`Sig` is the one read before.  When `machine.Sig()` returns a signature and the
receiver is created, that `UpdateAcc` is sent: the messages sent are exactly
this one, whatever the peer answers and whatever the state machine does with
the answer; and the call before it is the creation of the receiver, the one
after it the wait for the response.  When the receiver cannot be created,
nothing is sent. -/
theorem initExchange_sends_one_acc {M : Type} (ops : MachineOps M) (c : Channel M)
    (ctx : Context) :
    (∀ msg err, InitEffect.Send msg err ∈ (initExchangeSigsAndEnable ops c ctx).trace →
      ∃ sig, (ops.Sig c.machine).1 = .ok sig ∧
        msg = .ChannelUpdateAcc (ops.ID (ops.Sig c.machine).2) 0 sig) ∧
    ((initExchangeSigsAndEnable ops c ctx).trace.filter InitEffect.isSend).length ≤ 1 ∧
    (∀ e, (ops.Sig c.machine).1 = .error e →
      (initExchangeSigsAndEnable ops c ctx).err = some e ∧
      (initExchangeSigsAndEnable ops c ctx).trace = [.Sig (.error e)]) ∧
    (∀ (w : Wallet) (m : StateMachine), (specOps w).ID ((specOps w).Sig m).2 = (specOps w).ID m) ∧
    (∀ sig, (ops.Sig c.machine).1 = .ok sig → c.conn.NewUpdateResRecv 0 = none →
      (initExchangeSigsAndEnable ops c ctx).trace.filter InitEffect.isSend =
        [.Send (.ChannelUpdateAcc (ops.ID (ops.Sig c.machine).2) 0 sig)
          (c.conn.Send ctx (.ChannelUpdateAcc (ops.ID (ops.Sig c.machine).2) 0 sig))] ∧
      ∃ ext, (initExchangeSigsAndEnable ops c ctx).trace =
        [.Sig (.ok sig), .NewUpdateResRecv 0 none,
          .Send (.ChannelUpdateAcc (ops.ID (ops.Sig c.machine).2) 0 sig)
            (c.conn.Send ctx (.ChannelUpdateAcc (ops.ID (ops.Sig c.machine).2) 0 sig)),
          .Next (c.conn.Next ctx).1 (c.conn.Next ctx).2] ++ ext) ∧
    (∀ e, c.conn.NewUpdateResRecv 0 = some e →
      (initExchangeSigsAndEnable ops c ctx).trace.filter InitEffect.isSend = []) := by
  refine ⟨?_, ?_, ?_, ?_, ?_, ?_⟩
  · intro msg err hmem
    unfold initExchangeSigsAndEnable at hmem
    rcases hs : ops.Sig c.machine with ⟨e | sig, m1⟩
    · rw [hs] at hmem
      simp at hmem
    · rw [hs] at hmem
      dsimp only at hmem
      cases hr : c.conn.NewUpdateResRecv 0 with
      | some e =>
        rw [hr] at hmem
        simp at hmem
      | none =>
        rw [hr] at hmem
        dsimp only at hmem
        obtain ⟨ext, htr, hns, -, -, -⟩ := initAfterNext_trace ops m1
          (c.conn.Send ctx (.ChannelUpdateAcc (ops.ID m1) 0 sig)) (c.conn.Next ctx).1
          (c.conn.Next ctx).2
          [.Sig (.ok sig), .NewUpdateResRecv 0 none,
            .Send (.ChannelUpdateAcc (ops.ID m1) 0 sig)
              (c.conn.Send ctx (.ChannelUpdateAcc (ops.ID m1) 0 sig)),
            .Next (c.conn.Next ctx).1 (c.conn.Next ctx).2]
        rw [htr] at hmem
        rcases List.mem_append.mp hmem with h | h
        · simp at h
          exact ⟨sig, rfl, h.1⟩
        · have := hns _ h
          simp [InitEffect.isSend] at this
  · unfold initExchangeSigsAndEnable
    rcases hs : ops.Sig c.machine with ⟨e | sig, m1⟩
    · simp [InitEffect.isSend]
    · dsimp only
      cases hr : c.conn.NewUpdateResRecv 0 with
      | some e => simp [InitEffect.isSend]
      | none =>
        dsimp only
        obtain ⟨ext, htr, hns, -, -, -⟩ := initAfterNext_trace ops m1
          (c.conn.Send ctx (.ChannelUpdateAcc (ops.ID m1) 0 sig)) (c.conn.Next ctx).1
          (c.conn.Next ctx).2
          [.Sig (.ok sig), .NewUpdateResRecv 0 none,
            .Send (.ChannelUpdateAcc (ops.ID m1) 0 sig)
              (c.conn.Send ctx (.ChannelUpdateAcc (ops.ID m1) 0 sig)),
            .Next (c.conn.Next ctx).1 (c.conn.Next ctx).2]
        rw [htr, List.filter_append]
        have hext : ext.filter InitEffect.isSend = [] := by
          rw [List.filter_eq_nil_iff]
          intro x hx
          simp [hns x hx]
        rw [hext]
        simp [InitEffect.isSend]
  · intro e he
    unfold initExchangeSigsAndEnable
    rcases hs : ops.Sig c.machine with ⟨e1 | sig, m1⟩
    · rw [hs] at he
      cases he
      exact ⟨rfl, rfl⟩
    · rw [hs] at he
      cases he
  · intro w m
    show ((specOps w).Sig m).2.params.id = m.params.id
    rw [(spec_Sig_params_phase w m).1]
  · intro sig hsig hrecv
    unfold initExchangeSigsAndEnable
    rcases hs : ops.Sig c.machine with ⟨e | sig1, m1⟩
    · rw [hs] at hsig
      cases hsig
    · rw [hs] at hsig
      cases hsig
      dsimp only
      rw [hrecv]
      dsimp only
      obtain ⟨ext, htr, hns, -, -, -⟩ := initAfterNext_trace ops m1
        (c.conn.Send ctx (.ChannelUpdateAcc (ops.ID m1) 0 sig)) (c.conn.Next ctx).1
        (c.conn.Next ctx).2
        [.Sig (.ok sig), .NewUpdateResRecv 0 none,
          .Send (.ChannelUpdateAcc (ops.ID m1) 0 sig)
            (c.conn.Send ctx (.ChannelUpdateAcc (ops.ID m1) 0 sig)),
          .Next (c.conn.Next ctx).1 (c.conn.Next ctx).2]
      refine ⟨?_, ext, htr⟩
      rw [htr, List.filter_append]
      have hext : ext.filter InitEffect.isSend = [] := by
        rw [List.filter_eq_nil_iff]
        intro x hx
        simp [hns x hx]
      rw [hext]
      simp [InitEffect.isSend]
  · intro e hrecv
    unfold initExchangeSigsAndEnable
    rcases hs : ops.Sig c.machine with ⟨e1 | sig, m1⟩
    · simp [InitEffect.isSend]
    · dsimp only
      rw [hrecv]
      simp [InitEffect.isSend]

/-- Witness of C8: the sample channel in `InitSigning` whose peer answers with
its signature sends the `UpdateAcc` with channel id 7, version 0 and our
signature 10, and this is the one message it sends, also when the peer answers
with an `UpdateRej`; with a wallet that cannot sign, `Sig` is the only call. -/
theorem initExchange_sends_one_acc_witness :
    (∃ sig, ((specOps sampleWallet).Sig initMachine).1 = .ok sig ∧
      Msg.ChannelUpdateAcc 7 0 10
        = .ChannelUpdateAcc ((specOps sampleWallet).ID ((specOps sampleWallet).Sig initMachine).2)
            0 sig) ∧
    (initExchangeSigsAndEnable (specOps sampleWallet)
        ⟨connAnswering (.ChannelUpdateAcc 7 0 11), initMachine, adjOk 0⟩ background).trace.filter
        InitEffect.isSend = [.Send (.ChannelUpdateAcc 7 0 10) none] ∧
    (initExchangeSigsAndEnable (specOps sampleWallet)
        ⟨connAnswering (.ChannelUpdateRej 7 0 "no"), initMachine, adjOk 0⟩ background).trace.filter
        InitEffect.isSend = [.Send (.ChannelUpdateAcc 7 0 10) none] ∧
    ((initExchangeSigsAndEnable (specOps lockedWallet)
        ⟨connAnswering (.ChannelUpdateAcc 7 0 11), initMachine, adjOk 0⟩ background).err
        = some (Error.New "account locked") ∧
      (initExchangeSigsAndEnable (specOps lockedWallet)
        ⟨connAnswering (.ChannelUpdateAcc 7 0 11), initMachine, adjOk 0⟩ background).trace
        = [.Sig (.error (Error.New "account locked"))]) :=
  ⟨(initExchange_sends_one_acc (specOps sampleWallet)
      ⟨connAnswering (.ChannelUpdateAcc 7 0 11), initMachine, adjOk 0⟩ background).1
      (.ChannelUpdateAcc 7 0 10) none
      (List.mem_cons_of_mem _ (List.mem_cons_of_mem _ (List.mem_cons_self _ _))),
    ((initExchange_sends_one_acc (specOps sampleWallet)
      ⟨connAnswering (.ChannelUpdateAcc 7 0 11), initMachine, adjOk 0⟩ background).2.2.2.2.1
      10 rfl rfl).1,
    ((initExchange_sends_one_acc (specOps sampleWallet)
      ⟨connAnswering (.ChannelUpdateRej 7 0 "no"), initMachine, adjOk 0⟩ background).2.2.2.2.1
      10 rfl rfl).1,
    (initExchange_sends_one_acc (specOps lockedWallet)
      ⟨connAnswering (.ChannelUpdateAcc 7 0 11), initMachine, adjOk 0⟩ background).2.2.1
      (Error.New "account locked") rfl⟩

/-- The calls of `initExchangeSigsAndEnable`: either it returned before the
response was awaited, with at most `Sig` and `NewUpdateResRecv` called and the
state machine as `Sig` left it, or its outcome is that of the part after the
response. -/
theorem initExchange_cases {M : Type} (ops : MachineOps M) (c : Channel M) (ctx : Context) :
    ((initExchangeSigsAndEnable ops c ctx).machine = (ops.Sig c.machine).2 ∧
      (∀ x ∈ (initExchangeSigsAndEnable ops c ctx).trace,
        (∃ r, x = .Sig r) ∨ ∃ v e, x = .NewUpdateResRecv v e)) ∨
    ∃ sig tr,
      tr = [InitEffect.Sig (.ok sig), .NewUpdateResRecv 0 none,
        .Send (.ChannelUpdateAcc (ops.ID (ops.Sig c.machine).2) 0 sig)
          (c.conn.Send ctx (.ChannelUpdateAcc (ops.ID (ops.Sig c.machine).2) 0 sig)),
        .Next (c.conn.Next ctx).1 (c.conn.Next ctx).2] ∧
      initExchangeSigsAndEnable ops c ctx =
        initAfterNext ops (ops.Sig c.machine).2
          (c.conn.Send ctx (.ChannelUpdateAcc (ops.ID (ops.Sig c.machine).2) 0 sig))
          (c.conn.Next ctx).1 (c.conn.Next ctx).2 tr := by
  unfold initExchangeSigsAndEnable
  rcases hs : ops.Sig c.machine with ⟨e | sig, m1⟩
  · left
    simp
  · dsimp only
    cases hr : c.conn.NewUpdateResRecv 0 with
    | some e =>
      left
      simp
    | none =>
      right
      exact ⟨sig, _, rfl, rfl⟩

/-- C9: in every execution of `initExchangeSigsAndEnable`, for every
implementation of the state machine, a call of `EnableInit` is preceded
directly by the receipt of an `UpdateAcc` from a peer and by a successful
`AddSig` of its signature for that peer's index.  If the response is anything
but an `UpdateAcc` (an `UpdateRej`, another message, or none because the
context ended), or if `AddSig` returns an error, the function returns an error
and `EnableInit` is not called.  On the state machine of the specification, an
execution without a call of `EnableInit` leaves the phase as it was, so a
machine in `InitSigning` stays there. -/
theorem initExchange_enable_gated {M : Type} (ops : MachineOps M) (c : Channel M)
    (ctx : Context) :
    (∀ e, InitEffect.EnableInit e ∈ (initExchangeSigsAndEnable ops c ctx).trace →
      ∃ tr pidx id v sig,
        (initExchangeSigsAndEnable ops c ctx).trace =
          tr ++ [.Next pidx (some (.ChannelUpdateAcc id v sig)), .AddSig pidx sig none,
            .EnableInit e, .Close]) ∧
    (∀ pidx cm, InitEffect.Next pidx cm ∈ (initExchangeSigsAndEnable ops c ctx).trace →
      (∀ id v sig, cm ≠ some (.ChannelUpdateAcc id v sig)) →
      (initExchangeSigsAndEnable ops c ctx).err = some (unexpectedMessage pidx cm) ∧
      ∀ e, InitEffect.EnableInit e ∉ (initExchangeSigsAndEnable ops c ctx).trace) ∧
    (∀ i s e, InitEffect.AddSig i s (some e) ∈ (initExchangeSigsAndEnable ops c ctx).trace →
      (initExchangeSigsAndEnable ops c ctx).err = some e ∧
      ∀ x, InitEffect.EnableInit x ∉ (initExchangeSigsAndEnable ops c ctx).trace) ∧
    (∀ (w : Wallet) (c1 : Channel StateMachine),
      (∀ e, InitEffect.EnableInit e ∉ (initExchangeSigsAndEnable (specOps w) c1 ctx).trace) →
      (specOps w).Phase (initExchangeSigsAndEnable (specOps w) c1 ctx).machine
        = (specOps w).Phase c1.machine) := by
  refine ⟨?_, ?_, ?_, ?_⟩
  · intro e hmem
    rcases initExchange_cases ops c ctx with ⟨-, hearly⟩ | ⟨sig, tr, htr, hrun⟩
    · rcases hearly _ hmem with ⟨r, hr⟩ | ⟨v, x, hx⟩
      · cases hr
      · cases hx
    · obtain ⟨ext, hext, -, hen, -, -⟩ := initAfterNext_trace ops (ops.Sig c.machine).2
        (c.conn.Send ctx (.ChannelUpdateAcc (ops.ID (ops.Sig c.machine).2) 0 sig))
        (c.conn.Next ctx).1 (c.conn.Next ctx).2 tr
      rw [hrun, hext] at hmem ⊢
      rcases List.mem_append.mp hmem with h | h
      · rw [htr] at h
        simp at h
      · obtain ⟨id, v, s, hcm, hlist⟩ := hen e h
        refine ⟨[InitEffect.Sig (.ok sig), .NewUpdateResRecv 0 none,
          .Send (.ChannelUpdateAcc (ops.ID (ops.Sig c.machine).2) 0 sig)
            (c.conn.Send ctx (.ChannelUpdateAcc (ops.ID (ops.Sig c.machine).2) 0 sig))],
          (c.conn.Next ctx).1, id, v, s, ?_⟩
        rw [hlist, htr, hcm]
        rfl
  · intro pidx cm hmem hne
    rcases initExchange_cases ops c ctx with ⟨-, hearly⟩ | ⟨sig, tr, htr, hrun⟩
    · rcases hearly _ hmem with ⟨r, hr⟩ | ⟨v, x, hx⟩
      · cases hr
      · cases hx
    · obtain ⟨ext, hext, -, hen, -, hother, hnonext⟩ := initAfterNext_trace ops (ops.Sig c.machine).2
        (c.conn.Send ctx (.ChannelUpdateAcc (ops.ID (ops.Sig c.machine).2) 0 sig))
        (c.conn.Next ctx).1 (c.conn.Next ctx).2 tr
      rw [hrun, hext] at hmem ⊢
      have hnext : pidx = (c.conn.Next ctx).1 ∧ cm = (c.conn.Next ctx).2 := by
        rcases List.mem_append.mp hmem with h | h
        · rw [htr] at h
          simp at h
          exact h
        · exact absurd h (hnonext pidx cm)
      obtain ⟨rfl, rfl⟩ := hnext
      obtain ⟨herr, -, hclose⟩ := hother hne
      refine ⟨herr, ?_⟩
      intro e hin
      rcases List.mem_append.mp hin with h | h
      · rw [htr] at h
        simp at h
      · rw [hclose] at h
        simp at h
  · intro i s e hmem
    rcases initExchange_cases ops c ctx with ⟨-, hearly⟩ | ⟨sig, tr, htr, hrun⟩
    · rcases hearly _ hmem with ⟨r, hr⟩ | ⟨v, x, hx⟩
      · cases hr
      · cases hx
    · obtain ⟨ext, hext, -, -, hadd, -⟩ := initAfterNext_trace ops (ops.Sig c.machine).2
        (c.conn.Send ctx (.ChannelUpdateAcc (ops.ID (ops.Sig c.machine).2) 0 sig))
        (c.conn.Next ctx).1 (c.conn.Next ctx).2 tr
      rw [hrun, hext] at hmem
      rcases List.mem_append.mp hmem with h | h
      · rw [htr] at h
        simp at h
      · obtain ⟨herr, hno⟩ := hadd i s e h
        rw [hrun]
        refine ⟨herr, ?_⟩
        intro x hin
        rw [hext] at hin
        rcases List.mem_append.mp hin with h2 | h2
        · rw [htr] at h2
          simp at h2
        · exact hno x h2
  · intro w c1 hno
    rcases initExchange_cases (specOps w) c1 ctx with ⟨hm, -⟩ | ⟨sig, tr, htr, hrun⟩
    · show (initExchangeSigsAndEnable (specOps w) c1 ctx).machine.phase = c1.machine.phase
      rw [hm]
      exact (spec_Sig_params_phase w c1.machine).2
    · show (initExchangeSigsAndEnable (specOps w) c1 ctx).machine.phase = c1.machine.phase
      rw [hrun] at hno ⊢
      rw [← (spec_Sig_params_phase w c1.machine).2]
      generalize ((specOps w).Sig c1.machine).2 = m1 at hno ⊢
      generalize c1.conn.Send ctx _ = send at hno ⊢
      generalize (c1.conn.Next ctx).1 = pidx at hno ⊢
      generalize (c1.conn.Next ctx).2 = cm at hno ⊢
      unfold initAfterNext at hno ⊢
      split at hno
      · rename_i id v accSig
        rcases ha : (specOps w).AddSig m1 pidx accSig with ⟨_ | ea, m2⟩
        · rw [ha] at hno
          dsimp only at hno
          rcases he : (specOps w).EnableInit m2 with ⟨_ | ee, m3⟩
          · rw [he] at hno
            exact absurd (by simp) (hno none)
          · rw [he] at hno
            exact absurd (by simp) (hno (some ee))
        · have h2 := method_failed (fun m => m.AddSig w pidx accSig) m1 ea
            (by
              have : (specOps w).AddSig m1 pidx accSig
                  = method (fun m => m.AddSig w pidx accSig) m1 := rfl
              rw [← this, ha])
          have h3 : (specOps w).AddSig m1 pidx accSig
              = method (fun m => m.AddSig w pidx accSig) m1 := rfl
          rw [h3] at ha
          rw [ha] at h2
          dsimp only at h2 ⊢
          rw [h2]
      · rfl

/-- Witness of C9 on the sample channel in `InitSigning`: the peer answers with
an `UpdateRej`, or with an `UpdateAcc` whose signature does not verify. -/
theorem initExchange_enable_gated_witness :
    ((initExchangeSigsAndEnable (specOps sampleWallet)
          ⟨connAnswering (.ChannelUpdateRej 7 0 "no"), initMachine, adjOk 0⟩ background).err
        = some (unexpectedMessage 1 (some (.ChannelUpdateRej 7 0 "no"))) ∧
      ∀ e, InitEffect.EnableInit e ∉
        (initExchangeSigsAndEnable (specOps sampleWallet)
          ⟨connAnswering (.ChannelUpdateRej 7 0 "no"), initMachine, adjOk 0⟩ background).trace) ∧
    ((initExchangeSigsAndEnable (specOps sampleWallet)
          ⟨connAnswering (.ChannelUpdateAcc 7 0 99), initMachine, adjOk 0⟩ background).err
        = some StateMachine.InvalidSignature ∧
      ∀ e, InitEffect.EnableInit e ∉
        (initExchangeSigsAndEnable (specOps sampleWallet)
          ⟨connAnswering (.ChannelUpdateAcc 7 0 99), initMachine, adjOk 0⟩ background).trace) ∧
    (specOps sampleWallet).Phase
        (initExchangeSigsAndEnable (specOps sampleWallet)
          ⟨connAnswering (.ChannelUpdateRej 7 0 "no"), initMachine, adjOk 0⟩ background).machine
      = .InitSigning :=
  ⟨(initExchange_enable_gated (specOps sampleWallet)
      ⟨connAnswering (.ChannelUpdateRej 7 0 "no"), initMachine, adjOk 0⟩ background).2.1
      1 (some (.ChannelUpdateRej 7 0 "no"))
      (List.mem_cons_of_mem _ (List.mem_cons_of_mem _ (List.mem_cons_of_mem _
        (List.mem_cons_self _ _))))
      (fun _ _ _ h => by cases h),
    (initExchange_enable_gated (specOps sampleWallet)
      ⟨connAnswering (.ChannelUpdateAcc 7 0 99), initMachine, adjOk 0⟩ background).2.2.1
      1 99 StateMachine.InvalidSignature
      (List.mem_cons_of_mem _ (List.mem_cons_of_mem _ (List.mem_cons_of_mem _
        (List.mem_cons_of_mem _ (List.mem_cons_self _ _))))),
    (initExchange_enable_gated (specOps sampleWallet)
      ⟨connAnswering (.ChannelUpdateRej 7 0 "no"), initMachine, adjOk 0⟩ background).2.2.2
      sampleWallet ⟨connAnswering (.ChannelUpdateRej 7 0 "no"), initMachine, adjOk 0⟩
      ((initExchange_enable_gated (specOps sampleWallet)
        ⟨connAnswering (.ChannelUpdateRej 7 0 "no"), initMachine, adjOk 0⟩ background).2.1
        1 (some (.ChannelUpdateRej 7 0 "no"))
        (List.mem_cons_of_mem _ (List.mem_cons_of_mem _ (List.mem_cons_of_mem _
          (List.mem_cons_self _ _))))
        (fun _ _ _ h => by cases h)).2⟩

/-! ## The demo payment transfer: theorems -/

/-- C10: `transferBal` preserves the asset total.  For every heap, every slice
of two balance pointers (equal or not), every index 0 or 1 and every amount
pointer, the call returns and the sum of the two balances afterwards is the
sum before. -/
theorem transferBal_preserves_total (h : Heap) (p0 p1 : Nat) (ourIdx : Index) (amount : Nat)
    (hidx : ourIdx = 0 ∨ ourIdx = 1) :
    ∃ h1, transferBal h [p0, p1] ourIdx amount = some h1 ∧ h1 p0 + h1 p1 = h p0 + h p1 := by
  rcases hidx with rfl | rfl
  · refine ⟨_, rfl, ?_⟩
    by_cases hp : p0 = p1
    · subst hp
      simp [Function.update]
    · have hp2 : p1 ≠ p0 := fun hq => hp hq.symm
      simp [Function.update, hp, hp2]
      ring
  · refine ⟨_, rfl, ?_⟩
    by_cases hp : p0 = p1
    · subst hp
      simp [Function.update]
    · have hp2 : p1 ≠ p0 := fun hq => hp hq.symm
      simp [Function.update, hp, hp2]
      ring

/-- Witness of C10: participant 1 sends 5 with balances 97 and 103. -/
theorem transferBal_preserves_total_witness :
    ∃ h1, transferBal (fun p => if p = 0 then 97 else if p = 1 then 103 else 5) [0, 1] 1 2
        = some h1 ∧
      h1 0 + h1 1 =
        (fun p => if p = 0 then (97 : Int) else if p = 1 then 103 else 5) 0 +
          (fun p => if p = 0 then (97 : Int) else if p = 1 then 103 else 5) 1 :=
  transferBal_preserves_total (fun p => if p = 0 then 97 else if p = 1 then 103 else 5) 0 1 1 2
    (Or.inr rfl)

/-- With two distinct balance cells `transferBal` subtracts the amount from the
cell of the caller and adds it to the other cell. -/
theorem transferBal_apply (h : Heap) (p0 p1 : Nat) (amount : Nat) (hne : p0 ≠ p1) :
    (∃ h1, transferBal h [p0, p1] 0 amount = some h1 ∧
      h1 p0 = h p0 - h amount ∧ h1 p1 = h p1 + h amount) ∧
    (∃ h1, transferBal h [p0, p1] 1 amount = some h1 ∧
      h1 p0 = h p0 + h amount ∧ h1 p1 = h p1 - h amount) := by
  have hne2 : p1 ≠ p0 := fun hq => hne hq.symm
  constructor
  · refine ⟨_, rfl, ?_, ?_⟩
    · simp [Function.update, hne]
      ring
    · simp [Function.update, hne2]
  · refine ⟨_, rfl, ?_, ?_⟩
    · simp [Function.update, hne]
    · simp [Function.update, hne2]
      ring

/-- The balances written by `setStateBals` are the ones `stateBals` reads. -/
theorem stateBals_setStateBals (state : State) (b0 b1 x y : Int)
    (hb : stateBals state = some (b0, b1)) :
    stateBals (setStateBals state x y) = some (x, y) ∧
    stateBals { setStateBals state x y with
      Version := ((setStateBals state x y).Version + 1) % 2 ^ 64 } = some (x, y) := by
  obtain ⟨id, ver, parts, fin⟩ := state
  unfold stateBals at hb
  rcases parts with _ | ⟨part0, _ | ⟨part1, rest⟩⟩
  · simp at hb
  · rcases part0 with _ | ⟨c0, t0⟩ <;> simp at hb
  · rcases part0 with _ | ⟨c0, t0⟩
    · simp at hb
    · rcases part1 with _ | ⟨c1, t1⟩
      · simp at hb
      · simp [stateBals, setStateBals, List.modify]

/-- `sendUpdate` with an update function that returns `t` on the clone. -/
theorem sendUpdate_eq {C : Type} (api : ChannelAPI C) (ch : C) (f : State → Option State)
    (t : State) (hf : f (api.State ch).Clone = some t) :
    sendUpdate api ch f =
      some ⟨(api.Update ch ⟨{ t with Version := (t.Version + 1) % 2 ^ 64 }, api.Idx ch⟩).1,
        (api.Update ch ⟨{ t with Version := (t.Version + 1) % 2 ^ 64 }, api.Idx ch⟩).2,
        [⟨{ t with Version := (t.Version + 1) % 2 ^ 64 }, api.Idx ch⟩]⟩ := by
  unfold sendUpdate
  simp only [hf]

/-! ## The demo payment channel: theorems -/

/-- C11, counterexample: with balances 3 and 10, participant 0 transfers 5.
`transferBal` returns, the balances are then -2 and 15, and `sendMoney` hands
the state with the balance -2 to `Channel.Update`. -/
theorem transfer_underflow_counterexample :
    (∃ h1, transferBal (fun p => if p = 0 then 3 else if p = 1 then 10 else 5) [0, 1] 0 2
        = some h1 ∧ h1 0 = -2 ∧ h1 1 = 15) ∧
    (sendMoney sampleAPI poorMachine 5).map (fun r => r.updates)
      = some [⟨⟨7, 5, [[-2], [15]], false⟩, 0⟩] := by
  refine ⟨⟨_, rfl, ?_, ?_⟩, ?_⟩
  · decide
  · decide
  · decide

/-- C11, amended: `sendMoney` and `transferBal` check no balance.  For every
channel whose state holds the balances `b0` and `b1` of the two participants
and whose own index is 0 or 1, and for every amount, also one greater than the
balance of the sender, `sendMoney` hands to `Channel.Update` one state in which
the balance of the sender is decreased and the other balance increased by the
amount, and it returns what `Channel.Update` returns. -/
theorem sendMoney_unchecked {C : Type} (api : ChannelAPI C) (ch : C) (amount b0 b1 : Int)
    (hb : stateBals (api.State ch) = some (b0, b1))
    (hidx : api.Idx ch = 0 ∨ api.Idx ch = 1) :
    ∃ r up, sendMoney api ch amount = some r ∧ r.updates = [up] ∧
      r.err = (api.Update ch up).1 ∧ r.channel = (api.Update ch up).2 ∧
      up.ActorIdx = api.Idx ch ∧
      (api.Idx ch = 0 → stateBals up.State = some (b0 - amount, b1 + amount)) ∧
      (api.Idx ch = 1 → stateBals up.State = some (b0 + amount, b1 - amount)) := by
  have hclone : stateBals (api.State ch).Clone = some (b0, b1) := hb
  obtain ⟨⟨h0, e0, x0, y0⟩, ⟨h1, e1, x1, y1⟩⟩ :=
    transferBal_apply (fun p => if p = 0 then b0 else if p = 1 then b1 else amount) 0 1 2
      (by decide)
  simp only [Nat.reduceEqDiff, if_true, if_false, Nat.succ_ne_zero, OfNat.ofNat_ne_zero,
    OfNat.ofNat_ne_one, one_ne_zero] at x0 y0 x1 y1
  rcases hidx with hi | hi
  · have hf : sendMoneyUpdate (api.Idx ch) amount (api.State ch).Clone
        = some (setStateBals (api.State ch).Clone (h0 0) (h0 1)) := by
      unfold sendMoneyUpdate
      rw [hclone, hi]
      simp only [e0]
    refine ⟨_, _, sendUpdate_eq api ch _ _ hf, rfl, rfl, rfl, rfl, ?_, ?_⟩
    · intro _
      rw [x0, y0]
      exact (stateBals_setStateBals _ b0 b1 _ _ hclone).2
    · intro h1x
      rw [hi] at h1x
      exact absurd h1x (by decide)
  · have hf : sendMoneyUpdate (api.Idx ch) amount (api.State ch).Clone
        = some (setStateBals (api.State ch).Clone (h1 0) (h1 1)) := by
      unfold sendMoneyUpdate
      rw [hclone, hi]
      simp only [e1]
    refine ⟨_, _, sendUpdate_eq api ch _ _ hf, rfl, rfl, rfl, rfl, ?_, ?_⟩
    · intro h0x
      rw [hi] at h0x
      exact absurd h0x (by decide)
    · intro _
      rw [x1, y1]
      exact (stateBals_setStateBals _ b0 b1 _ _ hclone).2

/-- Witness of the amended C11: the sample channel with balances 3 and 10 and
the amount 5. -/
theorem sendMoney_unchecked_witness :
    ∃ r up, sendMoney sampleAPI poorMachine 5 = some r ∧ r.updates = [up] ∧
      r.err = (sampleAPI.Update poorMachine up).1 ∧
      r.channel = (sampleAPI.Update poorMachine up).2 ∧
      up.ActorIdx = sampleAPI.Idx poorMachine ∧
      (sampleAPI.Idx poorMachine = 0 → stateBals up.State = some (3 - 5, 10 + 5)) ∧
      (sampleAPI.Idx poorMachine = 1 → stateBals up.State = some (3 + 5, 10 - 5)) :=
  sendMoney_unchecked sampleAPI poorMachine 5 3 10 rfl (Or.inl rfl)

/-- C12, counterexample: on a channel at version 4, an update function that
sets the version of the clone to 7 makes `sendUpdate` hand version 8 to
`Channel.Update`, not version 5. -/
theorem sendUpdate_version_counterexample :
    (sendUpdate sampleAPI poorMachine (fun s => some { s with Version := 7 })).map
        (fun r => r.updates.map (fun up => up.State.Version)) = some [8] ∧
    ¬ ((sendUpdate sampleAPI poorMachine (fun s => some { s with Version := 7 })).map
        (fun r => r.updates.map (fun up => up.State.Version))
      = some [(sampleAPI.State poorMachine).Version + 1]) := by
  constructor
  · decide
  · decide

/-- C12, amended: for every update function `f` that returns the state `t` on
a clone of the current state `s`, `sendUpdate` hands to `Channel.Update` one
update: the state `t` with its version incremented (as a `uint64`), with the
channel's own index as `ActorIdx`; `Channel.Update` is called on the channel as
it was, so `sendUpdate` itself does not modify `s`.  The version handed over is
`s.Version + 1` whenever `f` leaves the version as it is and `s.Version + 1`
fits a `uint64`.  `sendFinal` proposes the state `s` with `IsFinal = true`, the
allocation of `s` and the incremented version. -/
theorem sendUpdate_hands_incremented {C : Type} (api : ChannelAPI C) (ch : C)
    (f : State → Option State) (t : State) (hf : f (api.State ch).Clone = some t) :
    (∃ r, sendUpdate api ch f = some r ∧
      r.updates = [⟨{ t with Version := (t.Version + 1) % 2 ^ 64 }, api.Idx ch⟩] ∧
      r.err = (api.Update ch ⟨{ t with Version := (t.Version + 1) % 2 ^ 64 }, api.Idx ch⟩).1 ∧
      r.channel
        = (api.Update ch ⟨{ t with Version := (t.Version + 1) % 2 ^ 64 }, api.Idx ch⟩).2 ∧
      (t.Version = (api.State ch).Version → (api.State ch).Version + 1 < 2 ^ 64 →
        ∀ up ∈ r.updates, up.State.Version = (api.State ch).Version + 1)) ∧
    (∃ r, sendFinal api ch = some r ∧
      r.updates =
        [⟨{ ID := (api.State ch).ID, Version := ((api.State ch).Version + 1) % 2 ^ 64,
            OfParts := (api.State ch).OfParts, IsFinal := true }, api.Idx ch⟩]) := by
  constructor
  · refine ⟨_, sendUpdate_eq api ch f t hf, rfl, rfl, rfl, ?_⟩
    intro hv hlt up hup
    simp only [List.mem_singleton] at hup
    subst hup
    show (t.Version + 1) % 2 ^ 64 = (api.State ch).Version + 1
    rw [hv, Nat.mod_eq_of_lt hlt]
  · exact ⟨_, sendUpdate_eq api ch _ _ rfl, rfl⟩

/-- Witness of the amended C12: the sample channel and the update function of
`sendMoney` for the amount 2. -/
theorem sendUpdate_hands_incremented_witness :
    (∃ r, sendUpdate sampleAPI poorMachine (sendMoneyUpdate 0 2) = some r ∧
      r.updates = [⟨{ (⟨7, 4, [[1], [12]], false⟩ : State) with
        Version := ((⟨7, 4, [[1], [12]], false⟩ : State).Version + 1) % 2 ^ 64 },
        sampleAPI.Idx poorMachine⟩] ∧
      r.err = (sampleAPI.Update poorMachine
        ⟨{ (⟨7, 4, [[1], [12]], false⟩ : State) with
          Version := ((⟨7, 4, [[1], [12]], false⟩ : State).Version + 1) % 2 ^ 64 },
          sampleAPI.Idx poorMachine⟩).1 ∧
      r.channel = (sampleAPI.Update poorMachine
        ⟨{ (⟨7, 4, [[1], [12]], false⟩ : State) with
          Version := ((⟨7, 4, [[1], [12]], false⟩ : State).Version + 1) % 2 ^ 64 },
          sampleAPI.Idx poorMachine⟩).2 ∧
      ((⟨7, 4, [[1], [12]], false⟩ : State).Version = (sampleAPI.State poorMachine).Version →
        (sampleAPI.State poorMachine).Version + 1 < 2 ^ 64 →
        ∀ up ∈ r.updates, up.State.Version = (sampleAPI.State poorMachine).Version + 1)) ∧
    (∃ r, sendFinal sampleAPI poorMachine = some r ∧
      r.updates =
        [⟨{ ID := (sampleAPI.State poorMachine).ID,
            Version := ((sampleAPI.State poorMachine).Version + 1) % 2 ^ 64,
            OfParts := (sampleAPI.State poorMachine).OfParts, IsFinal := true },
          sampleAPI.Idx poorMachine⟩]) :=
  sendUpdate_hands_incremented sampleAPI poorMachine (sendMoneyUpdate 0 2)
    ⟨7, 4, [[1], [12]], false⟩ (by decide)

/-! ## Channel proposals: theorems -/

/-- A proposal with challenge duration 0 is not valid. -/
theorem Valid_zero_duration (req : ChannelProposalReq) (h : req.ChallengeDuration = 0) :
    req.Valid = some (Error.New "challenge duration must not be zero") := by
  simp [ChannelProposalReq.Valid, h]

/-- C13: for every client, peer and proposal request whose challenge duration
is 0, `handleChannelProposal` returns without a call of the proposal handler. -/
theorem handleChannelProposal_zero_duration (c : Client) (peer : Address)
    (req : ChannelProposalReq) (h : req.ChallengeDuration = 0) :
    handleChannelProposal c peer req = [] := by
  unfold handleChannelProposal validTwoPartyProposal
  rw [Valid_zero_duration req h]

/-- Witness of C13: the sample proposal reaches the handler, and the same
proposal with challenge duration 0 does not. -/
theorem handleChannelProposal_zero_duration_witness :
    handleChannelProposal sampleClient 10 sampleProposal
      = [⟨sampleProposal, ⟨sampleProposal, 10, false⟩⟩] ∧
    handleChannelProposal sampleClient 10 { sampleProposal with ChallengeDuration := 0 } = [] :=
  ⟨by decide,
    handleChannelProposal_zero_duration sampleClient 10
      { sampleProposal with ChallengeDuration := 0 } rfl⟩

/-- C14: for every proposal that fails the local validation, in particular one
with challenge duration 0, `ProposeChannel` returns an error and there is no
network activity: no dial and no message sent. -/
theorem ProposeChannel_invalid (env : ProposeEnv) (c : Client) (req : ChannelProposalReq)
    (h : req.ChallengeDuration = 0 ∨ (validateProposal c req).isSome = true) :
    (∃ e, (ProposeChannel env c req).res = .error e) ∧ (ProposeChannel env c req).trace = [] := by
  have hv : ∃ e, validateProposal c req = some e := by
    rcases h with h | h
    · exact ⟨_, by unfold validateProposal; rw [Valid_zero_duration req h]⟩
    · exact Option.isSome_iff_exists.mp h
  obtain ⟨e, he⟩ := hv
  unfold ProposeChannel
  rw [he]
  exact ⟨⟨e, rfl⟩, rfl⟩

/-- Witness of C14: the client's own proposal is sent on the accepting network,
and with challenge duration 0 it is not. -/
theorem ProposeChannel_invalid_witness :
    (ProposeChannel acceptingNet sampleClient ownProposal).trace
      = [.Dial 10, .Subscribe 12345, .Send 10 ownProposal, .Await, .Open] ∧
    ((∃ e, (ProposeChannel acceptingNet sampleClient
        { ownProposal with ChallengeDuration := 0 }).res = .error e) ∧
      (ProposeChannel acceptingNet sampleClient
        { ownProposal with ChallengeDuration := 0 }).trace = []) :=
  ⟨by decide,
    ProposeChannel_invalid acceptingNet sampleClient { ownProposal with ChallengeDuration := 0 }
      (Or.inl rfl)⟩

/-- C15: `validTwoPartyProposal(prop, ourIdx, peerAddr)` returns `nil` exactly
when the proposal passes `Valid()`, has exactly two peer addresses, has the
client's own address at position `ourIdx` and `peerAddr` at the other position;
in every other case it returns an error, and a proposal with challenge duration
0 does not pass `Valid()`. -/
theorem validTwoPartyProposal_iff (c : Client) (prop : ChannelProposalReq) (ourIdx : Nat)
    (peerAddr : Address) :
    (validTwoPartyProposal c prop ourIdx peerAddr = none ↔
      prop.Valid = none ∧ prop.PeerAddrs.length = 2 ∧
        prop.PeerAddrs[ourIdx]? = some c.id ∧ prop.PeerAddrs[ourIdx ^^^ 1]? = some peerAddr) ∧
    (prop.ChallengeDuration = 0 → prop.Valid ≠ none) := by
  constructor
  · unfold validTwoPartyProposal
    cases hv : prop.Valid with
    | some e => simp
    | none =>
      by_cases hl : prop.PeerAddrs.length = 2
      · by_cases hp : prop.PeerAddrs[ourIdx ^^^ 1]? = some peerAddr
        · by_cases ho : prop.PeerAddrs[ourIdx]? = some c.id
          · simp [hl, hp, ho]
          · simp [hl, hp, ho]
        · simp [hl, hp]
      · simp [hl]
  · intro h
    rw [Valid_zero_duration prop h]
    simp

/-- Witness of C15, rows of the test table: the client 11 is the proposer of
its own proposal to the peer 10; the index 1, the client's own address as the
address of the peer, and the challenge duration 0 are refused. -/
theorem validTwoPartyProposal_iff_witness :
    validTwoPartyProposal sampleClient ownProposal 0 10 = none ∧
    validTwoPartyProposal sampleClient ownProposal 1 10 ≠ none ∧
    validTwoPartyProposal sampleClient ownProposal 0 11 ≠ none ∧
    validTwoPartyProposal sampleClient { ownProposal with ChallengeDuration := 0 } 0 10 ≠ none :=
  ⟨(validTwoPartyProposal_iff sampleClient ownProposal 0 10).1.mpr (by decide),
    fun h => absurd ((validTwoPartyProposal_iff sampleClient ownProposal 1 10).1.mp h).2.2.1
      (by decide),
    fun h => absurd ((validTwoPartyProposal_iff sampleClient ownProposal 0 11).1.mp h).2.2.2
      (by decide),
    fun h => (validTwoPartyProposal_iff sampleClient { ownProposal with ChallengeDuration := 0 }
      0 10).2 rfl ((validTwoPartyProposal_iff sampleClient
        { ownProposal with ChallengeDuration := 0 } 0 10).1.mp h).1⟩

/-- C16: a responder is used once.  After a first call of `Accept` or of
`Reject` on a responder, whatever it returned, every further call of `Accept`
or `Reject` on it panics, for every account and every reason; and the responder
handed to the proposal handler has not been used, so its first call does not
panic. -/
theorem ProposalResponder_once (env : ResponderEnv) (r : ProposalResponder) :
    (∀ account res r1, r.Accept env account = some (res, r1) →
      ∀ account2 reason2, r1.Accept env account2 = none ∧ r1.Reject env reason2 = none) ∧
    (∀ reason res r1, r.Reject env reason = some (res, r1) →
      ∀ account2 reason2, r1.Accept env account2 = none ∧ r1.Reject env reason2 = none) ∧
    (∀ c peer req call, call ∈ handleChannelProposal c peer req →
      ∀ account reason,
        call.responder.Accept env account ≠ none ∧ call.responder.Reject env reason ≠ none) := by
  refine ⟨?_, ?_, ?_⟩
  · intro account res r1 h account2 reason2
    unfold ProposalResponder.Accept at h
    split_ifs at h with hc
    cases h
    exact ⟨by simp [ProposalResponder.Accept], by simp [ProposalResponder.Reject]⟩
  · intro reason res r1 h account2 reason2
    unfold ProposalResponder.Reject at h
    split_ifs at h with hc
    cases h
    exact ⟨by simp [ProposalResponder.Accept], by simp [ProposalResponder.Reject]⟩
  · intro c peer req call hmem account reason
    unfold handleChannelProposal at hmem
    split at hmem
    · cases hmem
    · simp only [List.mem_singleton] at hmem
      subst hmem
      exact ⟨by simp [ProposalResponder.Accept], by simp [ProposalResponder.Reject]⟩

/-- Witness of C16: the responder of the sample proposal accepts for the
account 21; a second `Accept` for the account 22 and a `Reject` then panic. -/
theorem ProposalResponder_once_witness :
    (⟨sampleProposal, 10, false⟩ : ProposalResponder).Accept sampleResponderEnv 21
      = some (.ok 7, ⟨sampleProposal, 10, true⟩) ∧
    (⟨sampleProposal, 10, true⟩ : ProposalResponder).Accept sampleResponderEnv 22 = none ∧
    (⟨sampleProposal, 10, true⟩ : ProposalResponder).Reject sampleResponderEnv "no" = none :=
  ⟨rfl,
    (ProposalResponder_once sampleResponderEnv ⟨sampleProposal, 10, false⟩).1 21 (.ok 7)
      ⟨sampleProposal, 10, true⟩ rfl 22 "no"⟩

/-! ## Funding errors: theorems -/

/-- Layers around an error leave its root as it is. -/
theorem ChanError.Cause_wrapped (e : ChanError) (layers : List (Option String)) :
    (e.wrapped layers).Cause = e.Cause := by
  induction layers generalizing e with
  | nil => rfl
  | cons l ls ih =>
    cases l with
    | none => rw [ChanError.wrapped, ih]; rfl
    | some msg => rw [ChanError.wrapped, ih]; rfl

/-- C17: for every asset index `a` and every list `ps` of participant indices,
the root of `NewAssetFundingError(a, ps)` is the `AssetFundingError` with
`Asset = a` and `TimedOutPeers = ps`; `IsAssetFundingError` is true of that
error, of its root, and of every error obtained by wrapping it in further
layers; and it is false of every error whose root is not an
`AssetFundingError`. -/
theorem AssetFundingError_root (a : Int) (ps : List Index) :
    (NewAssetFundingError a ps).Cause = .AssetFunding ⟨a, ps⟩ ∧
    IsAssetFundingError (NewAssetFundingError a ps) = true ∧
    IsAssetFundingError (.AssetFunding ⟨a, ps⟩) = true ∧
    (∀ layers, ((NewAssetFundingError a ps).wrapped layers).Cause = .AssetFunding ⟨a, ps⟩ ∧
      IsAssetFundingError ((NewAssetFundingError a ps).wrapped layers) = true) ∧
    (∀ e : ChanError, (∀ x, e.Cause ≠ .AssetFunding x) → IsAssetFundingError e = false) := by
  refine ⟨rfl, rfl, rfl, ?_, ?_⟩
  · intro layers
    have hc := ChanError.Cause_wrapped (NewAssetFundingError a ps) layers
    refine ⟨hc, ?_⟩
    unfold IsAssetFundingError
    rw [hc]
    rfl
  · intro e hne
    unfold IsAssetFundingError
    split
    · rename_i x hx
      exact absurd hx (hne x)
    · rfl

/-- Witness of C17, the values of the test: asset 42 and the peers 1, 2, 3, 4,
and an error with a message as root. -/
theorem AssetFundingError_root_witness :
    (NewAssetFundingError 42 [1, 2, 3, 4]).Cause = .AssetFunding ⟨42, [1, 2, 3, 4]⟩ ∧
    IsAssetFundingError ((NewAssetFundingError 42 [1, 2, 3, 4]).wrapped [some "funding", none])
      = true ∧
    IsAssetFundingError (.New "no PeerTimedOutFundingError") = false :=
  ⟨(AssetFundingError_root 42 [1, 2, 3, 4]).1,
    ((AssetFundingError_root 42 [1, 2, 3, 4]).2.2.2.1 [some "funding", none]).2,
    (AssetFundingError_root 42 [1, 2, 3, 4]).2.2.2.2 (.New "no PeerTimedOutFundingError")
      (fun x h => by cases h)⟩

/-! ## The demo command line: theorems -/

/-- The part of C19 that holds: once the chain is reached, `newNode` decides on
the contracts in three ways.  If both `Adjudicator` and `Assetholder` are "deploy", it deploys: the
adjudicator first and, when both deployments succeed, the asset holder, then it
sets the two contracts and listens; no address is parsed.  If exactly one of
them is "deploy", it returns an error after no further call: nothing is
deployed, no contract is set and it does not listen.  Otherwise it parses the
adjudicator and then the asset holder by `strToAddress`; an error that
`strToAddress` returns for either is returned as it is, with no contract set
and without listening; when both are parsed, the two contracts are set and it
listens. -/
theorem newNode_contracts (env : NodeEnv) (config : ChainConfig) (hd : env.DialChain = none) :
    (config.Adjudicator = "deploy" ∧ config.Assetholder = "deploy" →
      ∃ r, newNode env config = some r ∧
        r.trace.take 2 = [.DialChain, .DeployAdjudicator] ∧
        (∀ str, NodeEffect.strToAddress str ∉ r.trace) ∧
        (∀ a b, env.DeployAdjudicator = .ok a → env.DeployETHAssetholder a = .ok b →
          r = listen env [.DialChain, .DeployAdjudicator, .DeployETHAssetholder a,
            .setContracts a b])) ∧
    ((config.Adjudicator = "deploy" ∧ config.Assetholder ≠ "deploy") ∨
        (config.Adjudicator ≠ "deploy" ∧ config.Assetholder = "deploy") →
      newNode env config =
        some ⟨some (Error.New "Currently either both or none contract can be deployed"),
          [.DialChain]⟩) ∧
    (config.Adjudicator ≠ "deploy" ∧ config.Assetholder ≠ "deploy" →
      (∀ e, strToAddress env.DecodeAddress config.Adjudicator = some (.error e) →
        newNode env config = some ⟨some e, [.DialChain, .strToAddress config.Adjudicator]⟩) ∧
      (∀ a e, strToAddress env.DecodeAddress config.Adjudicator = some (.ok a) →
        strToAddress env.DecodeAddress config.Assetholder = some (.error e) →
        newNode env config =
          some ⟨some e, [.DialChain, .strToAddress config.Adjudicator,
            .strToAddress config.Assetholder]⟩) ∧
      (∀ a b, strToAddress env.DecodeAddress config.Adjudicator = some (.ok a) →
        strToAddress env.DecodeAddress config.Assetholder = some (.ok b) →
        newNode env config =
          some (listen env [.DialChain, .strToAddress config.Adjudicator,
            .strToAddress config.Assetholder, .setContracts a b]))) := by
  refine ⟨?_, ?_, ?_⟩
  · intro hboth
    cases hadj : env.DeployAdjudicator with
    | error e =>
      have hde : deploy env
          = ⟨some (Error.WithMessage e "deploying eth adjudicator"), [.DeployAdjudicator]⟩ := by
        unfold deploy
        simp only [hadj]
      refine ⟨⟨some (Error.WithMessage (Error.WithMessage e "deploying eth adjudicator")
        "deploying contracts"), [.DialChain, .DeployAdjudicator]⟩, ?_, rfl, ?_, ?_⟩
      · unfold newNode
        rw [hd]
        simp only [if_pos hboth, hde]
      · intro str
        simp
      · intro a b ha
        cases ha
    | ok adjAddr =>
      cases hass : env.DeployETHAssetholder adjAddr with
      | error e =>
        have hde : deploy env
            = ⟨some (Error.WithMessage e "deploying eth assetholder"),
                [.DeployAdjudicator, .DeployETHAssetholder adjAddr]⟩ := by
          unfold deploy
          simp only [hadj, hass]
        refine ⟨⟨some (Error.WithMessage (Error.WithMessage e "deploying eth assetholder")
          "deploying contracts"),
          [.DialChain, .DeployAdjudicator, .DeployETHAssetholder adjAddr]⟩, ?_, rfl, ?_, ?_⟩
        · unfold newNode
          rw [hd]
          simp only [if_pos hboth, hde]
        · intro str
          simp
        · intro a b ha hb
          cases ha
          rw [hass] at hb
          cases hb
      | ok assAddr =>
        have hde : deploy env
            = ⟨none, [.DeployAdjudicator, .DeployETHAssetholder adjAddr,
                .setContracts adjAddr assAddr]⟩ := by
          unfold deploy
          simp only [hadj, hass]
        refine ⟨listen env [.DialChain, .DeployAdjudicator, .DeployETHAssetholder adjAddr,
          .setContracts adjAddr assAddr], ?_, rfl, ?_, ?_⟩
        · unfold newNode
          rw [hd]
          simp only [if_pos hboth, hde]
        · intro str
          simp [listen]
        · intro a b ha hb
          cases ha
          rw [hass] at hb
          cases hb
          rfl
  · intro hone
    have hnb : ¬ (config.Adjudicator = "deploy" ∧ config.Assetholder = "deploy") := by
      rcases hone with ⟨_, h⟩ | ⟨h, _⟩
      · exact fun hb => h hb.2
      · exact fun hb => h hb.1
    have hor : config.Adjudicator = "deploy" ∨ config.Assetholder = "deploy" := by
      rcases hone with ⟨h, _⟩ | ⟨_, h⟩
      · exact Or.inl h
      · exact Or.inr h
    unfold newNode
    rw [hd]
    simp only [if_neg hnb, if_pos hor]
  · intro hnone
    have hnb : ¬ (config.Adjudicator = "deploy" ∧ config.Assetholder = "deploy") :=
      fun hb => hnone.1 hb.1
    have hor : ¬ (config.Adjudicator = "deploy" ∨ config.Assetholder = "deploy") := by
      intro h
      rcases h with h | h
      · exact hnone.1 h
      · exact hnone.2 h
    refine ⟨?_, ?_, ?_⟩
    · intro e he
      unfold newNode
      rw [hd]
      simp only [if_neg hnb, if_neg hor, he]
    · intro a e ha he
      unfold newNode
      rw [hd]
      simp only [if_neg hnb, if_neg hor, ha, he]
    · intro a b ha hb
      unfold newNode
      rw [hd]
      simp only [if_neg hnb, if_neg hor, ha, hb]

/-- The decision of `newNode` on collaborators that all succeed: both values
"deploy", one value "deploy", two addresses, and an asset holder that is no
hexadecimal string. -/
theorem newNode_contracts_witness :
    (∃ r, newNode sampleNodeEnv ⟨"deploy", "deploy"⟩ = some r ∧
        r.trace.take 2 = [.DialChain, .DeployAdjudicator] ∧
        (∀ str, NodeEffect.strToAddress str ∉ r.trace) ∧
        (∀ a b, sampleNodeEnv.DeployAdjudicator = .ok a →
          sampleNodeEnv.DeployETHAssetholder a = .ok b →
          r = listen sampleNodeEnv [.DialChain, .DeployAdjudicator, .DeployETHAssetholder a,
            .setContracts a b])) ∧
    newNode sampleNodeEnv ⟨"deploy", "0x2a"⟩ =
      some ⟨some (Error.New "Currently either both or none contract can be deployed"),
        [.DialChain]⟩ ∧
    newNode sampleNodeEnv ⟨"0x2a", "0xzz"⟩ =
      some ⟨some (Error.New "Could not parse address as hexadecimal"),
        [.DialChain, .strToAddress "0x2a", .strToAddress "0xzz"]⟩ ∧
    newNode sampleNodeEnv ⟨"0x2a", "0x2b"⟩ =
      some (listen sampleNodeEnv [.DialChain, .strToAddress "0x2a", .strToAddress "0x2b",
        .setContracts 42 43]) :=
  ⟨(newNode_contracts sampleNodeEnv ⟨"deploy", "deploy"⟩ rfl).1 ⟨rfl, rfl⟩,
    (newNode_contracts sampleNodeEnv ⟨"deploy", "0x2a"⟩ rfl).2.1 (Or.inl ⟨rfl, by decide⟩),
    ((newNode_contracts sampleNodeEnv ⟨"0x2a", "0xzz"⟩ rfl).2.2 ⟨by decide, by decide⟩).2.1
      42 (Error.New "Could not parse address as hexadecimal") rfl rfl,
    ((newNode_contracts sampleNodeEnv ⟨"0x2a", "0x2b"⟩ rfl).2.2 ⟨by decide, by decide⟩).2.2
      42 43 rfl rfl⟩

/-- C19, the failing input: with an adjudicator or an asset holder shorter
than two bytes (the empty string of an unset key, or "x") and the other value
no "deploy", `strToAddress` panics on the slice `str[2:]`, and so does
`newNode`: no error is returned. -/
theorem newNode_short_address_panics :
    strToAddress sampleNodeEnv.DecodeAddress "" = none ∧
    strToAddress sampleNodeEnv.DecodeAddress "x" = none ∧
    newNode sampleNodeEnv ⟨"", "0x2b"⟩ = none ∧
    newNode sampleNodeEnv ⟨"0x2a", "x"⟩ = none := by
  refine ⟨rfl, rfl, rfl, rfl⟩

/-- The error of a failing validator is a layer around the error of the
validator. -/
theorem validateArgs_error (cmdName : String) (as : List argument) (args : List String)
    (e : Error) (h : validateArgs cmdName as args = some e) :
    ∃ cause msg, e = .WithMessage cause msg := by
  induction as generalizing args with
  | nil => simp [validateArgs] at h
  | cons a rest ih =>
    cases args with
    | nil => simp [validateArgs] at h
    | cons arg args =>
      unfold validateArgs at h
      cases hv : a.Validator arg with
      | some cause =>
        rw [hv] at h
        cases h
        exact ⟨_, _, rfl⟩
      | none =>
        rw [hv] at h
        exact ih args h

/-- The error for a wrong number of arguments is not the error for an unknown
command. -/
theorem invalidNumber_ne_unknownCommand (expected got : Nat) (word : String) :
    invalidNumber expected got ≠ unknownCommand word := by
  intro h
  unfold invalidNumber unknownCommand at h
  have hd := congrArg String.data (Error.New.inj h)
  simp only [String.data_append] at hd
  have hh := congrArg List.head? hd
  simp at hh

/-- A word that names no command of the table is rejected as unknown, and a
word that names one is not. -/
theorem runCommands_unknown_iff (cmds : List command) (word : String) (args : List String) :
    (word ∉ cmds.map (fun c => c.Name) →
      runCommands cmds word args = .rejected (unknownCommand word)) ∧
    (word ∈ cmds.map (fun c => c.Name) →
      runCommands cmds word args ≠ .rejected (unknownCommand word)) := by
  induction cmds with
  | nil =>
    constructor
    · intro _
      rfl
    · intro h
      simp at h
  | cons cmd rest ih =>
    constructor
    · intro h
      simp only [List.map_cons, List.mem_cons, not_or] at h
      unfold runCommands
      rw [if_neg (fun hn => h.1 hn.symm)]
      exact ih.1 h.2
    · intro h
      unfold runCommands
      by_cases hn : cmd.Name = word
      · rw [if_pos hn]
        by_cases hl : args.length ≠ cmd.Args.length
        · rw [if_pos hl]
          intro hr
          exact invalidNumber_ne_unknownCommand _ _ _ (ExecResult.rejected.inj hr)
        · rw [if_neg hl]
          cases hv : validateArgs word cmd.Args args with
          | some e =>
            obtain ⟨cause, msg, he⟩ := validateArgs_error word cmd.Args args e hv
            subst he
            intro hr
            have := ExecResult.rejected.inj hr
            unfold unknownCommand at this
            cases this
          | none =>
            intro hr
            cases hr
      · rw [if_neg hn]
        simp only [List.map_cons, List.mem_cons] at h
        rcases h with h | h
        · exact absurd h.symm hn
        · exact ih.2 h

/-- C20: the table of `Executor` holds exactly the seven commands connect, open,
send, close, info, help and exit, with 3, 3, 2, 1, 0, 0 and 0 arguments.  For
every input line whose first word, after trimming, is none of these names,
`Executor` returns the error "Unknown command: " followed by the word and
invokes no command function; for a first word that is one of these names it
does not return that error. -/
theorem Executor_unknown_command (lib : Lib) (backend : Backend) :
    (commands lib backend).map (fun c => (c.Name, c.Args.length)) =
      [("connect", 3), ("open", 3), ("send", 2), ("close", 1), ("info", 0), ("help", 0),
        ("exit", 0)] ∧
    (∀ input, firstWord input ∉ ["connect", "open", "send", "close", "info", "help", "exit"] →
      Executor lib backend input
        = .rejected (Error.New ("Unknown command: " ++ firstWord input))) ∧
    (∀ input, firstWord input ∈ ["connect", "open", "send", "close", "info", "help", "exit"] →
      Executor lib backend input
        ≠ .rejected (Error.New ("Unknown command: " ++ firstWord input))) := by
  have hnames : (commands lib backend).map (fun c => c.Name)
      = ["connect", "open", "send", "close", "info", "help", "exit"] := rfl
  refine ⟨rfl, ?_, ?_⟩
  · intro input h
    rw [← hnames] at h
    exact (runCommands_unknown_iff (commands lib backend) (firstWord input)
      (Split (TrimSpace input)).tail).1 h
  · intro input h
    rw [← hnames] at h
    exact (runCommands_unknown_iff (commands lib backend) (firstWord input)
      (Split (TrimSpace input)).tail).2 h

/-- Witness of C20: a line with an unknown first word between white space, and
a line with the command send. -/
theorem Executor_unknown_command_witness :
    Executor sampleLib sampleBackend "  frobnicate  x "
      = .rejected (Error.New ("Unknown command: " ++ firstWord "  frobnicate  x ")) ∧
    firstWord "  frobnicate  x " = "frobnicate" ∧
    Executor sampleLib sampleBackend "send alice 5"
      ≠ .rejected (Error.New ("Unknown command: " ++ firstWord "send alice 5")) :=
  ⟨(Executor_unknown_command sampleLib sampleBackend).2.1 "  frobnicate  x " (by decide),
    by decide,
    (Executor_unknown_command sampleLib sampleBackend).2.2 "send alice 5" (by decide)⟩

/-- In a table with pairwise distinct names, the loop over the commands reaches
the command named by the word and decides on it alone. -/
theorem runCommands_of_mem (cmds : List command) (word : String) (args : List String)
    (cmd : command) (hnd : (cmds.map (fun c => c.Name)).Nodup) (hmem : cmd ∈ cmds)
    (hname : cmd.Name = word) :
    runCommands cmds word args =
      if args.length ≠ cmd.Args.length then
        .rejected (invalidNumber cmd.Args.length args.length)
      else
        match validateArgs word cmd.Args args with
        | some e => .rejected e
        | none => .invoked cmd.Name args (cmd.Function args) := by
  induction cmds with
  | nil => cases hmem
  | cons c rest ih =>
    simp only [List.map_cons, List.nodup_cons] at hnd
    unfold runCommands
    rcases List.mem_cons.mp hmem with h | h
    · subst h
      rw [if_pos hname]
    · have hne : c.Name ≠ word := by
        intro hc
        apply hnd.1
        rw [hc, ← hname]
        exact List.mem_map_of_mem (fun c => c.Name) h
      rw [if_neg hne]
      exact ih hnd.2 h

/-- The loop over the arguments returns no error exactly when every validator
accepts the argument at its position. -/
theorem validateArgs_none_iff (cmdName : String) (as : List argument) (args : List String) :
    validateArgs cmdName as args = none ↔ ∀ p ∈ as.zip args, p.1.Validator p.2 = none := by
  induction as generalizing args with
  | nil => simp [validateArgs]
  | cons a rest ih =>
    cases args with
    | nil => simp [validateArgs]
    | cons x xs =>
      unfold validateArgs
      cases hv : a.Validator x with
      | some e =>
        simp only [List.zip_cons_cons, List.mem_cons]
        constructor
        · intro h
          cases h
        · intro h
          have := h (a, x) (Or.inl rfl)
          rw [hv] at this
          cases this
      | none =>
        simp only [List.zip_cons_cons, List.mem_cons]
        rw [ih xs]
        constructor
        · intro h p hp
          rcases hp with rfl | hp
          · exact hv
          · exact h p hp
        · intro h p hp
          exact h p (Or.inr hp)

/-- The loop over the arguments returns the error of the first validator that
fails, with the name of that argument, the command and the value around it. -/
theorem validateArgs_first (cmdName : String) (pre : List argument) (a : argument)
    (post : List argument) (pxs : List String) (x : String) (sxs : List String) (e : Error)
    (hlen : pre.length = pxs.length)
    (hpre : ∀ p ∈ pre.zip pxs, p.1.Validator p.2 = none) (ha : a.Validator x = some e) :
    validateArgs cmdName (pre ++ a :: post) (pxs ++ x :: sxs) =
      some (Error.WithMessage e ("\x27" ++ a.Name ++ "\x27 argument invalid for \x27"
        ++ cmdName ++ "\x27: " ++ x)) := by
  induction pre generalizing pxs with
  | nil =>
    cases pxs with
    | nil =>
      simp only [List.nil_append]
      unfold validateArgs
      rw [ha]
    | cons y ys => simp at hlen
  | cons b rest ih =>
    cases pxs with
    | nil => simp at hlen
    | cons y ys =>
      simp only [List.cons_append]
      unfold validateArgs
      have hb : b.Validator y = none := hpre (b, y) (by simp)
      rw [hb]
      apply ih ys
      · simpa using hlen
      · intro p hp
        exact hpre p (by simp [hp])

/-- The names of the commands of the table are pairwise distinct. -/
theorem commands_names_nodup (lib : Lib) (backend : Backend) :
    ((commands lib backend).map (fun c => c.Name)).Nodup := by
  have hnames : (commands lib backend).map (fun c => c.Name)
      = ["connect", "open", "send", "close", "info", "help", "exit"] := rfl
  rw [hnames]
  decide

/-- C21: for every input line whose first word names a command of the table,
with `args` the further pieces of the line.  `Executor` invokes the function of
that command exactly when the number of arguments is the declared one and every
argument passes the validator of its position, and it then returns what the
function returns on `args`.  With another number of arguments it returns the
argument-count error; and when the validators before a position pass and the
one at the position fails with `e`, it returns `e` with the name of that
argument, the command and the value around it.  In both cases no function is
invoked. -/
theorem Executor_known_command (lib : Lib) (backend : Backend) (input : String) (cmd : command)
    (hmem : cmd ∈ commands lib backend) (hname : cmd.Name = firstWord input) :
    ((∃ out, Executor lib backend input
          = .invoked cmd.Name (Split (TrimSpace input)).tail out) ↔
      ((Split (TrimSpace input)).tail.length = cmd.Args.length ∧
        ∀ p ∈ cmd.Args.zip (Split (TrimSpace input)).tail, p.1.Validator p.2 = none)) ∧
    (∀ name as out, Executor lib backend input = .invoked name as out →
      name = cmd.Name ∧ as = (Split (TrimSpace input)).tail ∧
        out = cmd.Function (Split (TrimSpace input)).tail) ∧
    ((Split (TrimSpace input)).tail.length ≠ cmd.Args.length →
      Executor lib backend input =
        .rejected (invalidNumber cmd.Args.length (Split (TrimSpace input)).tail.length)) ∧
    (∀ pre a post pxs x sxs e, cmd.Args = pre ++ a :: post →
      (Split (TrimSpace input)).tail = pxs ++ x :: sxs →
      pre.length = pxs.length → post.length = sxs.length →
      (∀ p ∈ pre.zip pxs, p.1.Validator p.2 = none) → a.Validator x = some e →
      Executor lib backend input =
        .rejected (Error.WithMessage e ("\x27" ++ a.Name ++ "\x27 argument invalid for \x27"
          ++ firstWord input ++ "\x27: " ++ x))) := by
  have key : Executor lib backend input = _ :=
    runCommands_of_mem (commands lib backend) (firstWord input) (Split (TrimSpace input)).tail
      cmd (commands_names_nodup lib backend) hmem hname
  refine ⟨?_, ?_, ?_, ?_⟩
  · rw [key]
    by_cases hl : (Split (TrimSpace input)).tail.length ≠ cmd.Args.length
    · rw [if_pos hl]
      constructor
      · rintro ⟨out, h⟩
        cases h
      · intro h
        exact absurd h.1 hl
    · rw [if_neg hl]
      rw [← validateArgs_none_iff (firstWord input)]
      cases hv : validateArgs (firstWord input) cmd.Args (Split (TrimSpace input)).tail with
      | some e =>
        constructor
        · rintro ⟨out, h⟩
          cases h
        · intro h
          cases h.2
      | none =>
        constructor
        · intro _
          exact ⟨not_not.mp hl, rfl⟩
        · intro _
          exact ⟨_, rfl⟩
  · intro name as out h
    rw [key] at h
    by_cases hl : (Split (TrimSpace input)).tail.length ≠ cmd.Args.length
    · rw [if_pos hl] at h
      cases h
    · rw [if_neg hl] at h
      cases hv : validateArgs (firstWord input) cmd.Args (Split (TrimSpace input)).tail with
      | some e =>
        rw [hv] at h
        cases h
      | none =>
        rw [hv] at h
        cases h
        exact ⟨rfl, rfl, rfl⟩
  · intro hl
    rw [key, if_pos hl]
  · intro pre a post pxs x sxs e hargs hxs hlen hlen2 hpre ha
    have hl : ¬ (Split (TrimSpace input)).tail.length ≠ cmd.Args.length := by
      rw [hargs, hxs]
      simp [hlen, hlen2]
    rw [key, if_neg hl, hargs, hxs,
      validateArgs_first (firstWord input) pre a post pxs x sxs e hlen hpre ha]

/-- Witness of C21: the command send of the sample table on three lines: two
arguments that pass, one argument, and an amount that fails its validator. -/
theorem Executor_known_command_witness :
    Executor sampleLib sampleBackend "send alice 5"
      = .invoked "send" ["alice", "5"] (.returned (sampleBackend.Send ["alice", "5"])) ∧
    Executor sampleLib sampleBackend "send alice" = .rejected (invalidNumber 2 1) ∧
    Executor sampleLib sampleBackend "send alice five" =
      .rejected (Error.WithMessage
        (Error.WithMessage (Error.New "invalid syntax") "Invalid Float")
        ("\x27" ++ "Amount" ++ "\x27 argument invalid for \x27" ++ firstWord "send alice five"
          ++ "\x27: " ++ "five")) :=
  ⟨by
      obtain ⟨out, h⟩ := (Executor_known_command sampleLib sampleBackend "send alice 5"
        ⟨"send", [⟨"Alias", valPeer⟩, ⟨"Amount", valBal sampleLib⟩],
          "Send a payment with amount to a given peer over the established channel.\nExample: send alice 5",
          fun args => .returned (sampleBackend.Send args)⟩
        (by simp [commands]) (by decide)).1.mpr ⟨by decide, by
          intro p hp
          simp only [List.zip_cons_cons, List.zip_nil_right, List.mem_cons, List.tail_cons] at hp
          have hs : (Split (TrimSpace "send alice 5")).tail = ["alice", "5"] := by decide
          rw [hs] at hp
          simp only [List.zip_cons_cons, List.zip_nil_right, List.mem_cons,
            List.mem_nil_iff, or_false] at hp
          rcases hp with rfl | rfl
          · rfl
          · rfl⟩
      rfl,
    (Executor_known_command sampleLib sampleBackend "send alice"
        ⟨"send", [⟨"Alias", valPeer⟩, ⟨"Amount", valBal sampleLib⟩],
          "Send a payment with amount to a given peer over the established channel.\nExample: send alice 5",
          fun args => .returned (sampleBackend.Send args)⟩
        (by simp [commands]) (by decide)).2.2.1 (by decide),
    (Executor_known_command sampleLib sampleBackend "send alice five"
        ⟨"send", [⟨"Alias", valPeer⟩, ⟨"Amount", valBal sampleLib⟩],
          "Send a payment with amount to a given peer over the established channel.\nExample: send alice 5",
          fun args => .returned (sampleBackend.Send args)⟩
        (by simp [commands]) (by decide)).2.2.2 [⟨"Alias", valPeer⟩] ⟨"Amount", valBal sampleLib⟩ []
        ["alice"] "five" [] _ rfl (by decide) rfl rfl
        (by
          intro p hp
          simp only [List.zip_cons_cons, List.zip_nil_right, List.mem_cons,
            List.mem_nil_iff, or_false] at hp
          subst hp
          rfl)
        rfl⟩

/-- C22, the failing value: `nonce` never returns `2 ^ 256 - 1`.  Every result
is at most `2 ^ 256 - 2`, every number up to `2 ^ 256 - 2` is the result for
some random source, and a source whose block is `2 ^ 256 - 1` (32 bytes 0xff)
has that block skipped: the next block decides, and without one there is no
result. -/
theorem nonce_range :
    (∀ blocks, nonce blocks ≠ some (2 ^ 256 - 1)) ∧
    (∀ blocks v, nonce blocks = some v → v ≤ 2 ^ 256 - 2) ∧
    (∀ v, v ≤ 2 ^ 256 - 2 → nonce [v] = some v) ∧
    nonce [2 ^ 256 - 1] = none ∧
    nonce [2 ^ 256 - 1, 5] = some 5 := by
  have hlt : ∀ blocks v, nonce blocks = some v → v < 2 ^ 256 - 1 := by
    intro blocks v h
    unfold nonce at h
    have := List.find?_some h
    simpa using this
  refine ⟨?_, ?_, ?_, ?_, ?_⟩
  · intro blocks h
    exact absurd (hlt blocks _ h) (lt_irrefl _)
  · intro blocks v h
    have := hlt blocks v h
    omega
  · intro v hv
    have h1 : v % 2 ^ 256 = v := Nat.mod_eq_of_lt (by omega)
    have h2 : v < 2 ^ 256 - 1 := by omega
    unfold nonce
    simp only [List.map_cons, List.map_nil, h1]
    rw [List.find?_cons_of_pos]
    exact decide_eq_true h2
  · decide
  · decide

/-! ## The lock of the state machine: theorems -/

/-- The events of the body of `Settle` hold every call and neither acquire nor
release the lock. -/
theorem settleBody_calls (rt : Runtime) (tr : List Effect) :
    (∀ e ∈ tr, MtxEvent.Call e ∈ settleBody rt tr) ∧
    (∀ x ∈ settleBody rt tr, x.isLocking = false) := by
  induction tr using settleBody.induct rt with
  | case1 req reg rest =>
    rw [settleBody]
    constructor
    · intro e he
      simp only [List.mem_cons] at he
      rcases he with rfl | rfl | he
      · simp
      · simp
      · simp only [List.mem_cons, List.mem_append, List.mem_map]
        exact Or.inr (Or.inr (Or.inr ⟨e, he, rfl⟩))
    · intro x hx
      simp only [List.mem_cons, List.mem_append, List.mem_map] at hx
      rcases hx with rfl | rfl | hx | ⟨e, _, rfl⟩
      · rfl
      · rfl
      · split_ifs at hx
        · simp only [List.mem_singleton] at hx
          subst hx
          rfl
        · cases hx
      · rfl
  | case2 e rest hne ih =>
    rw [settleBody]
    · constructor
      · intro x hx
        rcases List.mem_cons.mp hx with rfl | hx
        · simp
        · exact List.mem_cons_of_mem _ (ih.1 x hx)
      · intro x hx
        rcases List.mem_cons.mp hx with rfl | hx
        · rfl
        · exact ih.2 x hx
    · exact hne
  | case3 => simp [settleBody]

/-- C23, counterexample: on the sample final channel, with the withdrawal
timeout 150 at time 100, `Settle` acquires the lock, then calls `Register`,
waits for the timeout and calls `Withdraw`, and only then releases the lock. -/
theorem SettleMtx_counterexample :
    SettleMtx (specOps sampleWallet) ⟨idleConn, finalMachine, adjOk 150⟩ background
        ⟨100, false⟩ =
      [.Lock, .Call (.SetRegistering none),
        .Call (.Register finalMachine.AdjudicatorReq (.ok ⟨5, 150⟩)),
        .Call (.SetRegistered none), .Wait 150, .Call (.SetWithdrawing none),
        .Call (.Withdraw 150 finalMachine.AdjudicatorReq none), .Call (.SetWithdrawn none),
        .Unlock] :=
  rfl

/-- C23, amended: in every execution of `Settle`, for every implementation of
the state machine, the lock is acquired once on entry and released once on
return, and everything else happens in between: every call of the state
machine, of `Register` and of `Withdraw`, and the wait for the withdrawal
timeout, takes place while the lock is held. -/
theorem SettleMtx_holds_lock {M : Type} (ops : MachineOps M) (c : Channel M) (ctx : Context)
    (rt : Runtime) :
    ∃ body, SettleMtx ops c ctx rt = .Lock :: (body ++ [.Unlock]) ∧
      (∀ x ∈ body, x.isLocking = false) ∧
      (∀ e ∈ (Settle ops c ctx rt).trace, MtxEvent.Call e ∈ body) ∧
      (∀ req reg rest, (Settle ops c ctx rt).trace
          = .SetRegistering none :: .Register req (.ok reg) :: .SetRegistered none :: rest →
        reg.Version = req.Tx.State.Version → rt.now < reg.Timeout →
        MtxEvent.Wait reg.Timeout ∈ body) := by
  refine ⟨settleBody rt (Settle ops c ctx rt).trace, rfl,
    (settleBody_calls rt _).2, (settleBody_calls rt _).1, ?_⟩
  intro req reg rest htr hv ht
  rw [htr]
  simp [settleBody, hv, ht]

/-- Witness of the amended C23: the sample final channel with the withdrawal
timeout 150 at time 100. -/
theorem SettleMtx_holds_lock_witness :
    ∃ body, SettleMtx (specOps sampleWallet) ⟨idleConn, finalMachine, adjOk 150⟩ background
          ⟨100, false⟩ = .Lock :: (body ++ [.Unlock]) ∧
      MtxEvent.Call (.Register finalMachine.AdjudicatorReq (.ok ⟨5, 150⟩)) ∈ body ∧
      MtxEvent.Call (.Withdraw 150 finalMachine.AdjudicatorReq none) ∈ body ∧
      MtxEvent.Wait 150 ∈ body :=
  match SettleMtx_holds_lock (specOps sampleWallet) ⟨idleConn, finalMachine, adjOk 150⟩ background
      ⟨100, false⟩ with
  | ⟨body, hb, _, hcalls, hwait⟩ =>
    ⟨body, hb,
      hcalls _ (List.mem_cons_of_mem _ (List.mem_cons_self _ _)),
      hcalls _ (List.mem_cons_of_mem _ (List.mem_cons_of_mem _ (List.mem_cons_of_mem _
        (List.mem_cons_of_mem _ (List.mem_cons_self _ _))))),
      hwait finalMachine.AdjudicatorReq ⟨5, 150⟩ _ rfl rfl (by decide)⟩

/-! ## The demo payment transfer: exact amounts -/

/-- C24, counterexample: the balances 5 and 9 in the cells 0 and 1.  When the
amount passed in is the balance of the caller itself (the cell 0), the call
leaves 0 and 14, so the amount passed in has changed from 5 to 0.  When both
elements of the vector are the cell 0 and the amount is the 9 of the cell 2, the
balance is still 5 afterwards, not 5 - 9. -/
theorem transferBal_alias_counterexample :
    (∃ h1, transferBal aliasHeap [0, 1] 0 0 = some h1 ∧ aliasHeap 0 = 5 ∧
      h1 0 = 0 ∧ h1 1 = 14 ∧ h1 0 ≠ aliasHeap 0) ∧
    (∃ h1, transferBal aliasHeap [0, 0] 0 2 = some h1 ∧ aliasHeap 0 = 5 ∧ aliasHeap 2 = 9 ∧
      h1 0 = 5 ∧ h1 0 ≠ aliasHeap 0 - aliasHeap 2) :=
  ⟨⟨_, rfl, by decide, by decide, by decide, by decide⟩,
    ⟨_, rfl, by decide, by decide, by decide, by decide⟩⟩

/-- C24, amended: for every heap and two balances in two cells of their own,
for the index 0 and for the index 1 and every amount, positive, zero or
negative, the call returns, the balance of the caller is the old one minus the
value the amount had before the call, the other balance is the old one plus
that value, and every other cell is unchanged; so the amount passed in is
unchanged when it is in a cell of its own, different from both balances.  With
the balances 100 and 100, two transfers of 3 by participant 0 and two transfers
of 5 by participant 1 give 104 and 96. -/
theorem transferBal_moves_amount (h : Heap) (p0 p1 amount : Nat) (h01 : p0 ≠ p1) :
    (∃ h1, transferBal h [p0, p1] 0 amount = some h1 ∧
      h1 p0 = h p0 - h amount ∧ h1 p1 = h p1 + h amount ∧
      (amount ≠ p0 → amount ≠ p1 → h1 amount = h amount) ∧
      ∀ q, q ≠ p0 → q ≠ p1 → h1 q = h q) ∧
    (∃ h1, transferBal h [p0, p1] 1 amount = some h1 ∧
      h1 p1 = h p1 - h amount ∧ h1 p0 = h p0 + h amount ∧
      (amount ≠ p0 → amount ≠ p1 → h1 amount = h amount) ∧
      ∀ q, q ≠ p0 → q ≠ p1 → h1 q = h q) ∧
    ((((transferBal (fun p => if p = 0 then 100 else if p = 1 then 100 else if p = 2 then 3
            else 5) [0, 1] 0 2).bind
          fun h1 => transferBal h1 [0, 1] 0 2).bind
        fun h2 => transferBal h2 [0, 1] 1 3).bind
      fun h3 => transferBal h3 [0, 1] 1 3).map (fun h4 => (h4 0, h4 1)) = some (104, 96) := by
  obtain ⟨⟨g0, e0, x0, y0⟩, ⟨g1, e1, x1, y1⟩⟩ := transferBal_apply h p0 p1 amount h01
  have other0 : ∀ q, q ≠ p0 → q ≠ p1 → g0 q = h q := by
    intro q hq0 hq1
    have hg : transferBal h [p0, p1] 0 amount
        = some (Function.update (Function.update h p1 (h p1 + h amount)) p0
            (Function.update h p1 (h p1 + h amount) p0 + -h amount)) := rfl
    rw [hg] at e0
    cases e0
    simp [Function.update, hq0, hq1]
  have other1 : ∀ q, q ≠ p0 → q ≠ p1 → g1 q = h q := by
    intro q hq0 hq1
    have hg : transferBal h [p0, p1] 1 amount
        = some (Function.update (Function.update h p0 (h p0 + h amount)) p1
            (Function.update h p0 (h p0 + h amount) p1 + -h amount)) := rfl
    rw [hg] at e1
    cases e1
    simp [Function.update, hq0, hq1]
  refine ⟨⟨g0, e0, x0, y0, other0 amount, other0⟩,
    ⟨g1, e1, y1, x1, other1 amount, other1⟩, ?_⟩
  decide

/-- Witness of the amended C24: the balances 100 and 100 in the cells 0 and 1
and the amount 3 in the cell 2. -/
theorem transferBal_moves_amount_witness :
    ∃ h1, transferBal (fun p => if p = 0 then 100 else if p = 1 then 100 else 3) [0, 1] 0 2
        = some h1 ∧
      h1 0 = (100 : Int) - 3 ∧ h1 1 = (100 : Int) + 3 ∧ h1 2 = 3 :=
  match (transferBal_moves_amount (fun p => if p = 0 then 100 else if p = 1 then 100 else 3)
      0 1 2 (by decide)).1 with
  | ⟨h1, e, x, y, z, _⟩ => ⟨h1, e, x, y, z (by decide) (by decide)⟩

/-! ## Opening: the returned error -/

/-- When `Sig`, the creation of the receiver, the receipt of an `UpdateAcc`,
`AddSig` and `EnableInit` succeed, `initExchangeSigsAndEnable` returns the
result of the send with its message, and the state machine is the one
`EnableInit` left. -/
theorem initExchange_of_enabled {M : Type} (ops : MachineOps M) (c : Channel M) (ctx : Context)
    (sig : Sig) (id : ID) (v : Nat) (s : Sig)
    (hsig : (ops.Sig c.machine).1 = .ok sig)
    (hrecv : c.conn.NewUpdateResRecv 0 = none)
    (hnext : (c.conn.Next ctx).2 = some (.ChannelUpdateAcc id v s))
    (hadd : (ops.AddSig (ops.Sig c.machine).2 (c.conn.Next ctx).1 s).1 = none)
    (hen : (ops.EnableInit (ops.AddSig (ops.Sig c.machine).2 (c.conn.Next ctx).1 s).2).1
      = none) :
    (initExchangeSigsAndEnable ops c ctx).err =
      WithMessage (c.conn.Send ctx (.ChannelUpdateAcc (ops.ID (ops.Sig c.machine).2) 0 sig))
        "sending initial signature" ∧
    (initExchangeSigsAndEnable ops c ctx).machine =
      (ops.EnableInit (ops.AddSig (ops.Sig c.machine).2 (c.conn.Next ctx).1 s).2).2 := by
  unfold initExchangeSigsAndEnable
  rcases hs : ops.Sig c.machine with ⟨e | sig1, m1⟩
  · rw [hs] at hsig
    cases hsig
  · rw [hs] at hsig hadd hen
    cases hsig
    dsimp only at hadd hen ⊢
    rw [hrecv]
    dsimp only
    unfold initAfterNext
    rw [hnext]
    dsimp only
    rcases ha : ops.AddSig m1 (c.conn.Next ctx).1 s with ⟨_ | ea, m2⟩
    · rw [ha] at hen
      dsimp only at hen ⊢
      rcases he : ops.EnableInit m2 with ⟨_ | ee, m3⟩
      · exact ⟨rfl, rfl⟩
      · rw [he] at hen
        cases hen
    · rw [ha] at hadd
      cases hadd

/-- When `initExchangeSigsAndEnable` returns `nil`, every step has succeeded. -/
theorem initExchange_nil_steps {M : Type} (ops : MachineOps M) (c : Channel M) (ctx : Context)
    (h : (initExchangeSigsAndEnable ops c ctx).err = none) :
    ∃ sig id v s, (ops.Sig c.machine).1 = .ok sig ∧ c.conn.NewUpdateResRecv 0 = none ∧
      (c.conn.Next ctx).2 = some (.ChannelUpdateAcc id v s) ∧
      (ops.AddSig (ops.Sig c.machine).2 (c.conn.Next ctx).1 s).1 = none ∧
      (ops.EnableInit (ops.AddSig (ops.Sig c.machine).2 (c.conn.Next ctx).1 s).2).1 = none := by
  unfold initExchangeSigsAndEnable at h
  rcases hs : ops.Sig c.machine with ⟨e | sig, m1⟩
  · rw [hs] at h
    cases h
  · rw [hs] at h
    dsimp only at h ⊢
    cases hr : c.conn.NewUpdateResRecv 0 with
    | some e =>
      rw [hr] at h
      cases h
    | none =>
      rw [hr] at h
      dsimp only at h
      unfold initAfterNext at h
      cases hn : (c.conn.Next ctx).2 with
      | none =>
        rw [hn] at h
        cases h
      | some cm =>
        rw [hn] at h
        cases cm with
        | ChannelUpdateRej a b r => cases h
        | Other t x => cases h
        | ChannelUpdateAcc id v s =>
          dsimp only at h
          rcases ha : ops.AddSig m1 (c.conn.Next ctx).1 s with ⟨_ | ea, m2⟩
          · rw [ha] at h
            dsimp only at h
            rcases he : ops.EnableInit m2 with ⟨_ | ee, m3⟩
            · refine ⟨sig, id, v, s, rfl, rfl, rfl, ?_, ?_⟩
              · rw [ha]
              · rw [ha]
                dsimp only
                rw [he]
            · rw [he] at h
              cases h
          · rw [ha] at h
            cases h

/-- On the state machine of the specification a successful `EnableInit` leads
to the phase `Funding`. -/
theorem spec_EnableInit_phase (w : Wallet) (m : StateMachine)
    (h : ((specOps w).EnableInit m).1 = none) : ((specOps w).EnableInit m).2.phase = .Funding := by
  have hm : (specOps w).EnableInit m = method StateMachine.EnableInit m := rfl
  rw [hm] at h ⊢
  unfold method StateMachine.EnableInit at h ⊢
  split_ifs at h ⊢ with hc
  rfl

/-- C25: for every implementation of the state machine,
`initExchangeSigsAndEnable` returns `nil` exactly when `machine.Sig` succeeded,
the receiver was created, an `UpdateAcc` was received, `AddSig` and `EnableInit`
succeeded and the send of our own `UpdateAcc` succeeded.  When all but the send
succeeded and the send failed with `e`, it returns `e` with the message
"sending initial signature" around it and the state machine is the one
`EnableInit` left, which on the state machine of the specification is in phase
`Funding`. -/
theorem initExchange_nil_iff {M : Type} (ops : MachineOps M) (c : Channel M) (ctx : Context) :
    ((initExchangeSigsAndEnable ops c ctx).err = none ↔
      ∃ sig id v s, (ops.Sig c.machine).1 = .ok sig ∧ c.conn.NewUpdateResRecv 0 = none ∧
        (c.conn.Next ctx).2 = some (.ChannelUpdateAcc id v s) ∧
        (ops.AddSig (ops.Sig c.machine).2 (c.conn.Next ctx).1 s).1 = none ∧
        (ops.EnableInit (ops.AddSig (ops.Sig c.machine).2 (c.conn.Next ctx).1 s).2).1 = none ∧
        c.conn.Send ctx (.ChannelUpdateAcc (ops.ID (ops.Sig c.machine).2) 0 sig) = none) ∧
    (∀ sig id v s e, (ops.Sig c.machine).1 = .ok sig → c.conn.NewUpdateResRecv 0 = none →
      (c.conn.Next ctx).2 = some (.ChannelUpdateAcc id v s) →
      (ops.AddSig (ops.Sig c.machine).2 (c.conn.Next ctx).1 s).1 = none →
      (ops.EnableInit (ops.AddSig (ops.Sig c.machine).2 (c.conn.Next ctx).1 s).2).1 = none →
      c.conn.Send ctx (.ChannelUpdateAcc (ops.ID (ops.Sig c.machine).2) 0 sig) = some e →
      (initExchangeSigsAndEnable ops c ctx).err
          = some (Error.WithMessage e "sending initial signature") ∧
        (initExchangeSigsAndEnable ops c ctx).machine =
          (ops.EnableInit (ops.AddSig (ops.Sig c.machine).2 (c.conn.Next ctx).1 s).2).2) ∧
    (∀ (w : Wallet) (c1 : Channel StateMachine) sig id v s e,
      ((specOps w).Sig c1.machine).1 = .ok sig → c1.conn.NewUpdateResRecv 0 = none →
      (c1.conn.Next ctx).2 = some (.ChannelUpdateAcc id v s) →
      ((specOps w).AddSig ((specOps w).Sig c1.machine).2 (c1.conn.Next ctx).1 s).1 = none →
      ((specOps w).EnableInit
        ((specOps w).AddSig ((specOps w).Sig c1.machine).2 (c1.conn.Next ctx).1 s).2).1 = none →
      c1.conn.Send ctx (.ChannelUpdateAcc ((specOps w).ID ((specOps w).Sig c1.machine).2) 0 sig)
        = some e →
      (initExchangeSigsAndEnable (specOps w) c1 ctx).err
          = some (Error.WithMessage e "sending initial signature") ∧
        (specOps w).Phase (initExchangeSigsAndEnable (specOps w) c1 ctx).machine = .Funding) := by
  refine ⟨⟨?_, ?_⟩, ?_, ?_⟩
  · intro h
    obtain ⟨sig, id, v, s, hsig, hrecv, hnext, hadd, hen⟩ := initExchange_nil_steps ops c ctx h
    refine ⟨sig, id, v, s, hsig, hrecv, hnext, hadd, hen, ?_⟩
    have hval := (initExchange_of_enabled ops c ctx sig id v s hsig hrecv hnext hadd hen).1
    rw [h] at hval
    cases hsend : c.conn.Send ctx (.ChannelUpdateAcc (ops.ID (ops.Sig c.machine).2) 0 sig) with
    | none => rfl
    | some e =>
      rw [hsend] at hval
      cases hval
  · rintro ⟨sig, id, v, s, hsig, hrecv, hnext, hadd, hen, hsend⟩
    rw [(initExchange_of_enabled ops c ctx sig id v s hsig hrecv hnext hadd hen).1, hsend]
    rfl
  · intro sig id v s e hsig hrecv hnext hadd hen hsend
    obtain ⟨herr, hm⟩ := initExchange_of_enabled ops c ctx sig id v s hsig hrecv hnext hadd hen
    rw [hsend] at herr
    exact ⟨herr, hm⟩
  · intro w c1 sig id v s e hsig hrecv hnext hadd hen hsend
    obtain ⟨herr, hm⟩ :=
      initExchange_of_enabled (specOps w) c1 ctx sig id v s hsig hrecv hnext hadd hen
    rw [hsend] at herr
    refine ⟨herr, ?_⟩
    rw [hm]
    exact spec_EnableInit_phase w _ hen

/-- Witness of C25: the sample channel in `InitSigning` whose peer answers with
its signature while our own send fails. -/
theorem initExchange_nil_iff_witness :
    (initExchangeSigsAndEnable (specOps sampleWallet)
        ⟨failingSendConn, initMachine, adjOk 0⟩ background).err
      = some (Error.WithMessage (Error.New "connection closed") "sending initial signature") ∧
    (specOps sampleWallet).Phase
        (initExchangeSigsAndEnable (specOps sampleWallet)
          ⟨failingSendConn, initMachine, adjOk 0⟩ background).machine = .Funding :=
  (initExchange_nil_iff (specOps sampleWallet) ⟨failingSendConn, initMachine, adjOk 0⟩
    background).2.2 sampleWallet ⟨failingSendConn, initMachine, adjOk 0⟩ 10 7 0 11
    (Error.New "connection closed") rfl rfl rfl rfl rfl rfl

/-! ## Short addresses -/

/-- C30, the failing inputs: on every string shorter than two bytes, the empty
string and the strings of one byte among them, `strToAddress` panics on the
slice `str[2:]`; so does `valID`, which returns no "Invalid perun-id", and so
does `Connect` on such a perun-id.  `Executor` hands the line "connect 1.2.3.4
x alice" on to the function of connect, since the validator of the perun-id
accepts every string that is not empty. -/
theorem strToAddress_short_panics :
    (∀ (decodeAddress : List Nat → Except Error Address) (str : String),
      (goBytes str).length < 2 →
        strToAddress decodeAddress str = none ∧ valID decodeAddress str = none) ∧
    (∀ (env : ConnectEnv) (ip id peerAlias : String), (goBytes id).length < 2 →
      Connect env [ip, id, peerAlias] = none) ∧
    (goBytes "").length = 0 ∧ (goBytes "x").length = 1 ∧
    (∃ out, Executor sampleLib sampleBackend "connect 1.2.3.4 x alice"
      = .invoked "connect" ["1.2.3.4", "x", "alice"] out) := by
  have hs : ∀ (decodeAddress : List Nat → Except Error Address) (str : String),
      (goBytes str).length < 2 → strToAddress decodeAddress str = none := by
    intro d str h
    unfold strToAddress
    rw [if_pos h]
  refine ⟨?_, ?_, by decide, by decide, ⟨_, rfl⟩⟩
  · intro d str h
    refine ⟨hs d str h, ?_⟩
    unfold valID
    rw [hs d str h]
  · intro env ip id peerAlias h
    unfold Connect
    simp only [List.getElem?_cons_succ, List.getElem?_cons_zero, hs env.DecodeAddress id h]

/-! ## The batch of the in-memory database: theorems -/

/-- After the entries with the key `k0` are filtered out, nothing is found under
`k0` and under every other key what was found before. -/
theorem entryOf_filter {β : Type} (k k0 : Key) (l : List (Key × β)) :
    entryOf k (l.filter (fun e => decide (e.1 ≠ k0))) = if k = k0 then none else entryOf k l := by
  induction l with
  | nil => simp [entryOf]
  | cons e rest ih =>
    obtain ⟨k1, v⟩ := e
    by_cases h1 : k1 = k0
    · subst h1
      rw [List.filter_cons_of_neg (by simp), ih]
      by_cases hk : k = k1
      · simp [hk]
      · have hk1 : ¬ k1 = k := fun h => hk h.symm
        simp [entryOf, hk, hk1]
    · rw [List.filter_cons_of_pos (by simpa using h1)]
      by_cases hk : k = k0
      · subst hk
        simp only [entryOf, if_neg h1, ih, if_true]
      · simp only [entryOf, ih, if_neg hk]

/-- An entry is found under a key exactly when the key is among the keys. -/
theorem entryOf_isSome {β : Type} (k : Key) (l : List (Key × β)) :
    (entryOf k l).isSome = true ↔ k ∈ l.map Prod.fst := by
  induction l with
  | nil => simp [entryOf]
  | cons e rest ih =>
    obtain ⟨k1, v⟩ := e
    by_cases h1 : k1 = k
    · simp [entryOf, h1]
    · have h2 : ¬ k = k1 := fun h => h1 h.symm
      simp only [entryOf, if_neg h1, ih, List.map_cons, List.mem_cons, h2, false_or]

/-- With pairwise distinct keys the entry found under a key is the one entry of
the list with that key. -/
theorem entryOf_eq_some {β : Type} (k : Key) (v : β) (l : List (Key × β))
    (hl : (l.map Prod.fst).Nodup) : entryOf k l = some v ↔ (k, v) ∈ l := by
  induction l with
  | nil => simp [entryOf]
  | cons e rest ih =>
    obtain ⟨k1, v1⟩ := e
    rw [List.map_cons, List.nodup_cons] at hl
    by_cases h1 : k1 = k
    · subst h1
      have hnot : (k1, v) ∉ rest := fun h => hl.1 (List.mem_map.2 ⟨(k1, v), h, rfl⟩)
      simp [entryOf, hnot]
      exact eq_comm
    · have h2 : ¬ k = k1 := fun h => h1 h.symm
      simp [entryOf, h1, h2, ih hl.2]

/-- Filtering out a key keeps the keys pairwise distinct. -/
theorem keys_filter_nodup {β : Type} (k0 : Key) (l : List (Key × β))
    (hl : (l.map Prod.fst).Nodup) :
    ((l.filter (fun e => decide (e.1 ≠ k0))).map Prod.fst).Nodup :=
  hl.sublist ((List.filter_sublist l).map Prod.fst)

/-- A key that was filtered out is no longer among the keys. -/
theorem not_mem_keys_filter {β : Type} (k0 : Key) (l : List (Key × β)) :
    k0 ∉ (l.filter (fun e => decide (e.1 ≠ k0))).map Prod.fst := by
  simp [List.mem_map, List.mem_filter]

/-- The keys left after filtering out `k0` are the other keys. -/
theorem mem_keys_filter {β : Type} (k k0 : Key) (l : List (Key × β)) :
    k ∈ (l.filter (fun e => decide (e.1 ≠ k0))).map Prod.fst ↔ k ≠ k0 ∧ k ∈ l.map Prod.fst := by
  simp only [List.mem_map, List.mem_filter, decide_eq_true_eq]
  constructor
  · rintro ⟨e, ⟨he, hne⟩, rfl⟩
    exact ⟨hne, e, he, rfl⟩
  · rintro ⟨hne, e, he, rfl⟩
    exact ⟨e, ⟨he, hne⟩, rfl⟩

/-- With pairwise distinct keys, the lengths of the values of the other keys and
the length of the value of `k0` add up to the lengths of all values. -/
theorem sum_filter_add (k0 : Key) (l : List (Key × Value)) (hl : (l.map Prod.fst).Nodup) :
    ((l.filter (fun e => decide (e.1 ≠ k0))).map (fun e => e.2.length)).sum
      + ((entryOf k0 l).map List.length).getD 0 = (l.map (fun e => e.2.length)).sum := by
  induction l with
  | nil => simp [entryOf]
  | cons e rest ih =>
    obtain ⟨k1, v1⟩ := e
    rw [List.map_cons, List.nodup_cons] at hl
    by_cases h1 : k1 = k0
    · subst h1
      rw [List.filter_cons_of_neg (by simp)]
      have hfil : rest.filter (fun e => decide (e.1 ≠ k1)) = rest := by
        rw [List.filter_eq_self]
        intro e he
        have : e.1 ≠ k1 := fun h => hl.1 (List.mem_map.2 ⟨e, he, h⟩)
        simpa using this
      rw [hfil]
      simp [entryOf]
      omega
    · rw [List.filter_cons_of_pos (by simpa using h1)]
      have := ih hl.2
      simp only [entryOf, if_neg h1, List.map_cons, List.sum_cons]
      omega

/-- The addition of `uint` agrees with the sum modulo 2^64. -/
theorem uintAdd_mod (s b : Nat) : uintAdd (s % uintSize) (b % uintSize) = (b + s) % uintSize := by
  unfold uintAdd uintSize
  omega

/-- The subtraction of `uint` of a part from a whole leaves the other part modulo
2^64. -/
theorem uintSub_mod (a old s : Nat) (h : s + old = a) :
    uintSub (a % uintSize) old = s % uintSize := by
  unfold uintSub uintSize
  omega

/-- On a batch that satisfies the invariant `Put` does not panic, returns `nil`,
keeps the invariant, leaves the value pending and the key not deleted, leaves
every other key alone and replaces the old length in the pending size. -/
theorem Batch.Put_spec (b : Batch) (hb : b.Inv) (k : Key) (v : Value) :
    ∃ b1, b.Put k v = some (none, b1) ∧ b1.Inv ∧
      b1.entry k = (some v, false) ∧ (∀ k1, k1 ≠ k → b1.entry k1 = b.entry k1) ∧
      pendingSize b1 + ((b.writes.index k).map List.length).getD 0
        = pendingSize b + v.length := by
  obtain ⟨w, d, bytes⟩ := b
  obtain ⟨hw, hd, hwn, hdn, hdis, hbytes⟩ := hb
  cases w with
  | none => cases hw
  | some w =>
  cases d with
  | none => cases hd
  | some d =>
  simp only [GoMap.keys, GoMap.entries, Option.getD_some, pendingSize] at hwn hdn hdis hbytes
  have hsum := sum_filter_add k w hwn
  refine ⟨_, rfl, ⟨rfl, rfl, ?_, ?_, ?_, ?_⟩, ?_, ?_, ?_⟩
  · simp only [GoMap.keys, GoMap.entries, Option.getD_some, List.map_cons, List.nodup_cons]
    exact ⟨not_mem_keys_filter k w, keys_filter_nodup k w hwn⟩
  · simp only [GoMap.keys, GoMap.entries, GoMap.delete, Option.map_some', Option.getD_some]
    exact keys_filter_nodup k d hdn
  · intro k1 hk1
    simp only [GoMap.keys, GoMap.entries, GoMap.delete, Option.map_some', Option.getD_some,
      List.map_cons, List.mem_cons, mem_keys_filter] at hk1 ⊢
    rintro ⟨hne, hmem⟩
    rcases hk1 with h | h
    · exact hne h
    · exact hdis k1 h.2 hmem
  · simp only [pendingSize, GoMap.entries, GoMap.index, Option.getD_some, List.map_cons,
      List.sum_cons]
    subst hbytes
    cases hold : entryOf k w with
    | none =>
      rw [hold] at hsum
      simp only [Option.map_none', Option.getD_none] at hsum
      rw [Nat.add_zero] at hsum
      dsimp only
      rw [← hsum, uintAdd_mod]
    | some old =>
      rw [hold] at hsum
      simp only [Option.map_some', Option.getD_some] at hsum
      dsimp only
      rw [uintSub_mod _ _ _ hsum, uintAdd_mod]
  · simp only [Batch.entry, GoMap.index, GoMap.entries, GoMap.delete, Option.map_some',
      Option.getD_some, entryOf, entryOf_filter, if_true, Option.isSome_none]
  · intro k1 hk1
    have hk2 : ¬ k = k1 := fun h => hk1 h.symm
    simp only [Batch.entry, GoMap.index, GoMap.entries, GoMap.delete, Option.map_some',
      Option.getD_some, entryOf, entryOf_filter, if_neg hk1, if_neg hk2]
  · simp only [pendingSize, GoMap.entries, GoMap.index, Option.getD_some, List.map_cons,
      List.sum_cons]
    omega

/-- On a batch that satisfies the invariant `Delete` does not panic, returns
`nil`, keeps the invariant, leaves the key deleted and not pending, leaves every
other key alone and takes the old length from the pending size. -/
theorem Batch.Delete_spec (b : Batch) (hb : b.Inv) (k : Key) :
    ∃ b1, b.Delete k = some (none, b1) ∧ b1.Inv ∧
      b1.entry k = (none, true) ∧ (∀ k1, k1 ≠ k → b1.entry k1 = b.entry k1) ∧
      pendingSize b1 + ((b.writes.index k).map List.length).getD 0 = pendingSize b := by
  obtain ⟨w, d, bytes⟩ := b
  obtain ⟨hw, hd, hwn, hdn, hdis, hbytes⟩ := hb
  cases w with
  | none => cases hw
  | some w =>
  cases d with
  | none => cases hd
  | some d =>
  simp only [GoMap.keys, GoMap.entries, Option.getD_some, pendingSize] at hwn hdn hdis hbytes
  have hsum := sum_filter_add k w hwn
  have hfil : entryOf k w = none → w.filter (fun e => decide (e.1 ≠ k)) = w := by
    intro hnone
    rw [List.filter_eq_self]
    intro e he
    have : e.1 ≠ k := by
      intro h
      have hmem : k ∈ w.map Prod.fst := List.mem_map.2 ⟨e, he, h⟩
      rw [← entryOf_isSome, hnone] at hmem
      cases hmem
    simpa using this
  cases hold : entryOf k w with
  | none =>
    have hidx : GoMap.index (some w) k = none := hold
    rw [hold] at hsum
    simp only [Option.map_none', Option.getD_none] at hsum
    refine ⟨⟨some w, some ((k, ()) :: d.filter (fun e => decide (e.1 ≠ k))), bytes⟩, ?_,
      ⟨rfl, rfl, ?_, ?_, ?_, ?_⟩, ?_, ?_, ?_⟩
    · simp only [Batch.Delete, hidx, GoMap.assign]
    · exact hwn
    · simp only [GoMap.keys, GoMap.entries, Option.getD_some, List.map_cons, List.nodup_cons]
      exact ⟨not_mem_keys_filter k d, keys_filter_nodup k d hdn⟩
    · intro k1 hk1
      simp only [GoMap.keys, GoMap.entries, Option.getD_some, List.map_cons, List.mem_cons,
        mem_keys_filter] at hk1 ⊢
      rintro (h | h)
      · subst h
        rw [← entryOf_isSome, hold] at hk1
        cases hk1
      · exact hdis k1 hk1 h.2
    · exact hbytes
    · simp only [Batch.entry, GoMap.index, GoMap.entries, Option.getD_some, entryOf, hold,
        if_true, Option.isSome_some]
    · intro k1 hk1
      have hk2 : ¬ k = k1 := fun h => hk1 h.symm
      simp only [Batch.entry, GoMap.index, GoMap.entries, Option.getD_some, entryOf,
        entryOf_filter, if_neg hk1, if_neg hk2]
    · simp only [hidx, Option.map_none', Option.getD_none, Nat.add_zero, pendingSize]
  | some old =>
    have hidx : GoMap.index (some w) k = some old := hold
    rw [hold] at hsum
    simp only [Option.map_some', Option.getD_some] at hsum
    refine ⟨⟨some (w.filter (fun e => decide (e.1 ≠ k))),
      some ((k, ()) :: d.filter (fun e => decide (e.1 ≠ k))), uintSub bytes old.length⟩, ?_,
      ⟨rfl, rfl, ?_, ?_, ?_, ?_⟩, ?_, ?_, ?_⟩
    · simp only [Batch.Delete, hidx, GoMap.assign, GoMap.delete, Option.map_some']
    · simp only [GoMap.keys, GoMap.entries, Option.getD_some]
      exact keys_filter_nodup k w hwn
    · simp only [GoMap.keys, GoMap.entries, Option.getD_some, List.map_cons, List.nodup_cons]
      exact ⟨not_mem_keys_filter k d, keys_filter_nodup k d hdn⟩
    · intro k1 hk1
      simp only [GoMap.keys, GoMap.entries, Option.getD_some, List.map_cons, List.mem_cons,
        mem_keys_filter] at hk1 ⊢
      rintro (h | h)
      · exact hk1.1 h
      · exact hdis k1 hk1.2 h.2
    · simp only [pendingSize, GoMap.entries, Option.getD_some]
      subst hbytes
      exact uintSub_mod _ _ _ hsum
    · simp only [Batch.entry, GoMap.index, GoMap.entries, Option.getD_some, entryOf,
        entryOf_filter, if_true, Option.isSome_some]
    · intro k1 hk1
      have hk2 : ¬ k = k1 := fun h => hk1 h.symm
      simp only [Batch.entry, GoMap.index, GoMap.entries, Option.getD_some, entryOf,
        entryOf_filter, if_neg hk1, if_neg hk2]
    · simp only [pendingSize, GoMap.entries, Option.getD_some, hidx, Option.map_some']
      omega

/-- The empty batch satisfies the invariant. -/
theorem emptyBatch_Inv : emptyBatch.Inv := by
  refine ⟨rfl, rfl, ?_, ?_, ?_, rfl⟩
  · exact List.nodup_nil
  · exact List.nodup_nil
  · intro k hk
    cases hk

/-- A call on a batch that satisfies the invariant succeeds, keeps the invariant,
leaves its own entry about its key and every other key alone. -/
theorem Batch.call_spec (b : Batch) (hb : b.Inv) (c : BatchCall) :
    ∃ b1, b.call c = some b1 ∧ b1.Inv ∧ b1.entry c.key = c.entry ∧
      ∀ k1, k1 ≠ c.key → b1.entry k1 = b.entry k1 := by
  cases c with
  | Put k v =>
    obtain ⟨b1, h1, hinv, he, hother, _⟩ := Batch.Put_spec b hb k v
    exact ⟨b1, by simp only [Batch.call, h1, Option.map_some'], hinv, he, hother⟩
  | Delete k =>
    obtain ⟨b1, h1, hinv, he, hother, _⟩ := Batch.Delete_spec b hb k
    exact ⟨b1, by simp only [Batch.call, h1, Option.map_some'], hinv, he, hother⟩

/-- The last call about a key is a call about that key. -/
theorem lastCall_key (k : Key) (cs : List BatchCall) (c : BatchCall)
    (h : lastCall k cs = some c) : c.key = k := by
  induction cs with
  | nil => cases h
  | cons c0 rest ih =>
    have hcons : lastCall k (c0 :: rest) =
        match lastCall k rest with
        | some c1 => some c1
        | none => if c0.key = k then some c0 else none := rfl
    rw [hcons] at h
    cases hr : lastCall k rest with
    | some c1 =>
      rw [hr] at h
      cases h
      exact ih hr
    | none =>
      rw [hr] at h
      dsimp only at h
      split_ifs at h with hk
      cases h
      exact hk

/-- A sequence of calls on a batch that satisfies the invariant succeeds, keeps
the invariant, and leaves about every key what the last call about it left. -/
theorem Batch.calls_spec (b : Batch) (hb : b.Inv) (cs : List BatchCall) :
    ∃ b1, b.calls cs = some b1 ∧ b1.Inv ∧
      ∀ k, b1.entry k = ((lastCall k cs).map BatchCall.entry).getD (b.entry k) := by
  induction cs generalizing b with
  | nil => exact ⟨b, rfl, hb, fun k => rfl⟩
  | cons c rest ih =>
    obtain ⟨b2, h2, hinv2, he2, hother2⟩ := Batch.call_spec b hb c
    obtain ⟨b1, h1, hinv1, he1⟩ := ih b2 hinv2
    refine ⟨b1, by simp only [Batch.calls, h2, Option.some_bind, h1], hinv1, ?_⟩
    intro k
    have hcons : lastCall k (c :: rest) =
        match lastCall k rest with
        | some c1 => some c1
        | none => if c.key = k then some c else none := rfl
    rw [he1 k, hcons]
    cases hr : lastCall k rest with
    | some c1 => rfl
    | none =>
      simp only [Option.map_none', Option.getD_none]
      by_cases hk : c.key = k
      · rw [if_pos hk, ← hk, he2]
        rfl
      · rw [if_neg hk, hother2 k (fun h => hk h.symm)]
        rfl

/-- The length of a pending value is at most the pending size. -/
theorem Batch.index_le_pendingSize (b : Batch) (hn : b.writes.keys.Nodup) (k : Key)
    (old : Value) (h : b.writes.index k = some old) : old.length ≤ pendingSize b := by
  have hsum := sum_filter_add k b.writes.entries hn
  unfold GoMap.index at h
  rw [h] at hsum
  simp only [Option.map_some', Option.getD_some] at hsum
  unfold pendingSize
  omega

/-- A read of a map finds an entry exactly under the keys of the map. -/
theorem GoMap.index_isSome {β : Type} (m : GoMap β) (k : Key) :
    (m.index k).isSome = true ↔ k ∈ m.keys :=
  entryOf_isSome k m.entries

/-- A read of a map finds nothing exactly under the keys that are not in it. -/
theorem GoMap.index_eq_none {β : Type} (m : GoMap β) (k : Key) :
    m.index k = none ↔ k ∉ m.keys := by
  rw [← GoMap.index_isSome]
  cases m.index k <;> simp

/-- C26, amended: after every sequence of calls of `Put` and `Delete` on a
batch that starts with empty maps and `bytes = 0`, no call has panicked, the
keys pending in `writes` are pairwise distinct, `ValueSize()` is the sum of the
lengths of the pending values modulo 2^64 and `Len()` the number of distinct
pending keys modulo 2^64, and each is exactly that number when the number is
below 2^64.  A further `Put` replaces the old length of its key in that sum by
the new one, a further `Delete` takes the length of its key away, and while the
sum is below 2^64 the subtraction of the length of a pending value from `bytes`
does not wrap around. -/
theorem Batch_size_accounting (cs : List BatchCall) :
    ∃ b, emptyBatch.calls cs = some b ∧
      b.writes.keys.Nodup ∧
      b.ValueSize = pendingSize b % uintSize ∧
      b.Len = b.writes.keys.toFinset.card % uintSize ∧
      (pendingSize b < uintSize → b.ValueSize = pendingSize b) ∧
      (b.writes.keys.toFinset.card < uintSize → b.Len = b.writes.keys.toFinset.card) ∧
      (∀ k v, ∃ b1, b.Put k v = some (none, b1) ∧ b1.ValueSize = pendingSize b1 % uintSize ∧
        pendingSize b1 + ((b.writes.index k).map List.length).getD 0
          = pendingSize b + v.length) ∧
      (∀ k, ∃ b1, b.Delete k = some (none, b1) ∧ b1.ValueSize = pendingSize b1 % uintSize ∧
        pendingSize b1 + ((b.writes.index k).map List.length).getD 0 = pendingSize b) ∧
      (pendingSize b < uintSize → ∀ k old, b.writes.index k = some old →
        old.length % uintSize ≤ b.bytes ∧
        uintSub b.bytes old.length = b.bytes - old.length) := by
  obtain ⟨b, hcalls, hinv, _⟩ := Batch.calls_spec emptyBatch emptyBatch_Inv cs
  have hn : b.writes.keys.Nodup := hinv.2.2.1
  have hbytes : b.bytes = pendingSize b % uintSize := hinv.2.2.2.2.2
  have hlen : b.Len = b.writes.keys.toFinset.card % uintSize := by
    rw [List.toFinset_card_of_nodup hn]
    simp only [Batch.Len, GoMap.keys, List.length_map]
  refine ⟨b, hcalls, hn, hbytes, hlen, ?_, ?_, ?_, ?_, ?_⟩
  · intro hlt
    rw [Batch.ValueSize, hbytes, Nat.mod_eq_of_lt hlt]
  · intro hlt
    rw [hlen, Nat.mod_eq_of_lt hlt]
  · intro k v
    obtain ⟨b1, h1, hinv1, _, _, hsum⟩ := Batch.Put_spec b hinv k v
    exact ⟨b1, h1, hinv1.2.2.2.2.2, hsum⟩
  · intro k
    obtain ⟨b1, h1, hinv1, _, _, hsum⟩ := Batch.Delete_spec b hinv k
    exact ⟨b1, h1, hinv1.2.2.2.2.2, hsum⟩
  · intro hlt k old hold
    have hle := Batch.index_le_pendingSize b hn k old hold
    rw [hbytes, Nat.mod_eq_of_lt hlt]
    have hold_lt : old.length < uintSize := lt_of_le_of_lt hle hlt
    rw [Nat.mod_eq_of_lt hold_lt]
    refine ⟨hle, ?_⟩
    unfold uintSub
    rw [Nat.mod_eq_of_lt hold_lt]
    unfold uintSize at *
    omega

/-- Witness of the amended C26: after the sample sequence one value of two bytes
is pending. -/
theorem Batch_size_accounting_witness :
    ∃ b, emptyBatch.calls sampleCalls = some b ∧ b.ValueSize = 2 ∧ b.Len = 1 ∧
      pendingSize b = 2 ∧ b.writes.keys = [[1]] := by
  obtain ⟨b, hb, _, hsize, _, hexact, _⟩ := Batch_size_accounting sampleCalls
  have hval : emptyBatch.calls sampleCalls = some ⟨some [([1], [5, 6])], some [([2], ())], 2⟩ :=
    by decide
  rw [hval] at hb
  cases hb
  exact ⟨_, hval, hexact (by decide), by decide, by decide, by decide⟩

/-- C27: after every sequence of calls of `Put` and `Delete` on a batch that
starts empty, no call has panicked and no key is in both `writes` and
`deletes`; a key whose last call was `Put(k, v)` is in `writes` with the value
`v` and not in `deletes`; a key whose last call was `Delete(k)` is in `deletes`
and not in `writes`; a key without a call is in neither; and a further call
leaves what `writes` and `deletes` hold about every other key as it was. -/
theorem Batch_last_call_wins (cs : List BatchCall) :
    ∃ b, emptyBatch.calls cs = some b ∧
      (∀ k, ¬ (k ∈ b.writes.keys ∧ k ∈ b.deletes.keys)) ∧
      (∀ k v, lastCall k cs = some (.Put k v) →
        b.writes.index k = some v ∧ k ∉ b.deletes.keys) ∧
      (∀ k, lastCall k cs = some (.Delete k) →
        k ∈ b.deletes.keys ∧ k ∉ b.writes.keys ∧ b.writes.index k = none) ∧
      (∀ k, lastCall k cs = none → k ∉ b.deletes.keys ∧ k ∉ b.writes.keys) ∧
      (∀ c, ∃ b1, b.call c = some b1 ∧ ∀ k, k ≠ c.key →
        b1.writes.index k = b.writes.index k ∧ (k ∈ b1.deletes.keys ↔ k ∈ b.deletes.keys)) := by
  obtain ⟨b, hcalls, hinv, hentry⟩ := Batch.calls_spec emptyBatch emptyBatch_Inv cs
  have hdel : ∀ k, k ∈ b.deletes.keys ↔ (b.entry k).2 = true := fun k =>
    (GoMap.index_isSome b.deletes k).symm
  refine ⟨b, hcalls, ?_, ?_, ?_, ?_, ?_⟩
  · rintro k ⟨hw, hd⟩
    exact hinv.2.2.2.2.1 k hw hd
  · intro k v hlast
    have he := hentry k
    rw [hlast] at he
    have h1 : b.writes.index k = some v := congrArg Prod.fst he
    have h2 : (b.entry k).2 = false := congrArg Prod.snd he
    refine ⟨h1, ?_⟩
    rw [hdel, h2]
    simp
  · intro k hlast
    have he := hentry k
    rw [hlast] at he
    have h1 : b.writes.index k = none := congrArg Prod.fst he
    have h2 : (b.entry k).2 = true := congrArg Prod.snd he
    exact ⟨(hdel k).2 h2, (GoMap.index_eq_none _ _).1 h1, h1⟩
  · intro k hlast
    have he := hentry k
    rw [hlast] at he
    have h1 : b.writes.index k = none := congrArg Prod.fst he
    have h2 : (b.entry k).2 = false := congrArg Prod.snd he
    refine ⟨?_, (GoMap.index_eq_none _ _).1 h1⟩
    rw [hdel, h2]
    simp
  · intro c
    obtain ⟨b1, h1, _, _, hother⟩ := Batch.call_spec b hinv c
    refine ⟨b1, h1, ?_⟩
    intro k hk
    have he := hother k hk
    refine ⟨congrArg Prod.fst he, ?_⟩
    rw [← GoMap.index_isSome, ← GoMap.index_isSome]
    have h2 : (b1.deletes.index k).isSome = (b.deletes.index k).isSome := congrArg Prod.snd he
    rw [h2]

/-- C29, the failing input: after `Reset()` of any batch `Len()` and
`ValueSize()` are 0, but both maps are `nil`, so that a subsequent `Put(k, v)`
panics on the assignment `this.writes[skey] = value` and a subsequent
`Delete(k)` panics on the assignment `this.deletes[skey] = struct{}{}`; the same
calls on a batch with empty maps succeed. -/
theorem Batch_Reset_then_panics :
    (∀ (b : Batch), b.Reset.Len = 0 ∧ b.Reset.ValueSize = 0 ∧
      b.Reset.writes = none ∧ b.Reset.deletes = none ∧
      (∀ k v, b.Reset.Put k v = none) ∧ (∀ k, b.Reset.Delete k = none)) ∧
    emptyBatch.Reset.Put [1] [2] = none ∧ emptyBatch.Reset.Delete [1] = none ∧
    emptyBatch.Put [1] [2] = some (none, ⟨some [([1], [2])], some [], 1⟩) ∧
    emptyBatch.Delete [1] = some (none, ⟨some [], some [([1], ())], 0⟩) := by
  refine ⟨fun b => ⟨rfl, rfl, rfl, rfl, fun k v => rfl, fun k => rfl⟩, rfl, rfl, ?_, ?_⟩
  · decide
  · decide

/-- On a reliable database the first loop of `Write` succeeds and leaves under
every key it visited the value pending for it. -/
theorem writePuts_get {D : Type} (ops : DatabaseOps D)
    (hput : ∀ d k v, (ops.Put d k v).1 = none ∧
      ∀ k1, ops.Get (ops.Put d k v).2 k1 = if k1 = k then some v else ops.Get d k1)
    (writes : GoMap Value) (keys : List Key) (d : D) :
    (writePuts ops writes keys d).1 = none ∧
      ∀ k, ops.Get (writePuts ops writes keys d).2.1 k =
        if k ∈ keys then some ((writes.index k).getD []) else ops.Get d k := by
  induction keys generalizing d with
  | nil => exact ⟨rfl, fun k => by simp [writePuts]⟩
  | cons key rest ih =>
    obtain ⟨hok, hget⟩ := hput d key ((writes.index key).getD [])
    unfold writePuts
    dsimp only
    rcases hp : ops.Put d key ((writes.index key).getD []) with ⟨_ | e, d1⟩
    · rw [hp] at hget
      obtain ⟨h1, h2⟩ := ih d1
      refine ⟨h1, ?_⟩
      intro k
      dsimp only
      rw [h2 k, hget k]
      by_cases hk : k = key
      · subst hk
        by_cases hr : k ∈ rest
        · simp [hr]
        · simp [hr]
      · simp [hk]
    · rw [hp] at hok
      cases hok

/-- On a reliable database the second loop of `Write` succeeds and leaves nothing
under every key it visited. -/
theorem writeDeletes_get {D : Type} (ops : DatabaseOps D)
    (hdel : ∀ d k, (ops.Delete d k).1 = none ∧
      ∀ k1, ops.Get (ops.Delete d k).2 k1 = if k1 = k then none else ops.Get d k1)
    (keys : List Key) (d : D) :
    (writeDeletes ops keys d).1 = none ∧
      ∀ k, ops.Get (writeDeletes ops keys d).2.1 k =
        if k ∈ keys then none else ops.Get d k := by
  induction keys generalizing d with
  | nil => exact ⟨rfl, fun k => by simp [writeDeletes]⟩
  | cons key rest ih =>
    obtain ⟨hok, hget⟩ := hdel d key
    unfold writeDeletes
    dsimp only
    rcases hp : ops.Delete d key with ⟨_ | e, d1⟩
    · rw [hp] at hget
      obtain ⟨h1, h2⟩ := ih d1
      refine ⟨h1, ?_⟩
      intro k
      dsimp only
      rw [h2 k, hget k]
      by_cases hk : k = key
      · subst hk
        by_cases hr : k ∈ rest
        · simp [hr]
        · simp [hr]
      · simp [hk]
    · rw [hp] at hok
      cases hok

/-- The first loop of `Write` calls only `Put`, stops at the first call that
fails and returns its error wrapped. -/
theorem writePuts_trace {D : Type} (ops : DatabaseOps D) (writes : GoMap Value)
    (keys : List Key) (d : D) :
    (∀ c ∈ (writePuts ops writes keys d).2.2, c.isDelete = false) ∧
    (∀ c ∈ (writePuts ops writes keys d).2.2.dropLast, c.err = none) ∧
    ((writePuts ops writes keys d).1 = none →
      ∀ c ∈ (writePuts ops writes keys d).2.2, c.err = none) ∧
    (∀ c ∈ (writePuts ops writes keys d).2.2, ∀ e, c.err = some e →
      (writePuts ops writes keys d).1 = some (Error.Wrap e "Failed to put entry.")) ∧
    ((writePuts ops writes keys d).1 ≠ none →
      ∃ c ∈ (writePuts ops writes keys d).2.2, c.err ≠ none) := by
  induction keys generalizing d with
  | nil =>
    refine ⟨?_, ?_, ?_, ?_, ?_⟩ <;> simp [writePuts]
  | cons key rest ih =>
    unfold writePuts
    dsimp only
    rcases hp : ops.Put d key ((writes.index key).getD []) with ⟨_ | e, d1⟩
    · obtain ⟨h1, h2, h3, h4, h5⟩ := ih d1
      dsimp only
      refine ⟨?_, ?_, ?_, ?_, ?_⟩
      · intro c hc
        rcases List.mem_cons.1 hc with rfl | hc
        · rfl
        · exact h1 c hc
      · intro c hc
        by_cases hnil : (writePuts ops writes rest d1).2.2 = []
        · rw [hnil] at hc
          cases hc
        · rw [List.dropLast_cons_of_ne_nil hnil] at hc
          rcases List.mem_cons.1 hc with rfl | hc
          · rfl
          · exact h2 c hc
      · intro hnone c hc
        rcases List.mem_cons.1 hc with rfl | hc
        · rfl
        · exact h3 hnone c hc
      · intro c hc e he
        rcases List.mem_cons.1 hc with rfl | hc
        · cases he
        · exact h4 c hc e he
      · intro hne
        obtain ⟨c, hc, hce⟩ := h5 hne
        exact ⟨c, List.mem_cons_of_mem _ hc, hce⟩
    · dsimp only
      refine ⟨?_, ?_, ?_, ?_, ?_⟩
      · intro c hc
        rw [List.mem_singleton] at hc
        subst hc
        rfl
      · intro c hc
        cases hc
      · intro hnone
        cases hnone
      · intro c hc e1 he
        rw [List.mem_singleton] at hc
        subst hc
        cases he
        rfl
      · intro _
        exact ⟨_, List.mem_singleton.2 rfl, by simp [DBCall.err]⟩

/-- The second loop of `Write` calls only `Delete`, stops at the first call that
fails and returns its error wrapped. -/
theorem writeDeletes_trace {D : Type} (ops : DatabaseOps D) (keys : List Key) (d : D) :
    (∀ c ∈ (writeDeletes ops keys d).2.2.dropLast, c.err = none) ∧
    ((writeDeletes ops keys d).1 = none → ∀ c ∈ (writeDeletes ops keys d).2.2, c.err = none) ∧
    (∀ c ∈ (writeDeletes ops keys d).2.2, ∀ e, c.err = some e →
      (writeDeletes ops keys d).1 = some (Error.Wrap e "Failed to delete entry.")) ∧
    (∀ c ∈ (writeDeletes ops keys d).2.2, c.isDelete = true) ∧
    ((writeDeletes ops keys d).1 ≠ none →
      ∃ c ∈ (writeDeletes ops keys d).2.2, c.err ≠ none) := by
  induction keys generalizing d with
  | nil =>
    refine ⟨?_, ?_, ?_, ?_, ?_⟩ <;> simp [writeDeletes]
  | cons key rest ih =>
    unfold writeDeletes
    dsimp only
    rcases hp : ops.Delete d key with ⟨_ | e, d1⟩
    · obtain ⟨h2, h3, h4, h5, h6⟩ := ih d1
      dsimp only
      refine ⟨?_, ?_, ?_, ?_, ?_⟩
      · intro c hc
        by_cases hnil : (writeDeletes ops rest d1).2.2 = []
        · rw [hnil] at hc
          cases hc
        · rw [List.dropLast_cons_of_ne_nil hnil] at hc
          rcases List.mem_cons.1 hc with rfl | hc
          · rfl
          · exact h2 c hc
      · intro hnone c hc
        rcases List.mem_cons.1 hc with rfl | hc
        · rfl
        · exact h3 hnone c hc
      · intro c hc e he
        rcases List.mem_cons.1 hc with rfl | hc
        · cases he
        · exact h4 c hc e he
      · intro c hc
        rcases List.mem_cons.1 hc with rfl | hc
        · rfl
        · exact h5 c hc
      · intro hne
        obtain ⟨c, hc, hce⟩ := h6 hne
        exact ⟨c, List.mem_cons_of_mem _ hc, hce⟩
    · dsimp only
      refine ⟨?_, ?_, ?_, ?_, ?_⟩
      · intro c hc
        cases hc
      · intro hnone
        cases hnone
      · intro c hc e1 he
        rw [List.mem_singleton] at hc
        subst hc
        cases he
        rfl
      · intro c hc
        rw [List.mem_singleton] at hc
        subst hc
        rfl
      · intro _
        exact ⟨_, List.mem_singleton.2 rfl, by simp [DBCall.err]⟩

/-- The database in memory is reliable. -/
theorem memoryOps_Reliable : memoryOps.Reliable :=
  ⟨fun _ _ _ => ⟨rfl, fun _ => rfl⟩, fun _ _ => ⟨rfl, fun _ => rfl⟩⟩

/-- When the first loop of `Write` succeeds, the second one runs on the database
it left. -/
theorem Batch.Write_of_puts_ok {D : Type} (ops : DatabaseOps D) (b : Batch)
    (worder dorder : List Key) (d : D) (h : (writePuts ops b.writes worder d).1 = none) :
    b.Write ops worder dorder d =
      ⟨(writeDeletes ops dorder (writePuts ops b.writes worder d).2.1).1,
        (writeDeletes ops dorder (writePuts ops b.writes worder d).2.1).2.1, b,
        (writePuts ops b.writes worder d).2.2
          ++ (writeDeletes ops dorder (writePuts ops b.writes worder d).2.1).2.2⟩ := by
  unfold Batch.Write
  rcases hp : writePuts ops b.writes worder d with ⟨_ | e, d1, tr⟩
  · rfl
  · rw [hp] at h
    cases h

/-- When the first loop of `Write` fails, `Write` returns its error and the second
loop does not run. -/
theorem Batch.Write_of_puts_failed {D : Type} (ops : DatabaseOps D) (b : Batch)
    (worder dorder : List Key) (d : D) (h : (writePuts ops b.writes worder d).1 ≠ none) :
    b.Write ops worder dorder d =
      ⟨(writePuts ops b.writes worder d).1, (writePuts ops b.writes worder d).2.1, b,
        (writePuts ops b.writes worder d).2.2⟩ := by
  unfold Batch.Write
  rcases hp : writePuts ops b.writes worder d with ⟨_ | e, d1, tr⟩
  · rw [hp] at h
    exact absurd rfl h
  · rfl

/-- On a reliable database `Write` succeeds and leaves nothing under the keys of
the second loop, the pending value under the other keys of the first loop, and
every other key alone. -/
theorem Batch.Write_get {D : Type} (ops : DatabaseOps D) (hops : ops.Reliable) (b : Batch)
    (worder dorder : List Key) (d : D) :
    (b.Write ops worder dorder d).err = none ∧
      ∀ k, ops.Get (b.Write ops worder dorder d).db k =
        if k ∈ dorder then none
        else if k ∈ worder then some ((b.writes.index k).getD []) else ops.Get d k := by
  obtain ⟨hp1, hp2⟩ := writePuts_get ops hops.1 b.writes worder d
  obtain ⟨hd1, hd2⟩ := writeDeletes_get ops hops.2 dorder (writePuts ops b.writes worder d).2.1
  rw [Batch.Write_of_puts_ok ops b worder dorder d hp1]
  refine ⟨hd1, ?_⟩
  intro k
  dsimp only
  rw [hd2 k, hp2 k]

/-- For every database `Write` leaves the batch as it was, stops at the first call
that fails and returns its error wrapped; no `Delete` is called after a failed
`Put`. -/
theorem Batch.Write_trace {D : Type} (ops : DatabaseOps D) (b : Batch)
    (worder dorder : List Key) (d : D) :
    (b.Write ops worder dorder d).batch = b ∧
    (∀ c ∈ (b.Write ops worder dorder d).trace.dropLast, c.err = none) ∧
    ((b.Write ops worder dorder d).err = none ↔
      ∀ c ∈ (b.Write ops worder dorder d).trace, c.err = none) ∧
    (∀ k v e, DBCall.Put k v (some e) ∈ (b.Write ops worder dorder d).trace →
      (b.Write ops worder dorder d).err = some (Error.Wrap e "Failed to put entry.") ∧
      ∀ c ∈ (b.Write ops worder dorder d).trace, c.isDelete = false) ∧
    (∀ k e, DBCall.Delete k (some e) ∈ (b.Write ops worder dorder d).trace →
      (b.Write ops worder dorder d).err = some (Error.Wrap e "Failed to delete entry.")) := by
  obtain ⟨p1, p2, p3, p4, p5⟩ := writePuts_trace ops b.writes worder d
  by_cases hp : (writePuts ops b.writes worder d).1 = none
  · obtain ⟨q2, q3, q4, q5, q6⟩ :=
      writeDeletes_trace ops dorder (writePuts ops b.writes worder d).2.1
    rw [Batch.Write_of_puts_ok ops b worder dorder d hp]
    dsimp only
    refine ⟨rfl, ?_, ⟨?_, ?_⟩, ?_, ?_⟩
    · intro c hc
      by_cases hnil : (writeDeletes ops dorder (writePuts ops b.writes worder d).2.1).2.2 = []
      · rw [hnil, List.append_nil] at hc
        exact p3 hp c (List.dropLast_subset _ hc)
      · rw [List.dropLast_append_of_ne_nil _ hnil] at hc
        rcases List.mem_append.1 hc with hc | hc
        · exact p3 hp c hc
        · exact q2 c hc
    · intro hnone c hc
      rcases List.mem_append.1 hc with hc | hc
      · exact p3 hp c hc
      · exact q3 hnone c hc
    · intro hall
      by_contra hne
      obtain ⟨c, hc, hce⟩ := q6 hne
      exact hce (hall c (List.mem_append_right _ hc))
    · intro k v e hc
      rcases List.mem_append.1 hc with hc | hc
      · have := p3 hp _ hc
        cases this
      · have := q5 _ hc
        cases this
    · intro k e hc
      rcases List.mem_append.1 hc with hc | hc
      · have := p1 _ hc
        cases this
      · exact q4 _ hc e rfl
  · rw [Batch.Write_of_puts_failed ops b worder dorder d hp]
    dsimp only
    refine ⟨rfl, p2, ⟨fun h => absurd h hp, ?_⟩, ?_, ?_⟩
    · intro hall
      obtain ⟨c, hc, hce⟩ := p5 hp
      exact absurd (hall c hc) hce
    · intro k v e hc
      exact ⟨p4 _ hc e rfl, p1⟩
    · intro k e hc
      have := p1 _ hc
      cases this

/-- C28: when the `Put` and `Delete` of the database never fail and do what
their names say, then after every sequence of calls of `Put` and `Delete` on a
batch that starts empty, `Write` returns `nil` for every order in which `range`
visits the keys of `writes` and of `deletes`, leaves the batch with its `Len`
and `ValueSize` as it was, and leaves a database that holds `v` under every key
whose last call was `Put(k, v)`, nothing under a key whose last call was
`Delete`, and under a key without a call what it held before; so any two
orders leave databases that hold the same under every key.  For every database
and every batch, `Write` stops at the first call of the database that fails:
all calls before the last one have succeeded, `Write` returns `nil` exactly
when all have, a failed `Put` is returned with "Failed to put entry." wrapped
around it and no `Delete` has been called then, and a failed `Delete` is
returned with "Failed to delete entry." wrapped around it. -/
theorem Batch_Write_spec {D : Type} (ops : DatabaseOps D) :
    (ops.Reliable → ∀ (cs : List BatchCall) (d : D), ∃ b, emptyBatch.calls cs = some b ∧
      ∀ worder dorder, worder.Perm b.writes.keys → dorder.Perm b.deletes.keys →
        (b.Write ops worder dorder d).err = none ∧
        (b.Write ops worder dorder d).batch = b ∧
        (b.Write ops worder dorder d).batch.Len = b.Len ∧
        (b.Write ops worder dorder d).batch.ValueSize = b.ValueSize ∧
        (∀ k v, lastCall k cs = some (.Put k v) →
          ops.Get (b.Write ops worder dorder d).db k = some v) ∧
        (∀ k, lastCall k cs = some (.Delete k) →
          ops.Get (b.Write ops worder dorder d).db k = none) ∧
        (∀ k, lastCall k cs = none →
          ops.Get (b.Write ops worder dorder d).db k = ops.Get d k) ∧
        (∀ worder1 dorder1, worder1.Perm b.writes.keys → dorder1.Perm b.deletes.keys →
          ∀ k, ops.Get (b.Write ops worder1 dorder1 d).db k
            = ops.Get (b.Write ops worder dorder d).db k)) ∧
    (∀ (b : Batch) (worder dorder : List Key) (d : D),
      (b.Write ops worder dorder d).batch = b ∧
      (∀ c ∈ (b.Write ops worder dorder d).trace.dropLast, c.err = none) ∧
      ((b.Write ops worder dorder d).err = none ↔
        ∀ c ∈ (b.Write ops worder dorder d).trace, c.err = none) ∧
      (∀ k v e, DBCall.Put k v (some e) ∈ (b.Write ops worder dorder d).trace →
        (b.Write ops worder dorder d).err = some (Error.Wrap e "Failed to put entry.") ∧
        ∀ c ∈ (b.Write ops worder dorder d).trace, c.isDelete = false) ∧
      (∀ k e, DBCall.Delete k (some e) ∈ (b.Write ops worder dorder d).trace →
        (b.Write ops worder dorder d).err = some (Error.Wrap e "Failed to delete entry."))) := by
  refine ⟨?_, Batch.Write_trace ops⟩
  intro hops cs d
  obtain ⟨b, hcalls, hinv, hentry⟩ := Batch.calls_spec emptyBatch emptyBatch_Inv cs
  refine ⟨b, hcalls, ?_⟩
  have hget : ∀ worder dorder, worder.Perm b.writes.keys → dorder.Perm b.deletes.keys →
      ∀ k, ops.Get (b.Write ops worder dorder d).db k =
        if k ∈ b.deletes.keys then none
        else if k ∈ b.writes.keys then some ((b.writes.index k).getD []) else ops.Get d k := by
    intro worder dorder hw hd k
    rw [(Batch.Write_get ops hops b worder dorder d).2 k]
    simp only [hw.mem_iff, hd.mem_iff]
  have hdel : ∀ k, k ∈ b.deletes.keys ↔ (b.entry k).2 = true := fun k =>
    (GoMap.index_isSome b.deletes k).symm
  intro worder dorder hw hd
  have hbatch := (Batch.Write_trace ops b worder dorder d).1
  refine ⟨(Batch.Write_get ops hops b worder dorder d).1, hbatch, by rw [hbatch], by rw [hbatch],
    ?_, ?_, ?_, ?_⟩
  · intro k v hlast
    have he := hentry k
    rw [hlast] at he
    have h1 : b.writes.index k = some v := congrArg Prod.fst he
    have h2 : (b.entry k).2 = false := congrArg Prod.snd he
    have hnd : k ∉ b.deletes.keys := by
      rw [hdel, h2]
      simp
    have hin : k ∈ b.writes.keys := by
      rw [← GoMap.index_isSome, h1]
      rfl
    rw [hget worder dorder hw hd k, if_neg hnd, if_pos hin, h1]
    rfl
  · intro k hlast
    have he := hentry k
    rw [hlast] at he
    have h2 : (b.entry k).2 = true := congrArg Prod.snd he
    rw [hget worder dorder hw hd k, if_pos ((hdel k).2 h2)]
  · intro k hlast
    have he := hentry k
    rw [hlast] at he
    have h1 : b.writes.index k = none := congrArg Prod.fst he
    have h2 : (b.entry k).2 = false := congrArg Prod.snd he
    have hnd : k ∉ b.deletes.keys := by
      rw [hdel, h2]
      simp
    rw [hget worder dorder hw hd k, if_neg hnd, if_neg ((GoMap.index_eq_none _ _).1 h1)]
  · intro worder1 dorder1 hw1 hd1 k
    rw [hget worder dorder hw hd k, hget worder1 dorder1 hw1 hd1 k]

/-- Witness of C28: the batch after the sample sequence is written to a
database in memory that holds `[9]` under every key; and to a database whose
`Delete` fails. -/
theorem Batch_Write_spec_witness :
    (sampleBatch.Write memoryOps [[1]] [[2]] (fun _ => some [9])).err = none ∧
    memoryOps.Get (sampleBatch.Write memoryOps [[1]] [[2]] (fun _ => some [9])).db [1]
      = some [5, 6] ∧
    memoryOps.Get (sampleBatch.Write memoryOps [[1]] [[2]] (fun _ => some [9])).db [2] = none ∧
    memoryOps.Get (sampleBatch.Write memoryOps [[1]] [[2]] (fun _ => some [9])).db [3]
      = some [9] ∧
    (sampleBatch.Write failingOps [[1]] [[2]] ()).err
      = some (Error.Wrap (Error.New "read-only") "Failed to delete entry.") := by
  obtain ⟨b, hb, h⟩ :=
    (Batch_Write_spec memoryOps).1 memoryOps_Reliable sampleCalls (fun _ => some [9])
  have hval : emptyBatch.calls sampleCalls = some sampleBatch := by decide
  rw [hval] at hb
  cases hb
  obtain ⟨h1, _, _, _, h2, h3, h4, _⟩ := h [[1]] [[2]] (List.Perm.refl _) (List.Perm.refl _)
  exact ⟨h1, h2 [1] [5, 6] (by decide), h3 [2] (by decide), h4 [3] (by decide),
    ((Batch_Write_spec failingOps).2 sampleBatch [[1]] [[2]] ()).2.2.2.2 [2]
      (Error.New "read-only") (by decide)⟩

/-! ## The batch of the in-memory database: one value under many keys -/

/-- There is no last call about a key exactly when no call is about the key. -/
theorem lastCall_eq_none (k : Key) (cs : List BatchCall) :
    lastCall k cs = none ↔ ∀ c ∈ cs, c.key ≠ k := by
  induction cs with
  | nil => simp [lastCall]
  | cons c rest ih =>
    have hcons : lastCall k (c :: rest) =
        match lastCall k rest with
        | some c1 => some c1
        | none => if c.key = k then some c else none := rfl
    rw [hcons]
    cases hr : lastCall k rest with
    | some c1 =>
      rw [hr] at ih
      constructor
      · intro h
        cases h
      · intro hall
        exact ih.2 (fun x hx => hall x (List.mem_cons_of_mem _ hx))
    | none =>
      rw [hr] at ih
      have hrest := ih.1 rfl
      dsimp only
      by_cases hk : c.key = k
      · rw [if_pos hk]
        constructor
        · intro h
          cases h
        · intro hall
          exact absurd hk (hall c (List.mem_cons_self _ _))
      · rw [if_neg hk]
        constructor
        · intro _ x hx
          rcases List.mem_cons.1 hx with rfl | hx
          · exact hk
          · exact hrest x hx
        · intro _
          rfl

/-- The last call about a key is one of the calls. -/
theorem lastCall_mem (k : Key) (cs : List BatchCall) (c : BatchCall)
    (h : lastCall k cs = some c) : c ∈ cs := by
  induction cs with
  | nil => cases h
  | cons c0 rest ih =>
    have hcons : lastCall k (c0 :: rest) =
        match lastCall k rest with
        | some c1 => some c1
        | none => if c0.key = k then some c0 else none := rfl
    rw [hcons] at h
    cases hr : lastCall k rest with
    | some c1 =>
      rw [hr] at h
      cases h
      exact List.mem_cons_of_mem _ (ih hr)
    | none =>
      rw [hr] at h
      dsimp only at h
      split_ifs at h with hk
      cases h
      exact List.mem_cons_self _ _

/-- A sequence of calls followed by another is the first followed by the
second on its result. -/
theorem Batch.calls_append (b : Batch) (l1 l2 : List BatchCall) :
    b.calls (l1 ++ l2) = (b.calls l1).bind (fun b1 => b1.calls l2) := by
  induction l1 generalizing b with
  | nil => rfl
  | cons c rest ih =>
    simp only [List.cons_append, Batch.calls]
    cases b.call c with
    | none => rfl
    | some b1 => simpa using ih b1

/-- The calls of `sharedPuts` are puts of the value under keys of fewer than
`n` bytes. -/
theorem mem_sharedPuts (n : Nat) (value : Value) (c : BatchCall) (h : c ∈ sharedPuts n value) :
    ∃ i, i < n ∧ c = .Put (List.replicate i 0) value := by
  unfold sharedPuts at h
  obtain ⟨i, hi, rfl⟩ := List.mem_map.1 h
  exact ⟨i, List.mem_range.1 hi, rfl⟩

/-- After the value has been put under `n` keys, the pending size is `n` times
its length. -/
theorem sharedPuts_pendingSize (n : Nat) (value : Value) :
    ∃ b, emptyBatch.calls (sharedPuts n value) = some b ∧ b.Inv ∧
      pendingSize b = n * value.length := by
  induction n with
  | zero => exact ⟨emptyBatch, rfl, emptyBatch_Inv, by simp [pendingSize, emptyBatch, GoMap.entries]⟩
  | succ n ih =>
    obtain ⟨b, hb, hinv, hsize⟩ := ih
    obtain ⟨b0, hb0, _, hentry⟩ := Batch.calls_spec emptyBatch emptyBatch_Inv (sharedPuts n value)
    rw [hb] at hb0
    cases hb0
    have hnone : lastCall (List.replicate n 0) (sharedPuts n value) = none := by
      rw [lastCall_eq_none]
      intro c hc hkey
      obtain ⟨i, hi, rfl⟩ := mem_sharedPuts n value c hc
      have hlen := congrArg List.length hkey
      simp only [BatchCall.key, List.length_replicate] at hlen
      omega
    have hidx : b.writes.index (List.replicate n 0) = none := by
      have he := hentry (List.replicate n 0)
      rw [hnone] at he
      exact congrArg Prod.fst he
    obtain ⟨b1, h1, hinv1, _, _, hsum⟩ := Batch.Put_spec b hinv (List.replicate n 0) value
    rw [hidx] at hsum
    simp only [Option.map_none', Option.getD_none, Nat.add_zero] at hsum
    refine ⟨b1, ?_, hinv1, ?_⟩
    · have hsplit : sharedPuts (n + 1) value
          = sharedPuts n value ++ [.Put (List.replicate n 0) value] := by
        simp only [sharedPuts, List.range_succ, List.map_append, List.map_cons, List.map_nil]
      rw [hsplit, Batch.calls_append, hb]
      simp only [Option.some_bind, Batch.calls, Batch.call, h1, Option.map_some']
    · rw [hsum, hsize]
      ring

/-- C26, counterexample: one value of 2^32 bytes is put under 2^32 keys, which
`Put` stores by reference.  No call panics, the lengths of the pending values
add up to 2^64, and `ValueSize()` is 0.  The value is pending under the empty
key with its 2^32 bytes, more than `bytes` holds, so that a following
`Delete` of that key subtracts with a wrap-around and leaves `ValueSize()` at
2^64 - 2^32. -/
theorem Batch_size_counterexample :
    ∃ b, emptyBatch.calls (sharedPuts 4294967296 (List.replicate 4294967296 0)) = some b ∧
      pendingSize b = 18446744073709551616 ∧ b.ValueSize = 0 ∧
      b.ValueSize ≠ pendingSize b ∧
      (∃ old, b.writes.index [] = some old ∧ old.length = 4294967296 ∧
        b.bytes < old.length) ∧
      ∃ b1, b.Delete [] = some (none, b1) ∧ b1.ValueSize = 18446744069414584320 := by
  obtain ⟨b, hb, hinv, hsize⟩ :=
    sharedPuts_pendingSize 4294967296 (List.replicate 4294967296 0)
  rw [List.length_replicate] at hsize
  have hsize2 : pendingSize b = 18446744073709551616 := by
    rw [hsize]
  have hbytes : b.bytes = 0 := by
    rw [hinv.2.2.2.2.2, hsize2]
    rfl
  obtain ⟨b0, hb0, _, hentry⟩ := Batch.calls_spec emptyBatch emptyBatch_Inv
    (sharedPuts 4294967296 (List.replicate 4294967296 0))
  rw [hb] at hb0
  cases hb0
  have hidx : b.writes.index [] = some (List.replicate 4294967296 0) := by
    have he := hentry []
    cases hl : lastCall [] (sharedPuts 4294967296 (List.replicate 4294967296 0)) with
    | none =>
      exfalso
      have hmem : BatchCall.Put (List.replicate 0 0) (List.replicate 4294967296 0)
          ∈ sharedPuts 4294967296 (List.replicate 4294967296 0) := by
        unfold sharedPuts
        exact List.mem_map.2 ⟨0, List.mem_range.2 (by omega), rfl⟩
      exact (lastCall_eq_none _ _).1 hl _ hmem rfl
    | some c =>
      rw [hl] at he
      obtain ⟨i, _, rfl⟩ := mem_sharedPuts _ _ c (lastCall_mem _ _ _ hl)
      exact congrArg Prod.fst he
  obtain ⟨b1, h1, hinv1, _, _, hsum⟩ := Batch.Delete_spec b hinv []
  rw [hidx, hsize2] at hsum
  simp only [Option.map_some', Option.getD_some, List.length_replicate] at hsum
  have hsize1 : pendingSize b1 = 18446744069414584320 := by omega
  refine ⟨b, hb, hsize2, hbytes, ?_, ⟨_, hidx, List.length_replicate _ _, ?_⟩, b1, h1, ?_⟩
  · rw [Batch.ValueSize, hbytes, hsize2]
    decide
  · rw [hbytes, List.length_replicate]
    decide
  · rw [Batch.ValueSize, hinv1.2.2.2.2.2, hsize1]
    rfl

end Perun
